import Mathlib

/-!
The security artifact resolver and the service endpoint info lifecycle of rmw.

A shallow embedding of

* `rmw_security_common/src/security.cpp` (the security file resolver),
* `src/service_endpoint_info.c` (the endpoint info record and its setters),
* `src/service_endpoint_info_array.c` (the array of endpoint info records),
* `rmw/src/enclave.c` (the copy of the enclave options),

together with the properties of these functions that the specification states.

Conventions of the embedding:

* a C pointer that may be `NULL` is an `Option`; `none` is `NULL`;
* `std::string` and `const char *` strings are `String`;
* the C++ standard library, `rcutils` and the allocator are collaborators of the code: their
  observable behaviour is an explicit argument (`Filesystem`, `IterationOrder`,
  `StringMapOracle`, `rcutils_allocator_t`, `Heap`).
-/

namespace Rmw

/-! ## Return codes -/

/-- The `rmw_ret_t` codes (rmw/ret_types.h) that the embedded functions return. The header
gives every code a different integer, which is what a type of constructors expresses. -/
inductive rmw_ret_t
  | RMW_RET_OK
  | RMW_RET_ERROR
  | RMW_RET_BAD_ALLOC
  | RMW_RET_INVALID_ARGUMENT
  deriving DecidableEq, Repr

open rmw_ret_t

/-! ## Security artifact resolver (`security.cpp`) -/

/-- What the resolver observes of `std::filesystem` and `std::ifstream`.

* `append root name` is the path `std::filesystem::path(root) /= name`;
* `generic_string p` is `p.generic_string()`;
* `is_regular_file p` is `std::filesystem::is_regular_file(p)`, for a file system whose status
  queries answer (they do not raise `filesystem_error`);
* `ifstream p` is `none` when `std::ifstream ifs(p)` is not open, and otherwise the characters
  that can be read from the stream. -/
structure Filesystem where
  append : String → String → String
  generic_string : String → String
  is_regular_file : String → Bool
  ifstream : String → Option String

/-- The classification `std::isspace` of the classic locale, which `operator>>` uses to skip
and to delimit: space, `\t`, `\n`, `\v`, `\f`, `\r`. -/
def isspace (c : Char) : Bool :=
  c.toNat = 32 || (9 ≤ c.toNat && c.toNat ≤ 13)

/-- The extraction `ifs >> result` of a `std::string` from a freshly opened stream holding
`content`: leading whitespace is skipped; when no character is left the sentry fails, the
stream goes into the fail state and `result` is not touched; otherwise `result` is erased and
receives the characters up to the next whitespace or the end of the stream. The `Bool` is the
stream state tested by `!(ifs >> result)`. -/
def extract (content : String) (result : String) : Bool × String :=
  match content.toList.dropWhile isspace with
  | [] => (false, result)
  | c :: rest => (true, String.mk ((c :: rest).takeWhile (fun x => !isspace x)))

/-- The local constant `p11_prefix` of `process_pkcs_uri_security_file`. -/
def p11_prefix_std : String := "pkcs11:"

/-- The test `result.find(p11_prefix) != 0` negated: `find` returns `0` exactly when the
string starts with `p11_prefix` . -/
def find_is_zero (result : String) : Bool :=
  p11_prefix_std.toList.isPrefixOf result.toList

/-- Processor for security attributes with FILE URI (`process_file_uri_security_file`).
The last argument is the incoming content of the reference `result`; the outcome is the
returned `bool` and the content of `result` afterwards. -/
def process_file_uri_security_file (fs : Filesystem) (_supports_pkcs11 : Bool)
    (prefix_std : String) (full_path : String) (result : String) : Bool × String :=
  if !fs.is_regular_file full_path then
    (false, result)
  else
    (true, prefix_std ++ fs.generic_string full_path)

/-- Processor for security attributes with PKCS#11 URI (`process_pkcs_uri_security_file`). -/
def process_pkcs_uri_security_file (fs : Filesystem) (supports_pkcs11 : Bool)
    (_prefix_std : String) (full_path : String) (result : String) : Bool × String :=
  if !supports_pkcs11 then
    (false, result)
  else
    match fs.ifstream full_path with
    | none => (false, result)
    | some content =>
      match extract content result with
      | (false, result1) => (false, result1)
      | (true, result1) =>
        if !find_is_zero result1 then
          (false, result1)
        else
          (true, result1)

/-- The type `security_file_processor` of the source:
`std::function<bool (bool, const std::string &, const std::filesystem::path &, std::string &)>`,
with the file system made explicit. -/
abbrev security_file_processor :=
  Filesystem → Bool → String → String → String → Bool × String

/-- The type `processor_vector` of the source: file names with their processors, ordered by
priority. -/
abbrev processor_vector := List (String × security_file_processor)

/-- The table `required_files`, in the order of its initializer list. -/
def required_files : List (String × processor_vector) :=
  [ ("IDENTITY_CA",
      [ ("identity_ca.cert.p11", process_pkcs_uri_security_file),
        ("identity_ca.cert.pem", process_file_uri_security_file) ]),
    ("CERTIFICATE",
      [ ("cert.p11", process_pkcs_uri_security_file),
        ("cert.pem", process_file_uri_security_file) ]),
    ("PRIVATE_KEY",
      [ ("key.p11", process_pkcs_uri_security_file),
        ("key.pem", process_file_uri_security_file) ]),
    ("PERMISSIONS_CA",
      [ ("permissions_ca.cert.p11", process_pkcs_uri_security_file),
        ("permissions_ca.cert.pem", process_file_uri_security_file) ]),
    ("GOVERNANCE",
      [ ("governance.p7s", process_file_uri_security_file) ]),
    ("PERMISSIONS",
      [ ("permissions.p7s", process_file_uri_security_file) ]) ]

/-- The table `optional_files`. -/
def optional_files : List (String × String) :=
  [ ("CRL", "crl.pem") ]

/-- Assignment `m[key] = value` on a map kept as a list of entries with distinct keys: the
value of an existing key is replaced, a new key gets a new entry. It is used for
`std::unordered_map::operator[]` and for the content of an `rcutils_string_map_t`. -/
def assign (m : List (String × String)) (key value : String) : List (String × String) :=
  match m with
  | [] => [(key, value)]
  | (k, v) :: rest =>
    if k = key then (key, value) :: rest else (k, v) :: assign rest key value

/-- Lookup of a key in a map kept as a list of entries. -/
def lookup (m : List (String × String)) (key : String) : Option String :=
  match m with
  | [] => none
  | (k, v) :: rest => if k = key then some v else lookup rest key

/-- The keys of a map kept as a list of entries. -/
def keys (m : List (String × String)) : List String :=
  m.map Prod.fst

/-- The order in which the two range-based `for` loops visit their `std::unordered_map`, which
the C++ standard leaves to the implementation: `required` is the sequence in which
`required_files` is visited, and `result m` the sequence in which a `result_std` with entries
`m` is visited. Each is a rearrangement of the entries. -/
structure IterationOrder where
  required : List (String × processor_vector)
  required_perm : required.Perm required_files
  result : List (String × String) → List (String × String)
  result_perm : ∀ m, (result m).Perm m

/-- The iteration order that follows the order of insertion. -/
def insertion_order : IterationOrder where
  required := required_files
  required_perm := List.Perm.refl _
  result := fun m => m
  result_perm := fun _ => List.Perm.refl _

/-- The content of an `rcutils_string_map_t`: its key-value entries. -/
abbrev rcutils_string_map_t := List (String × String)

/-- Outcomes of the calls into `rcutils` made by one run of the resolver: `reserve_ok` tells
whether `rcutils_string_map_reserve` returns `RCUTILS_RET_OK`, and `set_ok i` whether the call
number `i` (from 0) of `rcutils_string_map_set` does. A call that fails leaves the map as it
was. -/
structure StringMapOracle where
  reserve_ok : Bool
  set_ok : Nat → Bool

/-- The oracle of a run in which every string map call succeeds. -/
def all_succeed : StringMapOracle where
  reserve_ok := true
  set_ok := fun _ => true

/-- The inner loop `for (auto & proc : el.second)`: the candidates of one attribute are tried
in order on the shared `attribute_value`; the outcome is `processed` and `attribute_value`. -/
def candidates_loop (fs : Filesystem) (supports_pkcs11 : Bool) (prefix_std secure_root_std : String) :
    processor_vector → String → Bool × String
  | [], attribute_value => (false, attribute_value)
  | proc :: rest, attribute_value =>
    let full_path := fs.append secure_root_std proc.1
    match proc.2 fs supports_pkcs11 prefix_std full_path attribute_value with
    | (true, attribute_value1) => (true, attribute_value1)
    | (false, attribute_value1) =>
      candidates_loop fs supports_pkcs11 prefix_std secure_root_std rest attribute_value1

/-- The loop over `required_files`, visited in the given sequence, acting on `result_std`.
`none` is the exit `result_std.clear(); return RMW_RET_ERROR;`. -/
def required_loop (fs : Filesystem) (supports_pkcs11 : Bool) (prefix_std secure_root_std : String) :
    List (String × processor_vector) → List (String × String) → Option (List (String × String))
  | [], result_std => some result_std
  | el :: rest, result_std =>
    match candidates_loop fs supports_pkcs11 prefix_std secure_root_std el.2 "" with
    | (false, _) => none
    | (true, attribute_value) =>
      required_loop fs supports_pkcs11 prefix_std secure_root_std rest
        (assign result_std el.1 attribute_value)

/-- The loop over `optional_files`, acting on `result_std`. -/
def optional_loop (fs : Filesystem) (prefix_std secure_root_std : String) :
    List (String × String) → List (String × String) → List (String × String)
  | [], result_std => result_std
  | el :: rest, result_std =>
    let full_path := fs.append secure_root_std el.2
    if fs.is_regular_file full_path then
      optional_loop fs prefix_std secure_root_std rest
        (assign result_std el.1 (prefix_std ++ fs.generic_string full_path))
    else
      optional_loop fs prefix_std secure_root_std rest result_std

/-- The part of `get_security_files_support_pkcs` that builds the local `result_std`
(lines 105 to 156): `none` when the function leaves with `RMW_RET_ERROR`. -/
def build_result_std (fs : Filesystem) (io : IterationOrder) (supports_pkcs11 : Bool)
    (prefix_std secure_root_std : String) : Option (List (String × String)) :=
  match required_loop fs supports_pkcs11 prefix_std secure_root_std io.required [] with
  | none => none
  | some result_std => some (optional_loop fs prefix_std secure_root_std optional_files result_std)

/-- The C string that `s.c_str()` is to a function that receives a `const char *`, such as
`rcutils_string_map_set`, which copies it: the characters of the `std::string` before its
first NUL character, and all of them when it holds none. -/
def c_str (s : String) : String :=
  String.mk (s.toList.takeWhile (fun c => c.toNat != 0))

/-- The final loop `for (const auto & [key, value] : result_std)` with its calls
`rcutils_string_map_set(result, key.c_str(), value.c_str())`; `i` numbers the calls. The
outcome is the returned code and the caller's map. -/
def set_loop (o : StringMapOracle) :
    List (String × String) → Nat → rcutils_string_map_t → rmw_ret_t × rcutils_string_map_t
  | [], _, result => (RMW_RET_OK, result)
  | (key, value) :: rest, i, result =>
    if o.set_ok i then
      set_loop o rest (i + 1) (assign result (c_str key) (c_str value))
    else
      (RMW_RET_ERROR, result)

/-- The function `get_security_files_support_pkcs`. The outcome is the returned code and the
content of the caller's string map afterwards (`none` when the caller passed `NULL`). -/
def get_security_files_support_pkcs (fs : Filesystem) (io : IterationOrder) (o : StringMapOracle)
    (supports_pkcs11 : Bool) (prefix_arg secure_root : Option String)
    (result : Option rcutils_string_map_t) : rmw_ret_t × Option rcutils_string_map_t :=
  match prefix_arg, secure_root, result with
  | none, _, _ => (RMW_RET_INVALID_ARGUMENT, result)
  | some _, none, _ => (RMW_RET_INVALID_ARGUMENT, result)
  | some _, some _, none => (RMW_RET_INVALID_ARGUMENT, none)
  | some prefix_std, some secure_root_std, some map =>
    match build_result_std fs io supports_pkcs11 prefix_std secure_root_std with
    | none => (RMW_RET_ERROR, some map)
    | some result_std =>
      if !o.reserve_ok then
        (RMW_RET_ERROR, some map)
      else
        let r := set_loop o (io.result result_std) 0 map
        (r.1, some r.2)

/-- The function `get_security_files`. -/
def get_security_files (fs : Filesystem) (io : IterationOrder) (o : StringMapOracle)
    (prefix_arg secure_root : Option String) (result : Option rcutils_string_map_t) :
    rmw_ret_t × Option rcutils_string_map_t :=
  get_security_files_support_pkcs fs io o false prefix_arg secure_root result

/-! ### Vocabulary of the specification of the resolver -/

/-- The six mandatory attribute names. -/
def mandatory_attributes : List String :=
  ["IDENTITY_CA", "CERTIFICATE", "PRIVATE_KEY", "PERMISSIONS_CA", "GOVERNANCE", "PERMISSIONS"]

/-- The plain-file name of each mandatory attribute. -/
def plain_file_names : List (String × String) :=
  [ ("IDENTITY_CA", "identity_ca.cert.pem"), ("CERTIFICATE", "cert.pem"),
    ("PRIVATE_KEY", "key.pem"), ("PERMISSIONS_CA", "permissions_ca.cert.pem"),
    ("GOVERNANCE", "governance.p7s"), ("PERMISSIONS", "permissions.p7s") ]

/-- The PKCS#11 reference file name of each attribute that has one. -/
def token_file_names : List (String × String) :=
  [ ("IDENTITY_CA", "identity_ca.cert.p11"), ("CERTIFICATE", "cert.p11"),
    ("PRIVATE_KEY", "key.p11"), ("PERMISSIONS_CA", "permissions_ca.cert.p11") ]

/-- The string `tok` is the first whitespace-delimited token of `content`: `content` is some
whitespace, then `tok`, which is not empty and has no whitespace, then nothing or a rest that
starts with whitespace. -/
def is_first_token (content tok : String) : Prop :=
  tok.toList ≠ [] ∧ (∀ c ∈ tok.toList, isspace c = false) ∧
    ∃ ws rest, content.toList = ws ++ (tok.toList ++ rest) ∧ (∀ c ∈ ws, isspace c = true) ∧
      (∀ c, rest.head? = some c → isspace c = true)

/-- The string `s` starts with the literal `pkcs11:`. -/
def starts_with_pkcs11 (s : String) : Prop :=
  ∃ rest, s = "pkcs11:" ++ rest

/-- The string holds no NUL character, as every C string does: the prefix and the secure root,
which the caller passes as `const char *`, and the paths made of them. -/
def nul_free (s : String) : Prop :=
  ∀ c ∈ s.toList, c.toNat ≠ 0

instance (s : String) : Decidable (nul_free s) := by
  unfold nul_free
  exact inferInstance

/-- Every string map call of the run succeeds. -/
def StringMapOracle.succeeds (o : StringMapOracle) : Prop :=
  o.reserve_ok = true ∧ ∀ i, o.set_ok i = true

/-- The candidate `proc` of a mandatory attribute resolves under `secure_root_std`: its
processor returns `true`, whatever the reference `result` held before. -/
def candidate_resolves (fs : Filesystem) (supports_pkcs11 : Bool)
    (prefix_std secure_root_std : String) (proc : String × security_file_processor) : Prop :=
  ∃ r, (proc.2 fs supports_pkcs11 prefix_std (fs.append secure_root_std proc.1) r).1 = true

/-! ### Fixtures: a directory of files -/

/-- A file system with POSIX paths in which exactly the paths of `regular` are regular files,
and the files of `readable` can be opened, with the given content. -/
def dir_fs (regular : List String) (readable : List (String × String)) : Filesystem where
  append := fun root name => root ++ "/" ++ name
  generic_string := fun p => p
  is_regular_file := fun p => decide (p ∈ regular)
  ifstream := fun p => lookup readable p

/-- The six plain files of a complete security directory `/sec`. -/
def sec_files : List String :=
  [ "/sec/identity_ca.cert.pem", "/sec/cert.pem", "/sec/key.pem",
    "/sec/permissions_ca.cert.pem", "/sec/governance.p7s", "/sec/permissions.p7s" ]

/-- The directory `/sec` with its six plain files and no reference file. -/
def sec_fs : Filesystem := dir_fs sec_files []

/-- The directory `/sec` with its six plain files and a reference file `key.p11`. -/
def sec_fs_token : Filesystem :=
  dir_fs sec_files [("/sec/key.p11", "pkcs11:token=abc;object=key\n")]

/-- The directory `/sec` with its six plain files and `crl.pem`. -/
def sec_fs_crl : Filesystem := dir_fs (sec_files ++ ["/sec/crl.pem"]) []

/-- The directory `/sec` without `governance.p7s`. -/
def sec_fs_no_governance : Filesystem :=
  dir_fs [ "/sec/identity_ca.cert.pem", "/sec/cert.pem", "/sec/key.pem",
    "/sec/permissions_ca.cert.pem", "/sec/permissions.p7s" ] []

/-- The directory `/sec` with a `key.p11` whose line holds a space after the prefix. -/
def sec_fs_spaced : Filesystem :=
  dir_fs sec_files [("/sec/key.p11", "pkcs11:token=my token;object=key\n")]

/-- The directory `/sec` with a `key.p11` whose token holds a NUL character after
`pkcs11:a`. -/
def sec_fs_nul : Filesystem :=
  dir_fs sec_files [("/sec/key.p11", "pkcs11:a\x00b\n")]

/-- The directory `/sec` with a `key.p11` whose text is not a PKCS#11 URI. -/
def sec_fs_rejected : Filesystem :=
  dir_fs sec_files [("/sec/key.p11", "BEGIN-PRIVATE-TEXT\n")]

/-- String map calls where the reserve and the first insertion succeed and the second insertion
fails. -/
def second_set_fails : StringMapOracle where
  reserve_ok := true
  set_ok := fun i => i != 1

/-! ## Value types and memory of the endpoint info record -/

/-- Constants of the target that the sources use and do not define: the width of `size_t`,
`RMW_GID_STORAGE_SIZE` (rmw/types.h), `sizeof(rmw_qos_profile_t)` and
`sizeof(rmw_service_endpoint_info_t)`. -/
structure Target where
  size_t_bits : Nat
  RMW_GID_STORAGE_SIZE : Nat
  sizeof_rmw_qos_profile_t : Nat
  sizeof_rmw_service_endpoint_info_t : Nat

/-- Multiplication of two `size_t` values. -/
def Target.size_mul (t : Target) (a b : Nat) : Nat :=
  (a * b) % 2 ^ t.size_t_bits

/-- The number of bytes of a type hash value, `ROSIDL_TYPE_HASH_SIZE` of
rosidl_runtime_c/type_hash.h. -/
def ROSIDL_TYPE_HASH_SIZE : Nat := 32

/-- The value type `rosidl_type_hash_t`: a version and `ROSIDL_TYPE_HASH_SIZE` bytes. -/
structure rosidl_type_hash_t where
  version : Nat
  value : List Nat
  deriving DecidableEq, Repr

/-- The type hash with every member zero. -/
def rosidl_get_zero_initialized_type_hash : rosidl_type_hash_t :=
  { version := 0, value := List.replicate ROSIDL_TYPE_HASH_SIZE 0 }

/-- Modelled from the spec: the enumeration `rmw_endpoint_type_t` of rmw/types.h, which is not
among the sources. The specification gives the kinds `Invalid`, `Client` and `Server`;
`RMW_ENDPOINT_INVALID` is the value of a zero-initialized member. -/
inductive rmw_endpoint_type_t
  | RMW_ENDPOINT_INVALID
  | RMW_ENDPOINT_CLIENT
  | RMW_ENDPOINT_SERVER
  deriving DecidableEq, Repr

open rmw_endpoint_type_t

/-- The value type `rmw_time_t`. -/
structure rmw_time_t where
  sec : Nat
  nsec : Nat
  deriving DecidableEq, Repr

/-- The value type `rmw_qos_profile_t` of rmw/types.h, with the members that the tests of the
record read and write; enumerations are kept as their integer values. -/
structure rmw_qos_profile_t where
  history : Nat
  depth : Nat
  reliability : Nat
  durability : Nat
  deadline : rmw_time_t
  lifespan : rmw_time_t
  liveliness : Nat
  liveliness_lease_duration : rmw_time_t
  avoid_ros_namespace_conventions : Bool
  deriving DecidableEq, Repr

/-- The structure `rmw_service_endpoint_info_t`. A pointer member is `none` when it is `NULL`
and otherwise the address of a block of the heap. -/
structure rmw_service_endpoint_info_t where
  node_name : Option Nat
  node_namespace : Option Nat
  service_type : Option Nat
  service_type_hash : rosidl_type_hash_t
  endpoint_type : rmw_endpoint_type_t
  endpoint_count : Nat
  endpoint_gids : Option Nat
  qos_profiles : Option Nat
  deriving DecidableEq, Repr

/-- What a block of allocated memory holds: nothing determinate yet, a NUL-terminated string,
an array of bytes, an array of QoS profiles, or an array of endpoint info records. -/
inductive Block
  | raw
  | string (s : String)
  | bytes (b : List Nat)
  | profiles (q : List rmw_qos_profile_t)
  | infos (records : List rmw_service_endpoint_info_t)
  deriving DecidableEq, Repr

/-- A live allocation: its address, its size in bytes and its content. -/
structure Cell where
  addr : Nat
  size : Nat
  content : Block
  deriving DecidableEq, Repr

/-- The memory managed through the allocator: the live allocations, and the addresses that were
released, the latest first. -/
structure Heap where
  cells : List Cell
  freed : List Nat
  deriving DecidableEq, Repr

/-- Whether an address is the address of a live allocation. -/
def Heap.is_live (h : Heap) (p : Nat) : Bool :=
  h.cells.any (fun c => decide (c.addr = p))

/-- An address above the address of every live allocation. -/
def Heap.fresh (h : Heap) : Nat :=
  (h.cells.map Cell.addr).foldr max 0 + 1

/-- The content of the live allocation at an address. -/
def Heap.content (h : Heap) (p : Nat) : Option Block :=
  (h.cells.find? (fun c => decide (c.addr = p))).map Cell.content

/-- Writing the content of the allocation at an address. -/
def Heap.store (h : Heap) (p : Nat) (content : Block) : Heap :=
  { h with cells := h.cells.map (fun c => if c.addr = p then { c with content := content } else c) }

/-- The structure `rcutils_allocator_t` as the code uses it. `grants n` tells whether `allocate`
serves a request of `n` bytes or returns `NULL`. The members `allocate` and `deallocate`, which
the code calls, are functions; the members `zero_allocate` and `reallocate`, which it does not
call, are recorded as set or `NULL`. -/
structure rcutils_allocator_t where
  grants : Nat → Bool
  zero_allocate_set : Bool
  reallocate_set : Bool

/-- The check `rcutils_allocator_is_valid` on an allocator of the model. -/
def rcutils_allocator_is_valid (allocator : Option rcutils_allocator_t) : Bool :=
  match allocator with
  | none => false
  | some a => a.zero_allocate_set && a.reallocate_set

/-- The call `allocator->allocate(size, allocator->state)`: `NULL`, or the address of a new
allocation of indeterminate content. -/
def allocate (allocator : rcutils_allocator_t) (size : Nat) (h : Heap) : Option Nat × Heap :=
  if allocator.grants size then
    (some h.fresh, { h with cells := h.cells ++ [{ addr := h.fresh, size := size, content := Block.raw }] })
  else
    (none, h)

/-- The call `allocator->deallocate(pointer, allocator->state)`, with the contract of `free`:
nothing happens for `NULL`, a live allocation is released, and any other pointer is undefined
behaviour, which is the outcome `none`. -/
def deallocate (_allocator : rcutils_allocator_t) (pointer : Option Nat) (h : Heap) : Option Heap :=
  match pointer with
  | none => some h
  | some p =>
    if h.is_live p then
      some { cells := h.cells.filter (fun c => !decide (c.addr = p)), freed := p :: h.freed }
    else
      none

/-- The function `rcutils_strdup`: `NULL` for a `NULL` string or when the allocation of the
length plus one bytes fails, and otherwise a new allocation holding a copy of the string. -/
def rcutils_strdup (str : Option String) (allocator : rcutils_allocator_t) (h : Heap) :
    Option Nat × Heap :=
  match str with
  | none => (none, h)
  | some s =>
    match allocate allocator (s.length + 1) h with
    | (none, h1) => (none, h1)
    | (some p, h1) => (some p, h1.store p (Block.string s))

/-- The call `memcpy(dst, src, n)` on arrays: the first `n` elements of `dst` become those of
`src`. Reading `n` elements from a shorter `src` is outside the array, which is `none`. -/
def memcpy {α : Type} (dst src : List α) (n : Nat) : Option (List α) :=
  if src.length < n then none else some (src.take n ++ dst.drop n)

/-! ## Endpoint info record (`service_endpoint_info.c`)

Every function returns `none` when the C function has undefined behaviour on its input (it
dereferences `NULL`, reads outside a buffer or releases a pointer that is not live), and
otherwise the returned code, the object behind the first pointer argument, and the heap. -/

/-- The function `rmw_get_zero_initialized_service_endpoint_info`. -/
def rmw_get_zero_initialized_service_endpoint_info : rmw_service_endpoint_info_t :=
  { node_name := none
    node_namespace := none
    service_type := none
    service_type_hash := rosidl_get_zero_initialized_type_hash
    endpoint_type := RMW_ENDPOINT_INVALID
    endpoint_count := 0
    endpoint_gids := none
    qos_profiles := none }

/-- The function `_rmw_service_endpoint_info_fini_str`, acting on the pointer member
`*service_endpoint_info_str`. -/
def _rmw_service_endpoint_info_fini_str (service_endpoint_info_str : Option Nat)
    (allocator : rcutils_allocator_t) (h : Heap) : Option (rmw_ret_t × Option Nat × Heap) :=
  match deallocate allocator service_endpoint_info_str h with
  | none => none
  | some h1 => some (RMW_RET_OK, none, h1)

/-- The function `_rmw_service_endpoint_info_fini_node_name`. -/
def _rmw_service_endpoint_info_fini_node_name (info : rmw_service_endpoint_info_t)
    (allocator : rcutils_allocator_t) (h : Heap) :
    Option (rmw_ret_t × rmw_service_endpoint_info_t × Heap) :=
  match _rmw_service_endpoint_info_fini_str info.node_name allocator h with
  | none => none
  | some (ret, p, h1) => some (ret, { info with node_name := p }, h1)

/-- The function `_rmw_service_endpoint_info_fini_node_namespace`. -/
def _rmw_service_endpoint_info_fini_node_namespace (info : rmw_service_endpoint_info_t)
    (allocator : rcutils_allocator_t) (h : Heap) :
    Option (rmw_ret_t × rmw_service_endpoint_info_t × Heap) :=
  match _rmw_service_endpoint_info_fini_str info.node_namespace allocator h with
  | none => none
  | some (ret, p, h1) => some (ret, { info with node_namespace := p }, h1)

/-- The function `_rmw_service_endpoint_info_fini_service_type`. -/
def _rmw_service_endpoint_info_fini_service_type (info : rmw_service_endpoint_info_t)
    (allocator : rcutils_allocator_t) (h : Heap) :
    Option (rmw_ret_t × rmw_service_endpoint_info_t × Heap) :=
  match _rmw_service_endpoint_info_fini_str info.service_type allocator h with
  | none => none
  | some (ret, p, h1) => some (ret, { info with service_type := p }, h1)

/-- The function `_rmw_service_endpoint_info_fini_gids`. -/
def _rmw_service_endpoint_info_fini_gids (info : rmw_service_endpoint_info_t)
    (allocator : rcutils_allocator_t) (h : Heap) :
    Option (rmw_ret_t × rmw_service_endpoint_info_t × Heap) :=
  match deallocate allocator info.endpoint_gids h with
  | none => none
  | some h1 => some (RMW_RET_OK, { info with endpoint_gids := none }, h1)

/-- The function `_rmw_service_endpoint_info_fini_qos_profiles`. -/
def _rmw_service_endpoint_info_fini_qos_profiles (info : rmw_service_endpoint_info_t)
    (allocator : rcutils_allocator_t) (h : Heap) :
    Option (rmw_ret_t × rmw_service_endpoint_info_t × Heap) :=
  match deallocate allocator info.qos_profiles h with
  | none => none
  | some h1 => some (RMW_RET_OK, { info with qos_profiles := none }, h1)

/-- The function `rmw_service_endpoint_info_fini`. -/
def rmw_service_endpoint_info_fini (service_endpoint_info : Option rmw_service_endpoint_info_t)
    (allocator : Option rcutils_allocator_t) (h : Heap) :
    Option (rmw_ret_t × Option rmw_service_endpoint_info_t × Heap) :=
  match service_endpoint_info with
  | none => some (RMW_RET_INVALID_ARGUMENT, none, h)
  | some info =>
    match allocator with
    | none => some (RMW_RET_INVALID_ARGUMENT, some info, h)
    | some a =>
      match _rmw_service_endpoint_info_fini_node_name info a h with
      | none => none
      | some (ret1, info1, h1) =>
        if ret1 ≠ RMW_RET_OK then some (ret1, some info1, h1) else
        match _rmw_service_endpoint_info_fini_node_namespace info1 a h1 with
        | none => none
        | some (ret2, info2, h2) =>
          if ret2 ≠ RMW_RET_OK then some (ret2, some info2, h2) else
          match _rmw_service_endpoint_info_fini_service_type info2 a h2 with
          | none => none
          | some (ret3, info3, h3) =>
            if ret3 ≠ RMW_RET_OK then some (ret3, some info3, h3) else
            match _rmw_service_endpoint_info_fini_gids info3 a h3 with
            | none => none
            | some (ret4, info4, h4) =>
              if ret4 ≠ RMW_RET_OK then some (ret4, some info4, h4) else
              match _rmw_service_endpoint_info_fini_qos_profiles info4 a h4 with
              | none => none
              | some (ret5, info5, h5) =>
                if ret5 ≠ RMW_RET_OK then some (ret5, some info5, h5) else
                some (RMW_RET_OK, some rmw_get_zero_initialized_service_endpoint_info, h5)

/-- The function `_rmw_service_endpoint_info_copy_str`, acting on the pointer member
`*service_endpoint_info_str` of a present record. -/
def _rmw_service_endpoint_info_copy_str (service_endpoint_info_str : Option Nat)
    (str : Option String) (allocator : Option rcutils_allocator_t) (h : Heap) :
    rmw_ret_t × Option Nat × Heap :=
  match str with
  | none => (RMW_RET_INVALID_ARGUMENT, service_endpoint_info_str, h)
  | some s =>
    match allocator with
    | none => (RMW_RET_INVALID_ARGUMENT, service_endpoint_info_str, h)
    | some a =>
      match rcutils_strdup (some s) a h with
      | (none, h1) => (RMW_RET_BAD_ALLOC, none, h1)
      | (some p, h1) => (RMW_RET_OK, some p, h1)

/-- The function `rmw_service_endpoint_info_set_service_type`. -/
def rmw_service_endpoint_info_set_service_type
    (service_endpoint_info : Option rmw_service_endpoint_info_t) (service_type : Option String)
    (allocator : Option rcutils_allocator_t) (h : Heap) :
    Option (rmw_ret_t × Option rmw_service_endpoint_info_t × Heap) :=
  match service_endpoint_info with
  | none => some (RMW_RET_INVALID_ARGUMENT, none, h)
  | some info =>
    match _rmw_service_endpoint_info_copy_str info.service_type service_type allocator h with
    | (ret, p, h1) => some (ret, some { info with service_type := p }, h1)

/-- The function `rmw_service_endpoint_info_set_service_type_hash`. -/
def rmw_service_endpoint_info_set_service_type_hash
    (service_endpoint_info : Option rmw_service_endpoint_info_t)
    (type_hash : Option rosidl_type_hash_t) (h : Heap) :
    Option (rmw_ret_t × Option rmw_service_endpoint_info_t × Heap) :=
  match service_endpoint_info with
  | none => some (RMW_RET_INVALID_ARGUMENT, none, h)
  | some info =>
    match type_hash with
    | none => some (RMW_RET_INVALID_ARGUMENT, some info, h)
    | some th => some (RMW_RET_OK, some { info with service_type_hash := th }, h)

/-- The function `rmw_service_endpoint_info_set_node_name`. -/
def rmw_service_endpoint_info_set_node_name
    (service_endpoint_info : Option rmw_service_endpoint_info_t) (node_name : Option String)
    (allocator : Option rcutils_allocator_t) (h : Heap) :
    Option (rmw_ret_t × Option rmw_service_endpoint_info_t × Heap) :=
  match service_endpoint_info with
  | none => some (RMW_RET_INVALID_ARGUMENT, none, h)
  | some info =>
    match _rmw_service_endpoint_info_copy_str info.node_name node_name allocator h with
    | (ret, p, h1) => some (ret, some { info with node_name := p }, h1)

/-- The function `rmw_service_endpoint_info_set_node_namespace`. -/
def rmw_service_endpoint_info_set_node_namespace
    (service_endpoint_info : Option rmw_service_endpoint_info_t)
    (node_namespace : Option String) (allocator : Option rcutils_allocator_t) (h : Heap) :
    Option (rmw_ret_t × Option rmw_service_endpoint_info_t × Heap) :=
  match service_endpoint_info with
  | none => some (RMW_RET_INVALID_ARGUMENT, none, h)
  | some info =>
    match _rmw_service_endpoint_info_copy_str info.node_namespace node_namespace allocator h with
    | (ret, p, h1) => some (ret, some { info with node_namespace := p }, h1)

/-- The function `rmw_service_endpoint_info_set_endpoint_type`. -/
def rmw_service_endpoint_info_set_endpoint_type
    (service_endpoint_info : Option rmw_service_endpoint_info_t) (type : rmw_endpoint_type_t)
    (h : Heap) : Option (rmw_ret_t × Option rmw_service_endpoint_info_t × Heap) :=
  match service_endpoint_info with
  | none => some (RMW_RET_INVALID_ARGUMENT, none, h)
  | some info => some (RMW_RET_OK, some { info with endpoint_type := type }, h)

/-- The function `rmw_service_endpoint_info_set_endpoint_count`. -/
def rmw_service_endpoint_info_set_endpoint_count
    (service_endpoint_info : Option rmw_service_endpoint_info_t) (endpoint_count : Nat)
    (h : Heap) : Option (rmw_ret_t × Option rmw_service_endpoint_info_t × Heap) :=
  match service_endpoint_info with
  | none => some (RMW_RET_INVALID_ARGUMENT, none, h)
  | some info =>
    if !(endpoint_count == 1 || endpoint_count == 2) then
      some (RMW_RET_INVALID_ARGUMENT, some info, h)
    else
      some (RMW_RET_OK, some { info with endpoint_count := endpoint_count }, h)

/-- The function `rmw_service_endpoint_info_set_gids`. The caller's buffer `gids` is `NULL` or
the bytes that can be read from it; the function does not check it, and `size` is used in the
first check only. -/
def rmw_service_endpoint_info_set_gids (t : Target)
    (service_endpoint_info : Option rmw_service_endpoint_info_t) (gids : Option (List Nat))
    (endpoint_count size : Nat) (allocator : Option rcutils_allocator_t) (h : Heap) :
    Option (rmw_ret_t × Option rmw_service_endpoint_info_t × Heap) :=
  match service_endpoint_info with
  | none => some (RMW_RET_INVALID_ARGUMENT, none, h)
  | some info =>
    if size > t.RMW_GID_STORAGE_SIZE then
      some (RMW_RET_INVALID_ARGUMENT, some info, h)
    else if !(endpoint_count == 1 || endpoint_count == 2) then
      some (RMW_RET_INVALID_ARGUMENT, some info, h)
    else
      match allocator with
      | none => some (RMW_RET_INVALID_ARGUMENT, some info, h)
      | some a =>
        match allocate a (t.size_mul endpoint_count t.RMW_GID_STORAGE_SIZE) h with
        | (none, h1) => some (RMW_RET_BAD_ALLOC, some { info with endpoint_gids := none }, h1)
        | (some p, h1) =>
          let n := t.size_mul t.RMW_GID_STORAGE_SIZE endpoint_count
          let zeroed := List.replicate n 0
          match gids with
          | none => none
          | some src =>
            match memcpy zeroed src n with
            | none => none
            | some b =>
              some (RMW_RET_OK, some { info with endpoint_gids := some p },
                h1.store p (Block.bytes b))

/-- The function `rmw_service_endpoint_info_set_qos_profiles`. The caller's array
`qos_profiles` is `NULL` or the profiles that can be read from it. The `memcpy` of
`endpoint_count * sizeof(rmw_qos_profile_t)` bytes, which is reached with a count of 1 or 2
only, copies `endpoint_count` profiles. The allocator is dereferenced without a check. -/
def rmw_service_endpoint_info_set_qos_profiles (t : Target)
    (service_endpoint_info : Option rmw_service_endpoint_info_t)
    (qos_profiles : Option (List rmw_qos_profile_t)) (endpoint_count : Nat)
    (allocator : Option rcutils_allocator_t) (h : Heap) :
    Option (rmw_ret_t × Option rmw_service_endpoint_info_t × Heap) :=
  match service_endpoint_info with
  | none => some (RMW_RET_INVALID_ARGUMENT, none, h)
  | some info =>
    match qos_profiles with
    | none => some (RMW_RET_INVALID_ARGUMENT, some info, h)
    | some src =>
      if !(endpoint_count == 1 || endpoint_count == 2) then
        some (RMW_RET_INVALID_ARGUMENT, some info, h)
      else
        match allocator with
        | none => none
        | some a =>
          match allocate a (t.size_mul endpoint_count t.sizeof_rmw_qos_profile_t) h with
          | (none, h1) => some (RMW_RET_BAD_ALLOC, some { info with qos_profiles := none }, h1)
          | (some p, h1) =>
            match memcpy [] src endpoint_count with
            | none => none
            | some q =>
              some (RMW_RET_OK, some { info with qos_profiles := some p },
                h1.store p (Block.profiles q))

/-- A call of one of the eight setters of the record, with the arguments that follow the
record. -/
inductive Setter
  | set_service_type (service_type : Option String) (allocator : Option rcutils_allocator_t)
  | set_service_type_hash (type_hash : Option rosidl_type_hash_t)
  | set_node_name (node_name : Option String) (allocator : Option rcutils_allocator_t)
  | set_node_namespace (node_namespace : Option String) (allocator : Option rcutils_allocator_t)
  | set_endpoint_type (type : rmw_endpoint_type_t)
  | set_endpoint_count (endpoint_count : Nat)
  | set_gids (gids : Option (List Nat)) (endpoint_count size : Nat)
      (allocator : Option rcutils_allocator_t)
  | set_qos_profiles (qos_profiles : Option (List rmw_qos_profile_t)) (endpoint_count : Nat)
      (allocator : Option rcutils_allocator_t)

/-- The setter call made on a record. -/
def Setter.call (t : Target) (c : Setter)
    (service_endpoint_info : Option rmw_service_endpoint_info_t) (h : Heap) :
    Option (rmw_ret_t × Option rmw_service_endpoint_info_t × Heap) :=
  match c with
  | .set_service_type service_type allocator =>
    rmw_service_endpoint_info_set_service_type service_endpoint_info service_type allocator h
  | .set_service_type_hash type_hash =>
    rmw_service_endpoint_info_set_service_type_hash service_endpoint_info type_hash h
  | .set_node_name node_name allocator =>
    rmw_service_endpoint_info_set_node_name service_endpoint_info node_name allocator h
  | .set_node_namespace node_namespace allocator =>
    rmw_service_endpoint_info_set_node_namespace service_endpoint_info node_namespace allocator h
  | .set_endpoint_type type =>
    rmw_service_endpoint_info_set_endpoint_type service_endpoint_info type h
  | .set_endpoint_count endpoint_count =>
    rmw_service_endpoint_info_set_endpoint_count service_endpoint_info endpoint_count h
  | .set_gids gids endpoint_count size allocator =>
    rmw_service_endpoint_info_set_gids t service_endpoint_info gids endpoint_count size
      allocator h
  | .set_qos_profiles qos_profiles endpoint_count allocator =>
    rmw_service_endpoint_info_set_qos_profiles t service_endpoint_info qos_profiles
      endpoint_count allocator h

/-- A sequence of setter calls on a record, each of which returns `RMW_RET_OK`: the record and
the heap after the last call, and `none` when a call does not return `RMW_RET_OK`. -/
def populate (t : Target) :
    List Setter → rmw_service_endpoint_info_t → Heap → Option (rmw_service_endpoint_info_t × Heap)
  | [], info, h => some (info, h)
  | c :: rest, info, h =>
    match c.call t (some info) h with
    | some (RMW_RET_OK, some info1, h1) => populate t rest info1 h1
    | _ => none

/-- The five pointer members of a record, in the order in which finalization releases them. -/
def owned_pointers (info : rmw_service_endpoint_info_t) : List (Option Nat) :=
  [info.node_name, info.node_namespace, info.service_type, info.endpoint_gids, info.qos_profiles]

/-- Releasing a sequence of pointers one after the other. -/
def release_all (allocator : rcutils_allocator_t) : List (Option Nat) → Heap → Option Heap
  | [], h => some h
  | p :: rest, h =>
    match deallocate allocator p h with
    | none => none
    | some h1 => release_all allocator rest h1

/-- The record owns its memory in a heap: every pointer member that is not `NULL` is the
address of a live allocation, and no two of them are the same address. -/
def owns (info : rmw_service_endpoint_info_t) (h : Heap) : Prop :=
  (∀ p, some p ∈ owned_pointers info → h.is_live p = true) ∧
    (owned_pointers info).Pairwise (fun x y => x = none ∨ x ≠ y)

/-- The pointer member that a setter call allocates, as its position in `owned_pointers`;
`none` for the three setters that allocate nothing. -/
def Setter.field : Setter → Option Nat
  | .set_node_name _ _ => some 0
  | .set_node_namespace _ _ => some 1
  | .set_service_type _ _ => some 2
  | .set_gids _ _ _ _ => some 3
  | .set_qos_profiles _ _ _ => some 4
  | .set_service_type_hash _ => none
  | .set_endpoint_type _ => none
  | .set_endpoint_count _ => none

/-- The allocation at `p` in the heap `h1` is an independent copy made since the heap `h`: `p`
was not the address of an allocation of `h`, the allocation holds `content`, and it still does
after a write to, or the release of, any other allocation, such as a buffer of the caller. -/
def independent_copy (h h1 : Heap) (p : Nat) (content : Block) : Prop :=
  h.is_live p = false ∧ h1.content p = some content ∧
    (∀ q b, q ≠ p → (h1.store q b).content p = some content) ∧
    (∀ a q h2, q ≠ p → deallocate a (some q) h1 = some h2 → h2.content p = some content)

/-- The heap `h` of a record that is populated since the heap `h0`: nothing was released, the
allocations of `h0` are all there as they were, every further allocation is a pointer member
of the record, and no pointer member is an allocation of `h0`. -/
def tracked (h0 : Heap) (info : rmw_service_endpoint_info_t) (h : Heap) : Prop :=
  h.freed = h0.freed ∧
    (∃ extra, h.cells = h0.cells ++ extra ∧ ∀ c ∈ extra, some c.addr ∈ owned_pointers info) ∧
    ∀ p, some p ∈ owned_pointers info → h0.is_live p = false

/-- An allocator that serves no request. -/
def refusing_allocator : rcutils_allocator_t :=
  { grants := fun _ => false, zero_allocate_set := true, reallocate_set := true }

/-! ### Vocabulary for calls of the setters that return `RMW_RET_OK` -/

/-- The position of the member that a setter writes among the eight members of the record:
the five pointer members in the order of `owned_pointers`, then the type hash, the endpoint
type and the endpoint count. -/
def Setter.member : Setter → Nat
  | .set_node_name _ _ => 0
  | .set_node_namespace _ _ => 1
  | .set_service_type _ _ => 2
  | .set_gids _ _ _ _ => 3
  | .set_qos_profiles _ _ _ => 4
  | .set_service_type_hash _ => 5
  | .set_endpoint_type _ => 6
  | .set_endpoint_count _ => 7

/-- The record with the member that a setter writes blanked: two records agree on every other
member exactly when their masks are equal. -/
def Setter.mask : Setter → rmw_service_endpoint_info_t → rmw_service_endpoint_info_t
  | .set_node_name _ _, info => { info with node_name := none }
  | .set_node_namespace _ _, info => { info with node_namespace := none }
  | .set_service_type _ _, info => { info with service_type := none }
  | .set_gids _ _ _ _, info => { info with endpoint_gids := none }
  | .set_qos_profiles _ _ _, info => { info with qos_profiles := none }
  | .set_service_type_hash _, info =>
    { info with service_type_hash := rosidl_get_zero_initialized_type_hash }
  | .set_endpoint_type _, info => { info with endpoint_type := RMW_ENDPOINT_INVALID }
  | .set_endpoint_count _, info => { info with endpoint_count := 0 }

/-- The arguments with which a setter call on a present record returns `RMW_RET_OK`: the
arguments it checks are present and in range, the buffer of the caller holds what is copied
from it, and the allocator serves the request. -/
def Setter.accepted (t : Target) : Setter → Prop
  | .set_node_name (some s) (some a) => a.grants (s.length + 1) = true
  | .set_node_namespace (some s) (some a) => a.grants (s.length + 1) = true
  | .set_service_type (some s) (some a) => a.grants (s.length + 1) = true
  | .set_gids (some src) endpoint_count size (some a) =>
    size ≤ t.RMW_GID_STORAGE_SIZE ∧ (endpoint_count = 1 ∨ endpoint_count = 2) ∧
      t.size_mul t.RMW_GID_STORAGE_SIZE endpoint_count ≤ src.length ∧
      a.grants (t.size_mul endpoint_count t.RMW_GID_STORAGE_SIZE) = true
  | .set_qos_profiles (some src) endpoint_count (some a) =>
    (endpoint_count = 1 ∨ endpoint_count = 2) ∧ endpoint_count ≤ src.length ∧
      a.grants (t.size_mul endpoint_count t.sizeof_rmw_qos_profile_t) = true
  | .set_service_type_hash (some _) => True
  | .set_endpoint_type _ => True
  | .set_endpoint_count endpoint_count => endpoint_count = 1 ∨ endpoint_count = 2
  | _ => False

/-- The allocation that an accepted setter call makes: the number of bytes requested and the
content written; `none` for the setters that allocate nothing. -/
def Setter.payload (t : Target) : Setter → Option (Nat × Block)
  | .set_node_name (some s) _ => some (s.length + 1, Block.string s)
  | .set_node_namespace (some s) _ => some (s.length + 1, Block.string s)
  | .set_service_type (some s) _ => some (s.length + 1, Block.string s)
  | .set_gids (some src) endpoint_count _ _ =>
    some (t.size_mul endpoint_count t.RMW_GID_STORAGE_SIZE,
      Block.bytes (src.take (t.size_mul t.RMW_GID_STORAGE_SIZE endpoint_count)))
  | .set_qos_profiles (some src) endpoint_count _ =>
    some (t.size_mul endpoint_count t.sizeof_rmw_qos_profile_t,
      Block.profiles (src.take endpoint_count))
  | _ => none

/-- The record after an accepted setter call whose allocation, if it makes one, is at the
address `p`. -/
def Setter.write : Setter → Nat → rmw_service_endpoint_info_t → rmw_service_endpoint_info_t
  | .set_node_name _ _, p, info => { info with node_name := some p }
  | .set_node_namespace _ _, p, info => { info with node_namespace := some p }
  | .set_service_type _ _, p, info => { info with service_type := some p }
  | .set_gids _ _ _ _, p, info => { info with endpoint_gids := some p }
  | .set_qos_profiles _ _ _, p, info => { info with qos_profiles := some p }
  | .set_service_type_hash type_hash, _, info =>
    { info with service_type_hash := type_hash.getD info.service_type_hash }
  | .set_endpoint_type type, _, info => { info with endpoint_type := type }
  | .set_endpoint_count endpoint_count, _, info => { info with endpoint_count := endpoint_count }

/-- The heap after an accepted setter call: the allocation of the call, if it makes one, is
added at the address `h.fresh`, and nothing is released. -/
def Setter.extend (t : Target) (c : Setter) (h : Heap) : Heap :=
  match c.payload t with
  | none => h
  | some (n, b) => Heap.mk (h.cells ++ [Cell.mk h.fresh n b]) h.freed

/-- What the five pointer members of a record point to in a heap: `none` for `NULL` and for a
pointer that is not the address of a live allocation. -/
def pointed (info : rmw_service_endpoint_info_t) (h : Heap) : List (Option Block) :=
  (owned_pointers info).map (fun p => p.bind h.content)

/-- The three members of a record that are values. -/
def values (info : rmw_service_endpoint_info_t) :
    rosidl_type_hash_t × rmw_endpoint_type_t × Nat :=
  (info.service_type_hash, info.endpoint_type, info.endpoint_count)

/-! ### Records reached from the zero record -/

/-- A call of a function that changes a record: one of the eight setters, or
`rmw_service_endpoint_info_fini`, with the arguments that follow the record. -/
inductive RecordCall
  | setter (c : Setter)
  | fini (allocator : Option rcutils_allocator_t)

/-- The call made on a present record. -/
def RecordCall.call (t : Target) (c : RecordCall) (info : rmw_service_endpoint_info_t)
    (h : Heap) : Option (rmw_ret_t × Option rmw_service_endpoint_info_t × Heap) :=
  match c with
  | .setter s => s.call t (some info) h
  | .fini allocator => rmw_service_endpoint_info_fini (some info) allocator h

/-- Whether `rmw_service_endpoint_info_set_endpoint_count` has returned `RMW_RET_OK` since the
record was last the zero record, after a call that returned `ret`, given whether it had before
the call: such a call sets the mark, a finalization that returns `RMW_RET_OK` clears it, and
every other call keeps it. -/
def RecordCall.counted (c : RecordCall) (ret : rmw_ret_t) (before : Bool) : Bool :=
  match c with
  | .setter (.set_endpoint_count _) => if ret = RMW_RET_OK then true else before
  | .setter _ => before
  | .fini _ => if ret = RMW_RET_OK then false else before

/-- The records, with their heap, that are reached from the zero record by calls of the
setters and of `rmw_service_endpoint_info_fini`, whatever they return. The first index is the
mark of `RecordCall.counted`. -/
inductive ReachedRecord (t : Target) : Bool → rmw_service_endpoint_info_t → Heap → Prop
  | zero (h : Heap) : ReachedRecord t false rmw_get_zero_initialized_service_endpoint_info h
  | step (c : RecordCall) (counted : Bool) (info info1 : rmw_service_endpoint_info_t)
      (h h1 : Heap) (ret : rmw_ret_t) :
      ReachedRecord t counted info h → c.call t info h = some (ret, some info1, h1) →
      ReachedRecord t (c.counted ret counted) info1 h1

/-! ## Endpoint info array (`service_endpoint_info_array.c`) -/

/-- The structure `rmw_service_endpoint_info_array_t`: `info_array` is `NULL` or the address
of a block of records. -/
structure rmw_service_endpoint_info_array_t where
  size : Nat
  info_array : Option Nat
  deriving DecidableEq, Repr

/-- The function `rmw_get_zero_initialized_service_endpoint_info_array`. -/
def rmw_get_zero_initialized_service_endpoint_info_array : rmw_service_endpoint_info_array_t :=
  { size := 0, info_array := none }

/-- The function `rmw_service_endpoint_info_array_check_zero`: the returned code and the
array, which the function only reads. -/
def rmw_service_endpoint_info_array_check_zero
    (service_endpoint_info_array : Option rmw_service_endpoint_info_array_t) :
    rmw_ret_t × Option rmw_service_endpoint_info_array_t :=
  match service_endpoint_info_array with
  | none => (RMW_RET_INVALID_ARGUMENT, none)
  | some arr =>
    if arr.size != 0 || arr.info_array != none then
      (RMW_RET_ERROR, some arr)
    else
      (RMW_RET_OK, some arr)

/-- The loop `for (size_t i = 0; i < size; i++) info_array[i] = zero` of
`rmw_service_endpoint_info_array_init_with_size` on a block of `bytes` bytes: the first
argument counts the iterations that remain, the second is `i`, the third the records written
so far. The assignment to `info_array[i]` writes the bytes from `i * sizeof(record)` up to
`(i + 1) * sizeof(record)`; outside the block it is undefined behaviour, which is `none`. -/
def init_loop (t : Target) (bytes : Nat) :
    Nat → Nat → List rmw_service_endpoint_info_t → Option (List rmw_service_endpoint_info_t)
  | 0, _, records => some records
  | remaining + 1, i, records =>
    if (i + 1) * t.sizeof_rmw_service_endpoint_info_t ≤ bytes then
      init_loop t bytes remaining (i + 1)
        (records ++ [rmw_get_zero_initialized_service_endpoint_info])
    else
      none

/-- The function `rmw_service_endpoint_info_array_init_with_size`. -/
def rmw_service_endpoint_info_array_init_with_size (t : Target)
    (service_endpoint_info_array : Option rmw_service_endpoint_info_array_t) (size : Nat)
    (allocator : Option rcutils_allocator_t) (h : Heap) :
    Option (rmw_ret_t × Option rmw_service_endpoint_info_array_t × Heap) :=
  match allocator with
  | none => some (RMW_RET_INVALID_ARGUMENT, service_endpoint_info_array, h)
  | some a =>
    match service_endpoint_info_array with
    | none => some (RMW_RET_INVALID_ARGUMENT, none, h)
    | some arr =>
      let bytes := t.size_mul t.sizeof_rmw_service_endpoint_info_t size
      match allocate a bytes h with
      | (none, h1) => some (RMW_RET_BAD_ALLOC, some { arr with info_array := none }, h1)
      | (some p, h1) =>
        match init_loop t bytes size 0 [] with
        | none => none
        | some records =>
          some (RMW_RET_OK, some { size := size, info_array := some p },
            h1.store p (Block.infos records))

/-- The pointer `&info_array[i]` and the record behind it: the outer `none` is undefined
behaviour (no record `i` in a block of records at `info_array`), the inner `none` is the
pointer `NULL`, which is what element 0 of a `NULL` array is. -/
def element (h : Heap) (info_array : Option Nat) (i : Nat) :
    Option (Option rmw_service_endpoint_info_t) :=
  match info_array with
  | none => if i = 0 then some none else none
  | some p =>
    match h.content p with
    | some (Block.infos records) =>
      match records.get? i with
      | none => none
      | some info => some (some info)
    | _ => none

/-- Writing the record behind the pointer `&info_array[i]`, as a callee that received the
pointer does; with a `NULL` pointer the callee writes nothing. -/
def put_element (h : Heap) (info_array : Option Nat) (i : Nat)
    (info : Option rmw_service_endpoint_info_t) : Option Heap :=
  match info with
  | none => some h
  | some r =>
    match info_array with
    | none => none
    | some p =>
      match h.content p with
      | some (Block.infos records) =>
        if i < records.length then some (h.store p (Block.infos (records.set i r))) else none
      | _ => none

/-- The loop of `rmw_service_endpoint_info_array_fini` over the records: the first argument
counts the iterations that remain, the second is `i`. The outcome is `RMW_RET_OK` when the
loop ran to its end, and otherwise the code with which the function returns from the loop. -/
def array_fini_loop (allocator : rcutils_allocator_t) (info_array : Option Nat) :
    Nat → Nat → Heap → Option (rmw_ret_t × Heap)
  | 0, _, h => some (RMW_RET_OK, h)
  | remaining + 1, i, h =>
    match element h info_array i with
    | none => none
    | some e =>
      match rmw_service_endpoint_info_fini e (some allocator) h with
      | none => none
      | some (ret, e1, h1) =>
        match put_element h1 info_array i e1 with
        | none => none
        | some h2 =>
          if ret ≠ RMW_RET_OK then
            some (ret, h2)
          else
            array_fini_loop allocator info_array remaining (i + 1) h2

/-- The function `rmw_service_endpoint_info_array_fini`. -/
def rmw_service_endpoint_info_array_fini
    (service_endpoint_info_array : Option rmw_service_endpoint_info_array_t)
    (allocator : Option rcutils_allocator_t) (h : Heap) :
    Option (rmw_ret_t × Option rmw_service_endpoint_info_array_t × Heap) :=
  match allocator with
  | none => some (RMW_RET_INVALID_ARGUMENT, service_endpoint_info_array, h)
  | some a =>
    match service_endpoint_info_array with
    | none => some (RMW_RET_INVALID_ARGUMENT, none, h)
    | some arr =>
      match array_fini_loop a arr.info_array arr.size 0 h with
      | none => none
      | some (ret, h1) =>
        if ret ≠ RMW_RET_OK then
          some (ret, some arr, h1)
        else
          match deallocate a arr.info_array h1 with
          | none => none
          | some h2 => some (RMW_RET_OK, some { size := 0, info_array := none }, h2)

/-! ## Enclave options (`enclave.c`) -/

/-- The function `rmw_enclave_options_copy`. The argument `dst` is `NULL` or the pointer
`*dst`; the outcome is the returned code, `*dst` afterwards, and the heap. -/
def rmw_enclave_options_copy (src : Option String) (allocator : Option rcutils_allocator_t)
    (dst : Option (Option Nat)) (h : Heap) : rmw_ret_t × Option (Option Nat) × Heap :=
  match src with
  | none => (RMW_RET_INVALID_ARGUMENT, dst, h)
  | some s =>
    match dst with
    | none => (RMW_RET_INVALID_ARGUMENT, none, h)
    | some d =>
      if !rcutils_allocator_is_valid allocator then
        (RMW_RET_INVALID_ARGUMENT, some d, h)
      else
        match allocator with
        | none => (RMW_RET_INVALID_ARGUMENT, some d, h)
        | some a =>
          match rcutils_strdup (some s) a h with
          | (none, h1) => (RMW_RET_BAD_ALLOC, some d, h1)
          | (some new_enclave, h1) => (RMW_RET_OK, some (some new_enclave), h1)

/-- A call of one of the two functions that change an array, with the arguments that follow
the array. -/
inductive ArrayCall
  | init_with_size (size : Nat) (allocator : Option rcutils_allocator_t)
  | fini (allocator : Option rcutils_allocator_t)

/-- The call made on a present array. -/
def ArrayCall.call (t : Target) (c : ArrayCall) (arr : rmw_service_endpoint_info_array_t)
    (h : Heap) : Option (rmw_ret_t × Option rmw_service_endpoint_info_array_t × Heap) :=
  match c with
  | .init_with_size size allocator =>
    rmw_service_endpoint_info_array_init_with_size t (some arr) size allocator h
  | .fini allocator => rmw_service_endpoint_info_array_fini (some arr) allocator h

/-- The array states, with their heap, that are reached from the zero array by calls of
`rmw_service_endpoint_info_array_init_with_size` and `rmw_service_endpoint_info_array_fini`
whatever they return; `admitted c arr ret` restricts the calls `c` that are made on the array
`arr` and return `ret`. -/
inductive Reached (t : Target)
    (admitted : ArrayCall → rmw_service_endpoint_info_array_t → rmw_ret_t → Prop) :
    rmw_service_endpoint_info_array_t → Heap → Prop
  | zero (h : Heap) : Reached t admitted rmw_get_zero_initialized_service_endpoint_info_array h
  | step (c : ArrayCall) (arr arr1 : rmw_service_endpoint_info_array_t) (h h1 : Heap)
      (ret : rmw_ret_t) :
      Reached t admitted arr h → c.call t arr h = some (ret, some arr1, h1) →
      admitted c arr ret → Reached t admitted arr1 h1

/-- Every call is admitted. -/
def any_call : ArrayCall → rmw_service_endpoint_info_array_t → rmw_ret_t → Prop :=
  fun _ _ _ => True

/-- The calls admitted by the amended invariant of the array: a call of
`rmw_service_endpoint_info_array_init_with_size` that returns `RMW_RET_OK` has a size of at
least 1, and one that returns `RMW_RET_BAD_ALLOC` is made on a zero array. -/
def sized_call : ArrayCall → rmw_service_endpoint_info_array_t → rmw_ret_t → Prop :=
  fun c arr ret =>
    match c with
    | .init_with_size size _ =>
      (ret = RMW_RET_OK → 1 ≤ size) ∧
        (ret = RMW_RET_BAD_ALLOC → arr = rmw_get_zero_initialized_service_endpoint_info_array)
    | .fini _ => True

/-- A sequence of setter calls on records of an array, each made on the record behind the
pointer `&info_array[i]` and each returning `RMW_RET_OK`: the heap after the last call, and
`none` when there is no record `i` or a call does not return `RMW_RET_OK`. -/
def populate_array (t : Target) (info_array : Option Nat) :
    List (Nat × Setter) → Heap → Option Heap
  | [], h => some h
  | (i, c) :: rest, h =>
    match element h info_array i with
    | some (some info) =>
      match c.call t (some info) h with
      | some (RMW_RET_OK, info1, h1) =>
        match put_element h1 info_array i info1 with
        | some h2 => populate_array t info_array rest h2
        | none => none
      | _ => none
    | _ => none

/-- The block at `p` holds the records `records`, and the records own their memory: each
record owns its memory, none of its pointer members is the block, and no allocation is a
pointer member of two records. -/
def array_owns (p : Nat) (records : List rmw_service_endpoint_info_t) (h : Heap) : Prop :=
  h.content p = some (Block.infos records) ∧
    (∀ i r, records.get? i = some r → owns r h ∧ some p ∉ owned_pointers r) ∧
    ∀ i j ri rj q, i ≠ j → records.get? i = some ri → records.get? j = some rj →
      some q ∈ owned_pointers ri → some q ∉ owned_pointers rj

/-- An allocator that serves requests of at most 1024 bytes and refuses larger ones. -/
def small_allocator : rcutils_allocator_t :=
  { grants := fun n => decide (n ≤ 1024), zero_allocate_set := true, reallocate_set := true }

/-! ### Fixtures: an allocator, a target and a populated record -/

/-- An allocator that serves every request and has all its members set. -/
def serving_allocator : rcutils_allocator_t :=
  { grants := fun _ => true, zero_allocate_set := true, reallocate_set := true }

/-- A target with a 64 bit `size_t`, identifiers of 16 bytes, and profiles and records of 88
bytes. -/
def sample_target : Target :=
  { size_t_bits := 64, RMW_GID_STORAGE_SIZE := 16, sizeof_rmw_qos_profile_t := 88,
    sizeof_rmw_service_endpoint_info_t := 88 }

/-- A heap without allocations. -/
def empty_heap : Heap :=
  { cells := [], freed := [] }

/-- The QoS profile of the test `fini`. -/
def sample_qos_profile : rmw_qos_profile_t :=
  { history := 1, depth := 0, reliability := 1, durability := 2,
    deadline := { sec := 1, nsec := 0 }, lifespan := { sec := 2, nsec := 0 },
    liveliness := 3, liveliness_lease_duration := { sec := 3, nsec := 0 },
    avoid_ros_namespace_conventions := false }

/-- The type hash of the test `set_service_type_hash`. -/
def sample_type_hash : rosidl_type_hash_t :=
  { version := 22, value := List.range ROSIDL_TYPE_HASH_SIZE }

/-- The setter calls of the test `fini`, followed by the two setters that the test leaves out:
all the members of the record are set. -/
def sample_calls : List Setter :=
  [ .set_qos_profiles (some [sample_qos_profile]) 1 (some serving_allocator),
    .set_endpoint_type RMW_ENDPOINT_CLIENT,
    .set_gids (some ((List.range 16).map (fun i => i * 12))) 1 16 (some serving_allocator),
    .set_node_namespace (some "namespace") (some serving_allocator),
    .set_node_name (some "name") (some serving_allocator),
    .set_service_type (some "type") (some serving_allocator),
    .set_service_type_hash (some sample_type_hash),
    .set_endpoint_count 1 ]

/-- The record that `sample_calls` builds from the zero record. -/
def sample_info : rmw_service_endpoint_info_t :=
  { node_name := some 4
    node_namespace := some 3
    service_type := some 5
    service_type_hash := sample_type_hash
    endpoint_type := RMW_ENDPOINT_CLIENT
    endpoint_count := 1
    endpoint_gids := some 2
    qos_profiles := some 1 }

/-- The heap that `sample_calls` builds from the empty heap. -/
def sample_heap : Heap :=
  { cells :=
      [ { addr := 1, size := 88, content := Block.profiles [sample_qos_profile] },
        { addr := 2, size := 16, content := Block.bytes ((List.range 16).map (fun i => i * 12)) },
        { addr := 3, size := 10, content := Block.string "namespace" },
        { addr := 4, size := 5, content := Block.string "name" },
        { addr := 5, size := 5, content := Block.string "type" } ]
    freed := [] }

/-- An allocator that serves every request and is invalid for `rcutils_allocator_is_valid`:
its member `zero_allocate` is `NULL`. -/
def invalid_allocator : rcutils_allocator_t :=
  { grants := fun _ => true, zero_allocate_set := false, reallocate_set := true }

/-- An array of three zero records at the address 1. -/
def sample_array : rmw_service_endpoint_info_array_t :=
  { size := 3, info_array := some 1 }

/-- The heap of `sample_array`: what
`rmw_service_endpoint_info_array_init_with_size` with a size of 3 makes of the empty heap. -/
def sample_array_heap : Heap :=
  { cells :=
      [ { addr := 1, size := 264,
          content := Block.infos (List.replicate 3 rmw_get_zero_initialized_service_endpoint_info) } ]
    freed := [] }

/-- Setter calls on the two records of an array: a name and a count for the record at index 0,
a service type for the record at index 1. -/
def sample_array_calls : List (Nat × Setter) :=
  [ (0, .set_node_name (some "name") (some serving_allocator)),
    (1, .set_service_type (some "type") (some serving_allocator)),
    (0, .set_endpoint_count 2) ]

/-- The heap after an array of two records is initialized in the empty heap and populated by
`sample_array_calls`: the block of the records at the address 1, and the two strings. -/
def sample_populated_heap : Heap :=
  Heap.mk
    [ Cell.mk 1 176 (Block.infos
        [ { rmw_get_zero_initialized_service_endpoint_info with
              node_name := some 2, endpoint_count := 2 },
          { rmw_get_zero_initialized_service_endpoint_info with service_type := some 3 } ]),
      Cell.mk 2 5 (Block.string "name"),
      Cell.mk 3 5 (Block.string "type") ]
    []

/-! ## Theorems: maps kept as lists of entries -/

theorem lookup_assign (m : List (String × String)) (k v k1 : String) :
    lookup (assign m k v) k1 = if k = k1 then some v else lookup m k1 := by
  induction m with
  | nil => simp [assign, lookup]
  | cons e rest ih =>
    obtain ⟨a, b⟩ := e
    by_cases hak : a = k
    · subst hak
      by_cases h1 : a = k1 <;> simp [assign, lookup, h1]
    · by_cases h1 : a = k1
      · subst h1
        simp [assign, lookup, hak, Ne.symm hak]
      · simp [assign, lookup, hak, h1, ih]

theorem keys_assign_of_not_mem (m : List (String × String)) (k v : String)
    (h : k ∉ keys m) : keys (assign m k v) = keys m ++ [k] := by
  induction m with
  | nil => simp [assign, keys]
  | cons e rest ih =>
    obtain ⟨a, b⟩ := e
    have hak : ¬ a = k := fun hh => h (by simp [keys, hh])
    have hr : k ∉ keys rest := fun hh => h (by simp [keys] at hh ⊢; exact Or.inr hh)
    have := ih hr
    simp [assign, keys, hak] at this ⊢
    exact this

theorem lookup_eq_none_of_not_mem (m : List (String × String)) (k : String)
    (h : k ∉ keys m) : lookup m k = none := by
  induction m with
  | nil => simp [lookup]
  | cons e rest ih =>
    obtain ⟨a, b⟩ := e
    have hak : ¬ a = k := fun hh => h (by simp [keys, hh])
    have hr : k ∉ keys rest := fun hh => h (by simp [keys] at hh ⊢; exact Or.inr hh)
    simp [lookup, hak, ih hr]

theorem mem_keys_of_lookup (m : List (String × String)) (k v : String)
    (h : lookup m k = some v) : (k, v) ∈ m := by
  induction m with
  | nil => simp [lookup] at h
  | cons e rest ih =>
    obtain ⟨a, b⟩ := e
    by_cases hak : a = k
    · simp [lookup, hak] at h
      simp [hak, h]
    · simp [lookup, hak] at h
      exact List.mem_cons_of_mem _ (ih h)

theorem lookup_of_mem (m : List (String × String)) (k v : String)
    (hn : (keys m).Nodup) (h : (k, v) ∈ m) : lookup m k = some v := by
  induction m with
  | nil => simp at h
  | cons e rest ih =>
    obtain ⟨a, b⟩ := e
    simp only [keys, List.map_cons, List.nodup_cons] at hn
    rcases List.mem_cons.mp h with h1 | h1
    · injection h1 with h2 h3
      simp [lookup, h2, h3]
    · have hak : ¬ a = k := by
        intro hh
        apply hn.1
        rw [hh]
        exact List.mem_map_of_mem Prod.fst h1
      simp only [lookup, hak, if_false]
      exact ih hn.2 h1

/-! ## Theorems: the loops of the resolver -/

theorem candidates_loop_all_fail (fs : Filesystem) (s : Bool) (p root : String)
    (procs : processor_vector)
    (h : ∀ proc ∈ procs, ∀ r, (proc.2 fs s p (fs.append root proc.1) r).1 = false) (r : String) :
    (candidates_loop fs s p root procs r).1 = false := by
  induction procs generalizing r with
  | nil => simp [candidates_loop]
  | cons proc rest ih =>
    have h1 := h proc (List.mem_cons_self _ _) r
    have h2 : ∀ proc ∈ rest, ∀ r, (proc.2 fs s p (fs.append root proc.1) r).1 = false :=
      fun q hq => h q (List.mem_cons_of_mem _ hq)
    simp only [candidates_loop]
    rcases hp : proc.2 fs s p (fs.append root proc.1) r with ⟨b, v⟩
    rw [hp] at h1
    simp only at h1
    subst h1
    exact ih h2 v

theorem required_loop_eq_none_iff (fs : Filesystem) (s : Bool) (p root : String)
    (l : List (String × processor_vector)) (acc : List (String × String)) :
    required_loop fs s p root l acc = none ↔
      ∃ el ∈ l, (candidates_loop fs s p root el.2 "").1 = false := by
  induction l generalizing acc with
  | nil => simp [required_loop]
  | cons el rest ih =>
    simp only [required_loop]
    rcases hc : candidates_loop fs s p root el.2 "" with ⟨b, v⟩
    cases b with
    | false => simp [hc]
    | true => simp [hc, ih]

theorem required_loop_some (fs : Filesystem) (s : Bool) (p root : String)
    (l : List (String × processor_vector)) (acc m : List (String × String))
    (h : required_loop fs s p root l acc = some m)
    (hn : (keys acc ++ l.map Prod.fst).Nodup) :
    keys m = keys acc ++ l.map Prod.fst ∧
      (∀ el ∈ l, lookup m el.1 = some (candidates_loop fs s p root el.2 "").2) ∧
      (∀ k, k ∉ l.map Prod.fst → lookup m k = lookup acc k) := by
  induction l generalizing acc with
  | nil =>
    simp only [required_loop, Option.some.injEq] at h
    subst h
    simp
  | cons el rest ih =>
    simp only [required_loop] at h
    rcases hc : candidates_loop fs s p root el.2 "" with ⟨b, v⟩
    rw [hc] at h
    cases b with
    | false => simp at h
    | true =>
      simp only at h
      have hel : el.1 ∉ keys acc := by
        intro hh
        have := List.nodup_append.mp hn
        exact this.2.2 hh (by simp)
      have hk : keys (assign acc el.1 v) = keys acc ++ [el.1] :=
        keys_assign_of_not_mem acc el.1 v hel
      have hn1 : (keys (assign acc el.1 v) ++ rest.map Prod.fst).Nodup := by
        rw [hk]
        simpa using hn
      obtain ⟨h1, h2, h3⟩ := ih (assign acc el.1 v) h hn1
      have hnr : el.1 ∉ rest.map Prod.fst := by
        have := (List.nodup_append.mp hn).2.1
        simp only [List.map_cons, List.nodup_cons] at this
        exact this.1
      refine ⟨?_, ?_, ?_⟩
      · rw [h1, hk]
        simp
      · intro e he
        rcases List.mem_cons.mp he with he1 | he1
        · subst he1
          rw [h3 _ hnr, lookup_assign, hc]
          simp
        · exact h2 e he1
      · intro k hk1
        simp only [List.map_cons, List.mem_cons, not_or] at hk1
        rw [h3 k hk1.2, lookup_assign]
        simp [Ne.symm hk1.1]

theorem set_loop_status (o : StringMapOracle) (l : List (String × String)) (i : Nat)
    (map : rcutils_string_map_t) :
    (set_loop o l i map).1 = RMW_RET_OK ∨ (set_loop o l i map).1 = RMW_RET_ERROR := by
  induction l generalizing i map with
  | nil => simp [set_loop]
  | cons e rest ih =>
    obtain ⟨k, v⟩ := e
    simp only [set_loop]
    split
    · exact ih _ _
    · simp

theorem set_loop_of_succeeds (o : StringMapOracle) (ho : ∀ i, o.set_ok i = true)
    (l : List (String × String)) (i : Nat) (map : rcutils_string_map_t) :
    (set_loop o l i map).1 = RMW_RET_OK := by
  induction l generalizing i map with
  | nil => simp [set_loop]
  | cons e rest ih =>
    obtain ⟨k, v⟩ := e
    simp only [set_loop, ho, if_true]
    exact ih _ _

theorem c_str_of_nul_free (s : String) (h : nul_free s) : c_str s = s := by
  unfold c_str
  have : s.toList.takeWhile (fun c => c.toNat != 0) = s.toList := by
    rw [List.takeWhile_eq_self_iff]
    intro c hc
    simpa using h c hc
  rw [this]
  rfl

theorem c_str_key (k : String) (hk : k ∈ mandatory_attributes ++ ["CRL"]) : c_str k = k := by
  simp only [mandatory_attributes, List.cons_append, List.nil_append, List.mem_cons,
    List.mem_singleton, List.not_mem_nil, or_false] at hk
  rcases hk with rfl | rfl | rfl | rfl | rfl | rfl | rfl <;> decide

theorem set_loop_ok (o : StringMapOracle) (l : List (String × String)) (i : Nat)
    (map : rcutils_string_map_t) (h : (set_loop o l i map).1 = RMW_RET_OK)
    (hn : (keys l).Nodup) (hc : ∀ e ∈ l, c_str e.1 = e.1) :
    (∀ e ∈ l, lookup (set_loop o l i map).2 e.1 = some (c_str e.2)) ∧
      (∀ k, k ∉ keys l → lookup (set_loop o l i map).2 k = lookup map k) ∧
      ((keys map ++ keys l).Nodup → keys (set_loop o l i map).2 = keys map ++ keys l) := by
  induction l generalizing i map with
  | nil => simp [set_loop, keys]
  | cons e rest ih =>
    obtain ⟨k, v⟩ := e
    have hck : c_str k = k := hc (k, v) (List.mem_cons_self _ _)
    simp only [keys, List.map_cons, List.nodup_cons] at hn
    by_cases hs : o.set_ok i = true
    · simp only [set_loop, hs, if_true, hck] at h ⊢
      obtain ⟨h1, h2, h3⟩ := ih (i + 1) (assign map k (c_str v)) h hn.2
        (fun e he => hc e (List.mem_cons_of_mem _ he))
      refine ⟨?_, ?_, ?_⟩
      · intro e he
        rcases List.mem_cons.mp he with he1 | he1
        · subst he1
          rw [h2 _ hn.1, lookup_assign]
          simp
        · exact h1 e he1
      · intro k1 hk1
        simp only [keys, List.map_cons, List.mem_cons, not_or] at hk1
        rw [h2 k1 hk1.2, lookup_assign]
        simp [Ne.symm hk1.1]
      · intro hnd
        have hkm : k ∉ keys map := by
          intro hh
          exact (List.nodup_append.mp hnd).2.2 hh (by simp [keys])
        have hk : keys (assign map k (c_str v)) = keys map ++ [k] :=
          keys_assign_of_not_mem map k (c_str v) hkm
        have hnd1 : (keys (assign map k (c_str v)) ++ keys rest).Nodup := by
          rw [hk]
          simpa [keys] using hnd
        rw [h3 hnd1, hk]
        simp [keys]
    · simp [set_loop, hs] at h

/-! ## Theorems: the processors -/

theorem dropWhile_of_head_not (p : Char → Bool) (l : List Char)
    (h : ∀ c, l.head? = some c → p c = false) : l.dropWhile p = l := by
  cases l with
  | nil => rfl
  | cons c rest =>
    have := h c rfl
    simp [List.dropWhile, this]

theorem takeWhile_of_head_not (p : Char → Bool) (l : List Char)
    (h : ∀ c, l.head? = some c → p c = false) : l.takeWhile p = [] := by
  cases l with
  | nil => rfl
  | cons c rest =>
    have := h c rfl
    simp [List.takeWhile, this]

theorem extract_of_first_token (content tok r : String) (h : is_first_token content tok) :
    extract content r = (true, tok) := by
  obtain ⟨hne, hns, ws, rest, hc, hws, hrest⟩ := h
  have hd : content.toList.dropWhile isspace = tok.toList ++ rest := by
    rw [hc, List.dropWhile_append_of_pos hws]
    apply dropWhile_of_head_not
    intro c hcc
    cases htl : tok.toList with
    | nil => exact absurd htl hne
    | cons x xs =>
      rw [htl] at hcc
      simp only [List.cons_append, List.head?_cons, Option.some.injEq] at hcc
      subst hcc
      exact hns x (by rw [htl]; exact List.mem_cons_self _ _)
  have ht : (tok.toList ++ rest).takeWhile (fun x => !isspace x) = tok.toList := by
    rw [List.takeWhile_append_of_pos (fun a ha => by simp [hns a ha])]
    rw [takeWhile_of_head_not _ rest (fun c hcc => by simp [hrest c hcc])]
    simp
  unfold extract
  rw [hd]
  cases htl : tok.toList ++ rest with
  | nil =>
    exfalso
    apply hne
    exact (List.append_eq_nil.mp htl).1
  | cons x xs =>
    simp only
    rw [← htl, ht]
    rfl

theorem first_token_of_extract (content tok r : String)
    (h : extract content r = (true, tok)) : is_first_token content tok := by
  unfold extract at h
  cases hd : content.toList.dropWhile isspace with
  | nil => rw [hd] at h; simp at h
  | cons x xs =>
    rw [hd] at h
    simp only [Prod.mk.injEq, true_and] at h
    have hx : isspace x = false := by
      have := List.head?_dropWhile_not isspace content.toList
      rw [hd] at this
      simpa using this
    have htl : tok.toList = (x :: xs).takeWhile (fun c => !isspace c) := by
      rw [← h]
      rfl
    refine ⟨?_, ?_, content.toList.takeWhile isspace,
      (x :: xs).dropWhile (fun c => !isspace c), ?_, ?_, ?_⟩
    · rw [htl]
      simp [List.takeWhile, hx]
    · intro c hc
      rw [htl] at hc
      have := List.mem_takeWhile_imp hc
      simpa using this
    · rw [htl, List.takeWhile_append_dropWhile, ← hd, List.takeWhile_append_dropWhile]
    · intro c hc
      exact List.mem_takeWhile_imp hc
    · intro c hc
      have := List.head?_dropWhile_not (fun c => !isspace c) (x :: xs)
      rw [hc] at this
      simpa using this

theorem extract_false (content r : String) (v : String)
    (h : extract content r = (false, v)) : v = r ∧ ¬ ∃ tok, is_first_token content tok := by
  constructor
  · unfold extract at h
    cases hd : content.toList.dropWhile isspace with
    | nil => rw [hd] at h; simp at h; exact h.symm
    | cons x xs => rw [hd] at h; simp at h
  · rintro ⟨tok, ht⟩
    rw [extract_of_first_token content tok r ht] at h
    simp at h

theorem find_is_zero_iff (s : String) : find_is_zero s = true ↔ starts_with_pkcs11 s := by
  unfold find_is_zero starts_with_pkcs11 p11_prefix_std
  rw [List.isPrefixOf_iff_prefix]
  constructor
  · rintro ⟨t, ht⟩
    refine ⟨String.mk t, ?_⟩
    apply String.ext
    show s.toList = _
    rw [← ht]
    rfl
  · rintro ⟨rest, hr⟩
    refine ⟨rest.toList, ?_⟩
    rw [hr]
    simp

theorem process_pkcs_true_iff (fs : Filesystem) (s : Bool) (p path r v : String) :
    process_pkcs_uri_security_file fs s p path r = (true, v) ↔
      s = true ∧ ∃ content, fs.ifstream path = some content ∧
        is_first_token content v ∧ starts_with_pkcs11 v := by
  unfold process_pkcs_uri_security_file
  cases s with
  | false => simp
  | true =>
    cases hi : fs.ifstream path with
    | none => simp
    | some content =>
      rcases he : extract content r with ⟨b, w⟩
      cases b with
      | false =>
        have := (extract_false content r w he).2
        simp only [Bool.not_true, Bool.false_eq_true, if_false, Prod.mk.injEq, false_and,
          Option.some.injEq, exists_eq_left', true_and, false_iff, not_and, he]
        intro hv
        exact absurd ⟨v, hv⟩ this
      | true =>
        have hw := first_token_of_extract content w r he
        simp only [Bool.not_true, Bool.false_eq_true, if_false, Option.some.injEq,
          exists_eq_left', true_and, he]
        by_cases hf : find_is_zero w = true
        · simp only [hf, Bool.not_true, Bool.false_eq_true, if_false, Prod.mk.injEq, true_and]
          constructor
          · intro hwv
            subst hwv
            exact ⟨hw, (find_is_zero_iff w).mp hf⟩
          · rintro ⟨hv, _⟩
            have h1 := extract_of_first_token content v r hv
            rw [he] at h1
            simpa using h1
        · simp only [hf, Bool.not_false, if_true, Prod.mk.injEq, Bool.false_eq_true, false_and,
            false_iff, not_and]
          intro hv hp
          have h1 := extract_of_first_token content v r hv
          rw [he] at h1
          simp only [Prod.mk.injEq, true_and] at h1
          subst h1
          exact hf ((find_is_zero_iff w).mpr hp)

/-! ## Theorems: the resolver as a whole -/

theorem required_keys : required_files.map Prod.fst = mandatory_attributes := rfl

theorem build_result_std_eq_none_iff (fs : Filesystem) (io : IterationOrder) (s : Bool)
    (p root : String) :
    build_result_std fs io s p root = none ↔
      ∃ el ∈ required_files, (candidates_loop fs s p root el.2 "").1 = false := by
  unfold build_result_std
  have h := required_loop_eq_none_iff fs s p root io.required []
  cases hr : required_loop fs s p root io.required [] with
  | none =>
    obtain ⟨el, hel, hf⟩ := h.mp hr
    simp only [true_iff]
    exact ⟨el, io.required_perm.mem_iff.mp hel, hf⟩
  | some r1 =>
    simp only [reduceCtorEq, false_iff]
    rintro ⟨el, hel, hf⟩
    rw [h.mpr ⟨el, io.required_perm.mem_iff.mpr hel, hf⟩] at hr
    simp at hr

theorem build_result_std_some (fs : Filesystem) (io : IterationOrder) (s : Bool)
    (p root : String) (rs : List (String × String))
    (h : build_result_std fs io s p root = some rs) :
    (keys rs).Nodup ∧
      (keys rs).Perm (mandatory_attributes ++
        if fs.is_regular_file (fs.append root "crl.pem") = true then ["CRL"] else []) ∧
      (∀ el ∈ required_files, lookup rs el.1 = some (candidates_loop fs s p root el.2 "").2) ∧
      lookup rs "CRL" = (if fs.is_regular_file (fs.append root "crl.pem") = true then
        some (p ++ fs.generic_string (fs.append root "crl.pem")) else none) := by
  unfold build_result_std at h
  cases hr : required_loop fs s p root io.required [] with
  | none => rw [hr] at h; simp at h
  | some r1 =>
    rw [hr] at h
    simp only [Option.some.injEq] at h
    have hperm : (io.required.map Prod.fst).Perm mandatory_attributes := by
      rw [← required_keys]
      exact io.required_perm.map _
    have hnd : (io.required.map Prod.fst).Nodup :=
      hperm.nodup_iff.mpr (by decide)
    obtain ⟨h1, h2, h3⟩ := required_loop_some fs s p root io.required [] r1 hr
      (by simpa [keys] using hnd)
    simp only [keys, List.map_nil, List.nil_append] at h1
    have hcrl : "CRL" ∉ keys r1 := by
      simp only [keys]
      rw [h1]
      intro hh
      have := hperm.mem_iff.mp hh
      revert this
      decide
    have hl1 : ∀ el ∈ required_files, lookup r1 el.1 =
        some (candidates_loop fs s p root el.2 "").2 :=
      fun el hel => h2 el (io.required_perm.mem_iff.mpr hel)
    have hne : ∀ el ∈ required_files, ¬ "CRL" = el.1 := by
      intro el hel hh
      have : el.1 ∈ mandatory_attributes := by
        rw [← required_keys]
        exact List.mem_map_of_mem Prod.fst hel
      rw [← hh] at this
      revert this
      decide
    by_cases hc : fs.is_regular_file (fs.append root "crl.pem") = true
    · simp only [optional_loop, optional_files, hc, if_true] at h
      subst h
      have hk := keys_assign_of_not_mem r1 "CRL"
        (p ++ fs.generic_string (fs.append root "crl.pem")) hcrl
      refine ⟨?_, ?_, ?_, ?_⟩
      · rw [hk]
        simp only [keys] at hcrl ⊢
        rw [h1] at hcrl ⊢
        exact List.nodup_append.mpr ⟨hnd, by simp, by
          intro a ha hb
          simp only [List.mem_singleton] at hb
          subst hb
          exact hcrl ha⟩
      · rw [hk]
        simp only [keys, hc, if_true]
        rw [h1]
        exact hperm.append_right _
      · intro el hel
        rw [lookup_assign]
        simp only [hne el hel, if_false]
        exact hl1 el hel
      · rw [lookup_assign]
        simp [hc]
    · simp only [optional_loop, optional_files, hc, if_false, Bool.false_eq_true] at h
      subst h
      refine ⟨?_, ?_, hl1, ?_⟩
      · simp only [keys]
        rw [h1]
        exact hnd
      · simp only [keys, hc, if_false, List.append_nil, Bool.false_eq_true]
        rw [h1]
        exact hperm
      · simp only [hc, if_false, Bool.false_eq_true]
        exact lookup_eq_none_of_not_mem _ _ hcrl

theorem resolver_error_of_build_none (fs : Filesystem) (io : IterationOrder)
    (o : StringMapOracle) (s : Bool) (p root : String) (map : rcutils_string_map_t)
    (h : build_result_std fs io s p root = none) :
    get_security_files_support_pkcs fs io o s (some p) (some root) (some map) =
      (RMW_RET_ERROR, some map) := by
  simp [get_security_files_support_pkcs, h]

theorem resolver_ok (fs : Filesystem) (io : IterationOrder) (o : StringMapOracle) (s : Bool)
    (p root : String) (map : rcutils_string_map_t) (om : Option rcutils_string_map_t)
    (h : get_security_files_support_pkcs fs io o s (some p) (some root) (some map) =
      (RMW_RET_OK, om)) :
    ∃ rs m1, build_result_std fs io s p root = some rs ∧ om = some m1 ∧
      (∀ k v, lookup rs k = some v → lookup m1 k = some (c_str v)) ∧
      (∀ k, k ∉ keys rs → lookup m1 k = lookup map k) ∧
      (map = [] → (keys m1).Perm (keys rs)) := by
  simp only [get_security_files_support_pkcs] at h
  cases hb : build_result_std fs io s p root with
  | none => rw [hb] at h; simp at h
  | some rs =>
    rw [hb] at h
    simp only at h
    by_cases hr : o.reserve_ok = true
    · simp only [hr, Bool.not_true, Bool.false_eq_true, if_false, Prod.mk.injEq] at h
      obtain ⟨hnd, hperm, -, -⟩ := build_result_std_some fs io s p root rs hb
      have hkp : (keys (io.result rs)).Perm (keys rs) := (io.result_perm rs).map _
      have hnd1 : (keys (io.result rs)).Nodup := hkp.nodup_iff.mpr hnd
      have hck : ∀ e ∈ io.result rs, c_str e.1 = e.1 := by
        intro e he
        apply c_str_key
        have h1 : e.1 ∈ keys rs := hkp.mem_iff.mp (List.mem_map_of_mem _ he)
        have h2 := hperm.mem_iff.mp h1
        by_cases hc : fs.is_regular_file (fs.append root "crl.pem") = true
        · simpa [hc] using h2
        · simp only [hc, Bool.false_eq_true, if_false, List.append_nil] at h2
          exact List.mem_append_left _ h2
      obtain ⟨h1, h2, h3⟩ := set_loop_ok o (io.result rs) 0 map h.1 hnd1 hck
      refine ⟨rs, (set_loop o (io.result rs) 0 map).2, rfl, h.2.symm, ?_, ?_, ?_⟩
      · intro k v hkv
        have hm := mem_keys_of_lookup rs k v hkv
        exact h1 (k, v) ((io.result_perm rs).mem_iff.mpr hm)
      · intro k hk
        exact h2 k (fun hh => hk (hkp.mem_iff.mp hh))
      · intro hmap
        subst hmap
        have := h3 (by simpa [keys] using hnd1)
        rw [this]
        simpa [keys] using hkp
    · simp [hr] at h

theorem resolver_status_of_succeeds (fs : Filesystem) (io : IterationOrder)
    (o : StringMapOracle) (ho : o.succeeds) (s : Bool) (p root : String)
    (map : rcutils_string_map_t) :
    (get_security_files_support_pkcs fs io o s (some p) (some root) (some map)).1 =
      if build_result_std fs io s p root = none then RMW_RET_ERROR else RMW_RET_OK := by
  simp only [get_security_files_support_pkcs]
  cases hb : build_result_std fs io s p root with
  | none => simp
  | some rs =>
    simp only [ho.1, Bool.not_true, Bool.false_eq_true, if_false, reduceCtorEq]
    exact set_loop_of_succeeds o ho.2 _ _ _

/-! ## Theorems: the table `required_files` -/

theorem process_pkcs_unsupported (fs : Filesystem) (p path r : String) :
    process_pkcs_uri_security_file fs false p path r = (false, r) := by
  simp [process_pkcs_uri_security_file]

theorem process_pkcs_fst_false (fs : Filesystem) (s : Bool) (p path r : String)
    (h : (process_pkcs_uri_security_file fs s p path r).1 = false) :
    ∃ v, process_pkcs_uri_security_file fs s p path r = (false, v) := by
  rcases hp : process_pkcs_uri_security_file fs s p path r with ⟨b, v⟩
  rw [hp] at h
  simp only at h
  subst h
  exact ⟨v, rfl⟩

theorem process_file_fst (fs : Filesystem) (s : Bool) (p path r : String) :
    (process_file_uri_security_file fs s p path r).1 = fs.is_regular_file path := by
  cases h : fs.is_regular_file path <;> simp [process_file_uri_security_file, h]

theorem candidates_file_only (fs : Filesystem) (s : Bool) (p root name r : String) :
    candidates_loop fs s p root [(name, process_file_uri_security_file)] r =
      if fs.is_regular_file (fs.append root name) = true then
        (true, p ++ fs.generic_string (fs.append root name)) else (false, r) := by
  cases h : fs.is_regular_file (fs.append root name) <;>
    simp [candidates_loop, process_file_uri_security_file, h]

theorem candidates_unsupported (fs : Filesystem) (p root n1 n2 r : String) :
    candidates_loop fs false p root
        [(n1, process_pkcs_uri_security_file), (n2, process_file_uri_security_file)] r =
      if fs.is_regular_file (fs.append root n2) = true then
        (true, p ++ fs.generic_string (fs.append root n2)) else (false, r) := by
  cases h : fs.is_regular_file (fs.append root n2) <;>
    simp [candidates_loop, process_pkcs_unsupported, process_file_uri_security_file, h]

theorem candidates_plain (fs : Filesystem) (p root : String) (el : String × processor_vector)
    (hel : el ∈ required_files) :
    ∃ e ∈ plain_file_names, e.1 = el.1 ∧ candidates_loop fs false p root el.2 "" =
      if fs.is_regular_file (fs.append root e.2) = true then
        (true, p ++ fs.generic_string (fs.append root e.2)) else (false, "") := by
  simp only [required_files, List.mem_cons, List.mem_singleton, List.not_mem_nil,
    or_false] at hel
  rcases hel with rfl | rfl | rfl | rfl | rfl | rfl
  · refine ⟨("IDENTITY_CA", "identity_ca.cert.pem"), by simp [plain_file_names], rfl, ?_⟩
    exact candidates_unsupported fs p root _ _ ""
  · refine ⟨("CERTIFICATE", "cert.pem"), by simp [plain_file_names], rfl, ?_⟩
    exact candidates_unsupported fs p root _ _ ""
  · refine ⟨("PRIVATE_KEY", "key.pem"), by simp [plain_file_names], rfl, ?_⟩
    exact candidates_unsupported fs p root _ _ ""
  · refine ⟨("PERMISSIONS_CA", "permissions_ca.cert.pem"), by simp [plain_file_names], rfl, ?_⟩
    exact candidates_unsupported fs p root _ _ ""
  · refine ⟨("GOVERNANCE", "governance.p7s"), by simp [plain_file_names], rfl, ?_⟩
    exact candidates_file_only fs false p root _ ""
  · refine ⟨("PERMISSIONS", "permissions.p7s"), by simp [plain_file_names], rfl, ?_⟩
    exact candidates_file_only fs false p root _ ""

theorem plain_has_entry (e : String × String) (he : e ∈ plain_file_names) :
    ∃ el ∈ required_files, el.1 = e.1 := by
  simp only [plain_file_names, List.mem_cons, List.mem_singleton, List.not_mem_nil,
    or_false] at he
  rcases he with rfl | rfl | rfl | rfl | rfl | rfl
  · exact ⟨_, List.mem_cons_self _ _, rfl⟩
  · exact ⟨_, List.mem_cons_of_mem _ (List.mem_cons_self _ _), rfl⟩
  · exact ⟨_, List.mem_cons_of_mem _ (List.mem_cons_of_mem _ (List.mem_cons_self _ _)), rfl⟩
  · exact ⟨_, List.mem_cons_of_mem _ (List.mem_cons_of_mem _ (List.mem_cons_of_mem _
      (List.mem_cons_self _ _))), rfl⟩
  · exact ⟨_, List.mem_cons_of_mem _ (List.mem_cons_of_mem _ (List.mem_cons_of_mem _
      (List.mem_cons_of_mem _ (List.mem_cons_self _ _)))), rfl⟩
  · exact ⟨_, List.mem_cons_of_mem _ (List.mem_cons_of_mem _ (List.mem_cons_of_mem _
      (List.mem_cons_of_mem _ (List.mem_cons_of_mem _ (List.mem_cons_self _ _))))), rfl⟩

theorem plain_names_unique (e e1 : String × String) (he : e ∈ plain_file_names)
    (he1 : e1 ∈ plain_file_names) (h : e.1 = e1.1) : e = e1 := by
  simp only [plain_file_names, List.mem_cons, List.mem_singleton, List.not_mem_nil,
    or_false] at he he1
  rcases he with rfl | rfl | rfl | rfl | rfl | rfl <;>
    rcases he1 with rfl | rfl | rfl | rfl | rfl | rfl <;>
    first
      | rfl
      | (exfalso; revert h; decide)

theorem candidates_token (fs : Filesystem) (p root : String) (e : String × String)
    (he : e ∈ token_file_names) (content tok : String)
    (hopen : fs.ifstream (fs.append root e.2) = some content)
    (htok : is_first_token content tok) (hp : starts_with_pkcs11 tok) :
    ∃ el ∈ required_files, el.1 = e.1 ∧ candidates_loop fs true p root el.2 "" = (true, tok) := by
  have hproc : process_pkcs_uri_security_file fs true p (fs.append root e.2) "" = (true, tok) :=
    (process_pkcs_true_iff fs true p _ "" tok).mpr ⟨rfl, content, hopen, htok, hp⟩
  simp only [token_file_names, List.mem_cons, List.mem_singleton, List.not_mem_nil,
    or_false] at he
  rcases he with rfl | rfl | rfl | rfl
  · refine ⟨_, List.mem_cons_self _ _, rfl, ?_⟩
    simp only [candidates_loop, hproc]
  · refine ⟨_, List.mem_cons_of_mem _ (List.mem_cons_self _ _), rfl, ?_⟩
    simp only [candidates_loop, hproc]
  · refine ⟨_, List.mem_cons_of_mem _ (List.mem_cons_of_mem _ (List.mem_cons_self _ _)),
      rfl, ?_⟩
    simp only [candidates_loop, hproc]
  · refine ⟨_, List.mem_cons_of_mem _ (List.mem_cons_of_mem _ (List.mem_cons_of_mem _
      (List.mem_cons_self _ _))), rfl, ?_⟩
    simp only [candidates_loop, hproc]

theorem candidates_congr (fs fs1 : Filesystem) (s : Bool) (p root : String)
    (happ : fs1.append = fs.append) (hgen : fs1.generic_string = fs.generic_string)
    (hifs : fs1.ifstream = fs.ifstream)
    (hreg : ∀ e ∈ plain_file_names,
      fs1.is_regular_file (fs.append root e.2) = fs.is_regular_file (fs.append root e.2))
    (el : String × processor_vector) (hel : el ∈ required_files) :
    candidates_loop fs1 s p root el.2 "" = candidates_loop fs s p root el.2 "" := by
  have h1 := hreg ("IDENTITY_CA", "identity_ca.cert.pem") (by simp [plain_file_names])
  have h2 := hreg ("CERTIFICATE", "cert.pem") (by simp [plain_file_names])
  have h3 := hreg ("PRIVATE_KEY", "key.pem") (by simp [plain_file_names])
  have h4 := hreg ("PERMISSIONS_CA", "permissions_ca.cert.pem") (by simp [plain_file_names])
  have h5 := hreg ("GOVERNANCE", "governance.p7s") (by simp [plain_file_names])
  have h6 := hreg ("PERMISSIONS", "permissions.p7s") (by simp [plain_file_names])
  simp only at h1 h2 h3 h4 h5 h6
  simp only [required_files, List.mem_cons, List.mem_singleton, List.not_mem_nil,
    or_false] at hel
  rcases hel with rfl | rfl | rfl | rfl | rfl | rfl <;>
    simp only [candidates_loop, process_pkcs_uri_security_file, process_file_uri_security_file,
      happ, hgen, hifs, h1, h2, h3, h4, h5, h6]

/-! ## Claims about the resolver -/

/-- C1. If one of the six mandatory attributes has no candidate that resolves, then
`get_security_files_support_pkcs` returns `RMW_RET_ERROR` and the caller's map is exactly what
it was before the call, for every file system, iteration order, prefix, root and
`supports_pkcs11`. -/
theorem unresolved_mandatory_attribute_is_error (fs : Filesystem) (io : IterationOrder)
    (o : StringMapOracle) (s : Bool) (p root : String) (map : rcutils_string_map_t)
    (h : ∃ el ∈ required_files, ∀ proc ∈ el.2, ¬ candidate_resolves fs s p root proc) :
    get_security_files_support_pkcs fs io o s (some p) (some root) (some map) =
      (RMW_RET_ERROR, some map) := by
  obtain ⟨el, hel, hno⟩ := h
  apply resolver_error_of_build_none
  rw [build_result_std_eq_none_iff]
  refine ⟨el, hel, candidates_loop_all_fail fs s p root el.2 ?_ ""⟩
  intro proc hproc r
  have := hno proc hproc
  simp only [candidate_resolves, not_exists, Bool.not_eq_true] at this
  exact this r

/-- Witness of C1: in `/sec` without `governance.p7s` the resolver fails and the entry that the
caller's map held is still its only entry. -/
theorem unresolved_mandatory_attribute_is_error_witness :
    get_security_files_support_pkcs sec_fs_no_governance insertion_order all_succeed false
        (some "file://") (some "/sec") (some [("KEPT", "as it was")]) =
      (RMW_RET_ERROR, some [("KEPT", "as it was")]) :=
  unresolved_mandatory_attribute_is_error sec_fs_no_governance insertion_order all_succeed false
    "file://" "/sec" [("KEPT", "as it was")]
    ⟨("GOVERNANCE", [("governance.p7s", process_file_uri_security_file)]),
      by simp [required_files],
      by
        intro proc hproc
        rw [List.mem_singleton] at hproc
        subst hproc
        rintro ⟨r, hr⟩
        rw [process_file_fst] at hr
        revert hr
        decide⟩

/-- C2, as stated, fails: the `key.p11` of `sec_fs_nul` holds the token `pkcs11:a`, a NUL
character and `b`; the processor accepts the token, the resolver returns `RMW_RET_OK`, and the
value stored for `PRIVATE_KEY` is `pkcs11:a`, which is not the token. -/
theorem token_with_nul_is_cut :
    process_pkcs_uri_security_file sec_fs_nul true "file://" "/sec/key.p11" "" =
        (true, "pkcs11:a\x00b") ∧
      (get_security_files_support_pkcs sec_fs_nul insertion_order all_succeed true
          (some "file://") (some "/sec") (some [])).1 = RMW_RET_OK ∧
      (get_security_files_support_pkcs sec_fs_nul insertion_order all_succeed true
          (some "file://") (some "/sec") (some [])).2.bind (fun m => lookup m "PRIVATE_KEY") =
        some "pkcs11:a" ∧
      "pkcs11:a" ≠ "pkcs11:a\x00b" := by
  refine ⟨by decide, by decide, by decide, by decide⟩

/-- C2, amended. For each of `IDENTITY_CA`, `CERTIFICATE`, `PRIVATE_KEY`, `PERMISSIONS_CA`:
when `supports_pkcs11` is true, the `.p11` file of the attribute can be opened, its first
whitespace-delimited token `tok` starts with `pkcs11:`, and the resolver returns `RMW_RET_OK`,
the value stored for the attribute is `tok` up to its first NUL character, which is `tok`
when it holds none; nothing is assumed of the `.pem` file. -/
theorem token_takes_precedence (fs : Filesystem) (io : IterationOrder) (o : StringMapOracle)
    (p root : String) (map m1 : rcutils_string_map_t) (e : String × String)
    (content tok : String) (he : e ∈ token_file_names)
    (hopen : fs.ifstream (fs.append root e.2) = some content)
    (htok : is_first_token content tok) (hp : starts_with_pkcs11 tok)
    (hok : get_security_files_support_pkcs fs io o true (some p) (some root) (some map) =
      (RMW_RET_OK, some m1)) :
    lookup m1 e.1 = some (c_str tok) ∧ (nul_free tok → lookup m1 e.1 = some tok) := by
  obtain ⟨rs, m2, hb, hm, hl, -, -⟩ := resolver_ok fs io o true p root map (some m1) hok
  simp only [Option.some.injEq] at hm
  subst hm
  obtain ⟨el, hel, hk, hc⟩ := candidates_token fs p root e he content tok hopen htok hp
  obtain ⟨-, -, hv, -⟩ := build_result_std_some fs io true p root rs hb
  have hval : lookup m1 e.1 = some (c_str tok) := by
    apply hl
    rw [← hk, hv el hel, hc]
  exact ⟨hval, fun hn => by rw [hval, c_str_of_nul_free tok hn]⟩

/-- Witness of C2, amended: with `key.p11` and `key.pem` both in `/sec`, `PRIVATE_KEY` is the
token. -/
theorem token_takes_precedence_witness :
    sec_fs_token.is_regular_file "/sec/key.pem" = true ∧
      lookup
        [ ("IDENTITY_CA", "file:///sec/identity_ca.cert.pem"),
          ("CERTIFICATE", "file:///sec/cert.pem"),
          ("PRIVATE_KEY", "pkcs11:token=abc;object=key"),
          ("PERMISSIONS_CA", "file:///sec/permissions_ca.cert.pem"),
          ("GOVERNANCE", "file:///sec/governance.p7s"),
          ("PERMISSIONS", "file:///sec/permissions.p7s") ] "PRIVATE_KEY" =
        some "pkcs11:token=abc;object=key" :=
  ⟨by decide,
    (token_takes_precedence sec_fs_token insertion_order all_succeed "file://" "/sec" [] _
      ("PRIVATE_KEY", "key.p11") "pkcs11:token=abc;object=key\n" "pkcs11:token=abc;object=key"
      (by simp [token_file_names]) (by decide)
      (first_token_of_extract _ _ "" (by decide)) ⟨"token=abc;object=key", by decide⟩
      (by decide)).2 (by decide)⟩

/-- C3. With `supports_pkcs11 = false`, which is what `get_security_files` passes, and string
map calls that succeed: the resolver returns `RMW_RET_OK` if and only if the six plain files
are regular files under the root; and when it does, each mandatory value is the prefix followed
by the generic string of the path of the plain file, whatever `.p11` files exist. The map
receives the value as a C string, `c_str` of it, which is the value itself when it holds no
NUL character, as a prefix and a path passed as C strings do not. -/
theorem get_security_files_plain (fs : Filesystem) (io : IterationOrder) (o : StringMapOracle)
    (p root : String) (map : rcutils_string_map_t) (ho : o.succeeds) :
    ((get_security_files fs io o (some p) (some root) (some map)).1 = RMW_RET_OK ↔
        ∀ e ∈ plain_file_names, fs.is_regular_file (fs.append root e.2) = true) ∧
      (∀ m1, get_security_files fs io o (some p) (some root) (some map) =
          (RMW_RET_OK, some m1) →
        ∀ e ∈ plain_file_names,
          lookup m1 e.1 = some (c_str (p ++ fs.generic_string (fs.append root e.2))) ∧
          (nul_free (p ++ fs.generic_string (fs.append root e.2)) →
            lookup m1 e.1 = some (p ++ fs.generic_string (fs.append root e.2)))) := by
  unfold get_security_files
  constructor
  · rw [resolver_status_of_succeeds fs io o ho]
    constructor
    · intro h e he
      have hb : ¬ build_result_std fs io false p root = none := by
        intro hh
        simp [hh] at h
      rw [build_result_std_eq_none_iff] at hb
      obtain ⟨el, hel, hk⟩ := plain_has_entry e he
      obtain ⟨e1, he1, hk1, hc⟩ := candidates_plain fs p root el hel
      have hee : e1 = e := plain_names_unique e1 e he1 he (by rw [hk1, hk])
      subst hee
      by_contra hreg
      apply hb
      refine ⟨el, hel, ?_⟩
      rw [hc]
      simp [hreg]
    · intro h
      have hb : ¬ build_result_std fs io false p root = none := by
        rw [build_result_std_eq_none_iff]
        rintro ⟨el, hel, hf⟩
        obtain ⟨e1, he1, -, hc⟩ := candidates_plain fs p root el hel
        rw [hc, h e1 he1] at hf
        simp at hf
      simp [hb]
  · intro m1 hok e he
    obtain ⟨rs, m2, hb, hm, hl, -, -⟩ := resolver_ok fs io o false p root map (some m1) hok
    simp only [Option.some.injEq] at hm
    subst hm
    obtain ⟨-, -, hv, -⟩ := build_result_std_some fs io false p root rs hb
    obtain ⟨el, hel, hk⟩ := plain_has_entry e he
    obtain ⟨e1, he1, hk1, hc⟩ := candidates_plain fs p root el hel
    have hee : e1 = e := plain_names_unique e1 e he1 he (by rw [hk1, hk])
    subst hee
    have hreg : fs.is_regular_file (fs.append root e1.2) = true := by
      by_contra hreg
      have : build_result_std fs io false p root = none := by
        rw [build_result_std_eq_none_iff]
        refine ⟨el, hel, ?_⟩
        rw [hc]
        simp [hreg]
      rw [this] at hb
      simp at hb
    have hval : lookup m1 e1.1 =
        some (c_str (p ++ fs.generic_string (fs.append root e1.2))) := by
      apply hl
      rw [← hk, hv el hel, hc]
      simp [hreg]
    exact ⟨hval, fun hn => by rw [hval, c_str_of_nul_free _ hn]⟩

/-- Witness of C3: `/sec` with its six plain files and also a `key.p11`; `get_security_files`
succeeds and `PRIVATE_KEY` is the path of `key.pem`. -/
theorem get_security_files_plain_witness :
    all_succeed.succeeds ∧
      (get_security_files sec_fs_token insertion_order all_succeed (some "file://")
        (some "/sec") (some [])).1 = RMW_RET_OK :=
  ⟨⟨rfl, fun _ => rfl⟩,
    (get_security_files_plain sec_fs_token insertion_order all_succeed "file://" "/sec" []
      ⟨rfl, fun _ => rfl⟩).1.mpr (by decide)⟩

/-- C4. When `get_security_files_support_pkcs` returns `RMW_RET_OK` on an empty map, the keys
of the map are the six mandatory attribute names, and `CRL` if and only if `crl.pem` under
the root is a regular file; no key occurs twice, so the map has 6 or 7 entries. -/
theorem ok_map_keys (fs : Filesystem) (io : IterationOrder) (o : StringMapOracle) (s : Bool)
    (p root : String) (m1 : rcutils_string_map_t)
    (h : get_security_files_support_pkcs fs io o s (some p) (some root) (some []) =
      (RMW_RET_OK, some m1)) :
    (∀ k, k ∈ keys m1 ↔
        k ∈ mandatory_attributes ∨
          (k = "CRL" ∧ fs.is_regular_file (fs.append root "crl.pem") = true)) ∧
      (keys m1).Nodup ∧
      m1.length = (if fs.is_regular_file (fs.append root "crl.pem") = true then 7 else 6) := by
  obtain ⟨rs, m2, hb, hm, -, -, hk⟩ := resolver_ok fs io o s p root [] (some m1) h
  simp only [Option.some.injEq] at hm
  subst hm
  obtain ⟨hnd, hperm, -, -⟩ := build_result_std_some fs io s p root rs hb
  have hk1 := (hk rfl).trans hperm
  refine ⟨?_, (hk rfl).nodup_iff.mpr hnd, ?_⟩
  · intro k
    rw [hk1.mem_iff]
    by_cases hc : fs.is_regular_file (fs.append root "crl.pem") = true <;> simp [hc]
  · have hlen := hk1.length_eq
    simp only [keys, List.length_map] at hlen
    rw [hlen]
    by_cases hc : fs.is_regular_file (fs.append root "crl.pem") = true <;>
      simp [hc, mandatory_attributes]

/-- Witness of C4: the six plain files of `/sec`, where there is no `crl.pem`, give a map of
six entries. -/
theorem ok_map_keys_witness :
    sec_fs.is_regular_file (sec_fs.append "/sec" "crl.pem") = false ∧
      List.length
        [ ("IDENTITY_CA", "file:///sec/identity_ca.cert.pem"),
          ("CERTIFICATE", "file:///sec/cert.pem"),
          ("PRIVATE_KEY", "file:///sec/key.pem"),
          ("PERMISSIONS_CA", "file:///sec/permissions_ca.cert.pem"),
          ("GOVERNANCE", "file:///sec/governance.p7s"),
          ("PERMISSIONS", "file:///sec/permissions.p7s") ] =
        (if sec_fs.is_regular_file (sec_fs.append "/sec" "crl.pem") = true then 7 else 6) :=
  ⟨by decide,
    (ok_map_keys sec_fs insertion_order all_succeed false "file://" "/sec" _ (by decide)).2.2⟩

/-- C5. The PKCS#11 processor returns `true` if and only if `supports_pkcs11` is true, the
file can be opened, the stream holds a first whitespace-delimited token, and the token starts
with `pkcs11:`; the value it then leaves in `result` is that token; and the prefix has no
effect on what the processor does. -/
theorem pkcs_processor_spec (fs : Filesystem) (s : Bool) (p path r : String) :
    ((process_pkcs_uri_security_file fs s p path r).1 = true ↔
        s = true ∧ ∃ content, fs.ifstream path = some content ∧
          ∃ tok, is_first_token content tok ∧ starts_with_pkcs11 tok) ∧
      (∀ v, process_pkcs_uri_security_file fs s p path r = (true, v) ↔
        s = true ∧ ∃ content, fs.ifstream path = some content ∧
          is_first_token content v ∧ starts_with_pkcs11 v) ∧
      (∀ p1, process_pkcs_uri_security_file fs s p1 path r =
        process_pkcs_uri_security_file fs s p path r) := by
  refine ⟨?_, fun v => process_pkcs_true_iff fs s p path r v, fun _ => rfl⟩
  constructor
  · intro h
    rcases hp : process_pkcs_uri_security_file fs s p path r with ⟨b, v⟩
    rw [hp] at h
    simp only at h
    subst h
    obtain ⟨hs, content, hc, ht, hpre⟩ := (process_pkcs_true_iff fs s p path r v).mp hp
    exact ⟨hs, content, hc, v, ht, hpre⟩
  · rintro ⟨hs, content, hc, tok, ht, hpre⟩
    rw [(process_pkcs_true_iff fs s p path r tok).mpr ⟨hs, content, hc, ht, hpre⟩]

/-- C6. The optional `CRL` attribute never causes failure. For two file system states that
agree on everything the resolver consults apart from whether `crl.pem` under the root is a
regular file: building `result_std` fails in both or in neither; when the string map calls
succeed the two runs return the same code; two successful runs store the same value for each
of the six mandatory attributes; and after a successful run on a map without `CRL`, the key
`CRL` is present with the prefix followed by the generic string of the path of `crl.pem` when
that file is a regular file, and absent otherwise. The map receives the value as a C string,
`c_str` of it, which is the value itself when it holds no NUL character, as a prefix and a
path passed as C strings do not. -/
theorem crl_is_optional (fs fs1 : Filesystem) (io io1 : IterationOrder)
    (o o1 : StringMapOracle) (s : Bool) (p root : String) (map : rcutils_string_map_t)
    (happ : fs1.append = fs.append) (hgen : fs1.generic_string = fs.generic_string)
    (hifs : fs1.ifstream = fs.ifstream)
    (hreg : ∀ e ∈ plain_file_names,
      fs1.is_regular_file (fs.append root e.2) = fs.is_regular_file (fs.append root e.2)) :
    ((build_result_std fs1 io1 s p root = none) ↔ (build_result_std fs io s p root = none)) ∧
      (o.succeeds → o1.succeeds →
        (get_security_files_support_pkcs fs1 io1 o1 s (some p) (some root) (some map)).1 =
          (get_security_files_support_pkcs fs io o s (some p) (some root) (some map)).1) ∧
      (∀ m m1,
        get_security_files_support_pkcs fs io o s (some p) (some root) (some map) =
          (RMW_RET_OK, some m) →
        get_security_files_support_pkcs fs1 io1 o1 s (some p) (some root) (some map) =
          (RMW_RET_OK, some m1) →
        ∀ k ∈ mandatory_attributes, lookup m1 k = lookup m k) ∧
      (∀ m, lookup map "CRL" = none →
        get_security_files_support_pkcs fs io o s (some p) (some root) (some map) =
          (RMW_RET_OK, some m) →
        (lookup m "CRL" = if fs.is_regular_file (fs.append root "crl.pem") = true then
          some (c_str (p ++ fs.generic_string (fs.append root "crl.pem"))) else none) ∧
        (nul_free (p ++ fs.generic_string (fs.append root "crl.pem")) →
          lookup m "CRL" = if fs.is_regular_file (fs.append root "crl.pem") = true then
            some (p ++ fs.generic_string (fs.append root "crl.pem")) else none)) := by
  have hcong := candidates_congr fs fs1 s p root happ hgen hifs hreg
  have hnone : (build_result_std fs1 io1 s p root = none) ↔
      (build_result_std fs io s p root = none) := by
    rw [build_result_std_eq_none_iff, build_result_std_eq_none_iff]
    constructor
    · rintro ⟨el, hel, hf⟩
      exact ⟨el, hel, by rw [← hcong el hel]; exact hf⟩
    · rintro ⟨el, hel, hf⟩
      exact ⟨el, hel, by rw [hcong el hel]; exact hf⟩
  refine ⟨hnone, ?_, ?_, ?_⟩
  · intro ho ho1
    rw [resolver_status_of_succeeds fs1 io1 o1 ho1, resolver_status_of_succeeds fs io o ho]
    by_cases hb : build_result_std fs io s p root = none
    · simp [hb, hnone.mpr hb]
    · have hb1 : ¬ build_result_std fs1 io1 s p root = none := fun hh => hb (hnone.mp hh)
      simp [hb, hb1]
  · intro m m1 hok hok1 k hk
    obtain ⟨rs, m2, hb, hm, hl, -, -⟩ := resolver_ok fs io o s p root map (some m) hok
    obtain ⟨rs1, m3, hb1, hm1, hl1, -, -⟩ := resolver_ok fs1 io1 o1 s p root map (some m1) hok1
    simp only [Option.some.injEq] at hm hm1
    subst hm hm1
    obtain ⟨-, -, hv, -⟩ := build_result_std_some fs io s p root rs hb
    obtain ⟨-, -, hv1, -⟩ := build_result_std_some fs1 io1 s p root rs1 hb1
    rw [← required_keys] at hk
    obtain ⟨el, hel, hk1⟩ := List.mem_map.mp hk
    subst hk1
    rw [hl _ _ (hv el hel), hl1 _ _ (hv1 el hel), hcong el hel]
  · intro m hmap hok
    obtain ⟨rs, m2, hb, hm, hl, hl2, -⟩ := resolver_ok fs io o s p root map (some m) hok
    simp only [Option.some.injEq] at hm
    subst hm
    obtain ⟨-, hperm, -, hcrl⟩ := build_result_std_some fs io s p root rs hb
    have hval : lookup m "CRL" =
        if fs.is_regular_file (fs.append root "crl.pem") = true then
          some (c_str (p ++ fs.generic_string (fs.append root "crl.pem"))) else none := by
      by_cases hc : fs.is_regular_file (fs.append root "crl.pem") = true
      · simp only [hc, if_true] at hcrl ⊢
        exact hl _ _ hcrl
      · simp only [hc, if_false, Bool.false_eq_true] at hcrl hperm ⊢
        rw [hl2, hmap]
        intro hh
        have := hperm.mem_iff.mp hh
        revert this
        decide
    exact ⟨hval, fun hn => by rw [hval, c_str_of_nul_free _ hn]⟩

/-- Witness of C6: `/sec` with and without `crl.pem`; both runs return the same code. -/
theorem crl_is_optional_witness :
    (get_security_files_support_pkcs sec_fs_crl insertion_order all_succeed false
        (some "file://") (some "/sec") (some [])).1 =
      (get_security_files_support_pkcs sec_fs insertion_order all_succeed false
        (some "file://") (some "/sec") (some [])).1 :=
  (crl_is_optional sec_fs sec_fs_crl insertion_order insertion_order all_succeed all_succeed
    false "file://" "/sec" [] rfl rfl rfl (by decide)).2.1 ⟨rfl, fun _ => rfl⟩ ⟨rfl, fun _ => rfl⟩

/-- C7. When the prefix, the secure root or the output map is `NULL`,
`get_security_files_support_pkcs` returns `RMW_RET_INVALID_ARGUMENT` and the caller's map is
what it was; the outcome is the same for every file system, iteration order and string map
behaviour, none of which is consulted. -/
theorem null_argument_is_invalid (fs : Filesystem) (io : IterationOrder) (o : StringMapOracle)
    (s : Bool) (prefix_arg secure_root : Option String) (result : Option rcutils_string_map_t)
    (h : prefix_arg = none ∨ secure_root = none ∨ result = none) :
    get_security_files_support_pkcs fs io o s prefix_arg secure_root result =
      (RMW_RET_INVALID_ARGUMENT, result) := by
  cases prefix_arg with
  | none => rfl
  | some p =>
    cases secure_root with
    | none => rfl
    | some root =>
      cases result with
      | none => rfl
      | some map => simp at h

/-- Witness of C7: a `NULL` root in the complete directory `/sec`. -/
theorem null_argument_is_invalid_witness :
    get_security_files_support_pkcs sec_fs insertion_order all_succeed true (some "file://")
        none (some [("KEPT", "as it was")]) =
      (RMW_RET_INVALID_ARGUMENT, some [("KEPT", "as it was")]) :=
  null_argument_is_invalid sec_fs insertion_order all_succeed true (some "file://") none
    (some [("KEPT", "as it was")]) (Or.inr (Or.inl rfl))

/-! ## Theorems: memory -/

theorem lt_fresh (h : Heap) (c : Cell) (hc : c ∈ h.cells) : c.addr < h.fresh := by
  unfold Heap.fresh
  have : ∀ (l : List Nat) (x : Nat), x ∈ l → x ≤ l.foldr max 0 := by
    intro l
    induction l with
    | nil => intro x hx; simp at hx
    | cons y ys ih =>
      intro x hx
      simp only [List.foldr_cons]
      rcases List.mem_cons.mp hx with h1 | h1
      · subst h1
        exact le_max_left _ _
      · exact le_trans (ih x h1) (le_max_right _ _)
  have := this (h.cells.map Cell.addr) c.addr (List.mem_map_of_mem _ hc)
  omega

theorem fresh_not_live (h : Heap) : h.is_live h.fresh = false := by
  unfold Heap.is_live
  rw [List.any_eq_false]
  intro c hc
  have := lt_fresh h c hc
  simp only [decide_eq_true_eq]
  omega

theorem store_is_live (h : Heap) (p : Nat) (b : Block) (q : Nat) :
    (h.store p b).is_live q = h.is_live q := by
  unfold Heap.store Heap.is_live
  simp only [List.any_map]
  congr 1
  funext c
  simp only [Function.comp]
  split <;> rfl

theorem allocate_some (a : rcutils_allocator_t) (n : Nat) (h h1 : Heap) (p : Nat)
    (hal : allocate a n h = (some p, h1)) :
    h.is_live p = false ∧ h1.is_live p = true ∧ ∀ q, h.is_live q = true → h1.is_live q = true := by
  unfold allocate at hal
  split at hal
  · simp only [Prod.mk.injEq, Option.some.injEq] at hal
    obtain ⟨hp, hh⟩ := hal
    subst hp hh
    refine ⟨fresh_not_live h, ?_, ?_⟩
    · simp [Heap.is_live]
    · intro q hq
      simp only [Heap.is_live, List.any_append, Bool.or_eq_true] at hq ⊢
      exact Or.inl hq
  · simp at hal

theorem deallocate_live (a : rcutils_allocator_t) (h : Heap) (p : Nat)
    (hl : h.is_live p = true) :
    ∃ h1, deallocate a (some p) h = some h1 ∧
      ∀ q, q ≠ p → h.is_live q = true → h1.is_live q = true := by
  refine ⟨{ cells := h.cells.filter (fun c => !decide (c.addr = p)), freed := p :: h.freed },
    by simp [deallocate, hl], ?_⟩
  intro q hq hlq
  simp only [Heap.is_live, List.any_eq_true, decide_eq_true_eq] at hlq ⊢
  obtain ⟨c, hc, hcq⟩ := hlq
  refine ⟨c, ?_, hcq⟩
  rw [List.mem_filter]
  refine ⟨hc, ?_⟩
  simp only [Bool.not_eq_true', decide_eq_false_iff_not]
  omega

theorem release_all_of_owned (a : rcutils_allocator_t) (l : List (Option Nat)) (h : Heap)
    (hl : ∀ p, some p ∈ l → h.is_live p = true)
    (hp : l.Pairwise (fun x y => x = none ∨ x ≠ y)) :
    ∃ h1, release_all a l h = some h1 := by
  induction l generalizing h with
  | nil => exact ⟨h, rfl⟩
  | cons x rest ih =>
    rw [List.pairwise_cons] at hp
    cases x with
    | none =>
      simp only [release_all, deallocate]
      exact ih h (fun p hpm => hl p (List.mem_cons_of_mem _ hpm)) hp.2
    | some p =>
      obtain ⟨h1, hd, hkeep⟩ := deallocate_live a h p (hl p (List.mem_cons_self _ _))
      simp only [release_all, hd]
      apply ih h1 _ hp.2
      intro q hq
      apply hkeep q
      · intro hqp
        subst hqp
        rcases hp.1 (some q) hq with h2 | h2
        · simp at h2
        · exact h2 rfl
      · exact hl q (List.mem_cons_of_mem _ hq)

theorem fini_eq_release (info : rmw_service_endpoint_info_t) (a : rcutils_allocator_t)
    (h : Heap) :
    rmw_service_endpoint_info_fini (some info) (some a) h =
      (release_all a (owned_pointers info) h).map
        (fun h1 => (RMW_RET_OK, some rmw_get_zero_initialized_service_endpoint_info, h1)) := by
  simp only [rmw_service_endpoint_info_fini, _rmw_service_endpoint_info_fini_node_name,
    _rmw_service_endpoint_info_fini_node_namespace,
    _rmw_service_endpoint_info_fini_service_type, _rmw_service_endpoint_info_fini_gids,
    _rmw_service_endpoint_info_fini_qos_profiles, _rmw_service_endpoint_info_fini_str,
    owned_pointers, release_all]
  cases h1 : deallocate a info.node_name h with
  | none => simp
  | some g1 =>
    cases h2 : deallocate a info.node_namespace g1 with
    | none => simp [h2]
    | some g2 =>
      cases h3 : deallocate a info.service_type g2 with
      | none => simp [h2, h3]
      | some g3 =>
        cases h4 : deallocate a info.endpoint_gids g3 with
        | none => simp [h2, h3, h4]
        | some g4 =>
          cases h5 : deallocate a info.qos_profiles g4 with
          | none => simp [h2, h3, h4, h5]
          | some g5 => simp [h2, h3, h4, h5]

/-! ## Theorems: the setters keep the record the owner of its memory -/

theorem pairwise_set (l : List (Option Nat)) (i : Nat) (q : Nat)
    (hp : l.Pairwise (fun x y => x = none ∨ x ≠ y)) (hq : some q ∉ l) :
    (l.set i (some q)).Pairwise (fun x y => x = none ∨ x ≠ y) := by
  induction l generalizing i with
  | nil => simp
  | cons x rest ih =>
    rw [List.pairwise_cons] at hp
    have hqr : some q ∉ rest := fun hh => hq (List.mem_cons_of_mem _ hh)
    cases i with
    | zero =>
      simp only [List.set_cons_zero, List.pairwise_cons]
      refine ⟨?_, hp.2⟩
      intro y hy
      right
      intro hh
      exact hqr (hh ▸ hy)
    | succ j =>
      simp only [List.set_cons_succ, List.pairwise_cons]
      refine ⟨?_, ih j hp.2 hqr⟩
      intro y hy
      rcases List.mem_or_eq_of_mem_set hy with h1 | h1
      · exact hp.1 y h1
      · subst h1
        by_cases hx : x = none
        · exact Or.inl hx
        · right
          intro hh
          exact hq (hh ▸ List.mem_cons_self _ _)

theorem owns_set (info info1 : rmw_service_endpoint_info_t) (h h1 : Heap) (i q : Nat)
    (hown : owns info h)
    (hptr : owned_pointers info1 = (owned_pointers info).set i (some q))
    (hfresh : h.is_live q = false) (hlive : h1.is_live q = true)
    (hkeep : ∀ x, h.is_live x = true → h1.is_live x = true) : owns info1 h1 := by
  have hq : some q ∉ owned_pointers info := by
    intro hh
    have := hown.1 q hh
    rw [hfresh] at this
    simp at this
  constructor
  · intro p hp
    rw [hptr] at hp
    rcases List.mem_or_eq_of_mem_set hp with h2 | h2
    · exact hkeep p (hown.1 p h2)
    · simp only [Option.some.injEq] at h2
      subst h2
      exact hlive
  · rw [hptr]
    exact pairwise_set _ i q hown.2 hq

theorem owns_congr (info info1 : rmw_service_endpoint_info_t) (h : Heap)
    (hptr : owned_pointers info1 = owned_pointers info) (hown : owns info h) : owns info1 h := by
  unfold owns
  rw [hptr]
  exact hown

theorem copy_str_ok (ptr : Option Nat) (str : Option String)
    (allocator : Option rcutils_allocator_t) (h h1 : Heap) (p : Option Nat)
    (hc : _rmw_service_endpoint_info_copy_str ptr str allocator h = (RMW_RET_OK, p, h1)) :
    ∃ q, p = some q ∧ h.is_live q = false ∧ h1.is_live q = true ∧
      ∀ x, h.is_live x = true → h1.is_live x = true := by
  unfold _rmw_service_endpoint_info_copy_str at hc
  cases str with
  | none => simp at hc
  | some s =>
    cases allocator with
    | none => simp at hc
    | some a =>
      simp only [rcutils_strdup] at hc
      rcases hal : allocate a (s.length + 1) h with ⟨r, g⟩
      rw [hal] at hc
      cases r with
      | none => simp at hc
      | some q =>
        simp only [Prod.mk.injEq, true_and] at hc
        obtain ⟨hp, hh⟩ := hc
        obtain ⟨h2, h3, h4⟩ := allocate_some a _ h g q hal
        refine ⟨q, hp.symm, h2, ?_, ?_⟩
        · rw [← hh, store_is_live]
          exact h3
        · intro x hx
          rw [← hh, store_is_live]
          exact h4 x hx

theorem setter_keeps_owns (t : Target) (c : Setter) (info info1 : rmw_service_endpoint_info_t)
    (h h1 : Heap) (hc : c.call t (some info) h = some (RMW_RET_OK, some info1, h1))
    (hown : owns info h) : owns info1 h1 := by
  cases c with
  | set_service_type service_type allocator =>
    simp only [Setter.call, rmw_service_endpoint_info_set_service_type] at hc
    rcases hcs : _rmw_service_endpoint_info_copy_str info.service_type service_type allocator h
      with ⟨ret, p, g⟩
    rw [hcs] at hc
    simp only [Option.some.injEq, Prod.mk.injEq] at hc
    obtain ⟨hret, hinfo, hg⟩ := hc
    subst hret hg
    obtain ⟨q, hp, h2, h3, h4⟩ := copy_str_ok _ _ _ _ _ _ hcs
    subst hp
    exact owns_set info info1 h g 2 q hown (by rw [← hinfo]; rfl) h2 h3 h4
  | set_service_type_hash type_hash =>
    simp only [Setter.call, rmw_service_endpoint_info_set_service_type_hash] at hc
    cases type_hash with
    | none => simp at hc
    | some th =>
      simp only [Option.some.injEq, Prod.mk.injEq, true_and] at hc
      obtain ⟨hinfo, hg⟩ := hc
      subst hg
      exact owns_congr info info1 h (by rw [← hinfo]; rfl) hown
  | set_node_name node_name allocator =>
    simp only [Setter.call, rmw_service_endpoint_info_set_node_name] at hc
    rcases hcs : _rmw_service_endpoint_info_copy_str info.node_name node_name allocator h
      with ⟨ret, p, g⟩
    rw [hcs] at hc
    simp only [Option.some.injEq, Prod.mk.injEq] at hc
    obtain ⟨hret, hinfo, hg⟩ := hc
    subst hret hg
    obtain ⟨q, hp, h2, h3, h4⟩ := copy_str_ok _ _ _ _ _ _ hcs
    subst hp
    exact owns_set info info1 h g 0 q hown (by rw [← hinfo]; rfl) h2 h3 h4
  | set_node_namespace node_namespace allocator =>
    simp only [Setter.call, rmw_service_endpoint_info_set_node_namespace] at hc
    rcases hcs : _rmw_service_endpoint_info_copy_str info.node_namespace node_namespace
      allocator h with ⟨ret, p, g⟩
    rw [hcs] at hc
    simp only [Option.some.injEq, Prod.mk.injEq] at hc
    obtain ⟨hret, hinfo, hg⟩ := hc
    subst hret hg
    obtain ⟨q, hp, h2, h3, h4⟩ := copy_str_ok _ _ _ _ _ _ hcs
    subst hp
    exact owns_set info info1 h g 1 q hown (by rw [← hinfo]; rfl) h2 h3 h4
  | set_endpoint_type type =>
    simp only [Setter.call, rmw_service_endpoint_info_set_endpoint_type, Option.some.injEq,
      Prod.mk.injEq, true_and] at hc
    obtain ⟨hinfo, hg⟩ := hc
    subst hg
    exact owns_congr info info1 h (by rw [← hinfo]; rfl) hown
  | set_endpoint_count endpoint_count =>
    simp only [Setter.call, rmw_service_endpoint_info_set_endpoint_count] at hc
    split at hc
    · simp at hc
    · simp only [Option.some.injEq, Prod.mk.injEq, true_and] at hc
      obtain ⟨hinfo, hg⟩ := hc
      subst hg
      exact owns_congr info info1 h (by rw [← hinfo]; rfl) hown
  | set_gids gids endpoint_count size allocator =>
    simp only [Setter.call, rmw_service_endpoint_info_set_gids] at hc
    split at hc
    · simp at hc
    · split at hc
      · simp at hc
      · cases allocator with
        | none => simp at hc
        | some a =>
          simp only at hc
          rcases hal : allocate a (t.size_mul endpoint_count t.RMW_GID_STORAGE_SIZE) h
            with ⟨r, g⟩
          rw [hal] at hc
          cases r with
          | none => simp at hc
          | some q =>
            obtain ⟨h2, h3, h4⟩ := allocate_some a _ h g q hal
            cases gids with
            | none => simp at hc
            | some src =>
              simp only at hc
              split at hc
              · simp at hc
              · simp only [Option.some.injEq, Prod.mk.injEq, true_and] at hc
                obtain ⟨hinfo, hg⟩ := hc
                refine owns_set info info1 h h1 3 q hown (by rw [← hinfo]; rfl) h2 ?_ ?_
                · rw [← hg, store_is_live]
                  exact h3
                · intro x hx
                  rw [← hg, store_is_live]
                  exact h4 x hx
  | set_qos_profiles qos_profiles endpoint_count allocator =>
    simp only [Setter.call, rmw_service_endpoint_info_set_qos_profiles] at hc
    cases qos_profiles with
    | none => simp at hc
    | some src =>
      simp only at hc
      split at hc
      · simp at hc
      · cases allocator with
        | none => simp at hc
        | some a =>
          simp only at hc
          rcases hal : allocate a (t.size_mul endpoint_count t.sizeof_rmw_qos_profile_t) h
            with ⟨r, g⟩
          rw [hal] at hc
          cases r with
          | none => simp at hc
          | some q =>
            obtain ⟨h2, h3, h4⟩ := allocate_some a _ h g q hal
            simp only at hc
            split at hc
            · simp at hc
            · simp only [Option.some.injEq, Prod.mk.injEq, true_and] at hc
              obtain ⟨hinfo, hg⟩ := hc
              refine owns_set info info1 h h1 4 q hown (by rw [← hinfo]; rfl) h2 ?_ ?_
              · rw [← hg, store_is_live]
                exact h3
              · intro x hx
                rw [← hg, store_is_live]
                exact h4 x hx

theorem populate_keeps_owns (t : Target) (calls : List Setter)
    (info info1 : rmw_service_endpoint_info_t) (h h1 : Heap)
    (hp : populate t calls info h = some (info1, h1)) (hown : owns info h) : owns info1 h1 := by
  induction calls generalizing info h with
  | nil =>
    simp only [populate, Option.some.injEq, Prod.mk.injEq] at hp
    obtain ⟨h2, h3⟩ := hp
    subst h2 h3
    exact hown
  | cons c rest ih =>
    simp only [populate] at hp
    split at hp
    · rename_i info2 h2 hcall
      exact ih info2 h2 hp (setter_keeps_owns t c info info2 h h2 hcall hown)
    · simp at hp

theorem owns_zero (h : Heap) : owns rmw_get_zero_initialized_service_endpoint_info h := by
  constructor
  · intro p hp
    simp [owned_pointers, rmw_get_zero_initialized_service_endpoint_info] at hp
  · simp [owned_pointers, rmw_get_zero_initialized_service_endpoint_info]

/-! ## Claims about the endpoint info record -/

/-- C8. For every record obtained from the zero record by setter calls that return
`RMW_RET_OK`, `rmw_service_endpoint_info_fini` with a present allocator returns `RMW_RET_OK`
and leaves the zero record: every pointer member `NULL`, `endpoint_type` equal to
`RMW_ENDPOINT_INVALID`, `endpoint_count` equal to 0 and the type hash zero. -/
theorem fini_of_populated (t : Target) (calls : List Setter) (h0 h : Heap)
    (info : rmw_service_endpoint_info_t) (allocator : rcutils_allocator_t)
    (hp : populate t calls rmw_get_zero_initialized_service_endpoint_info h0 = some (info, h)) :
    ∃ info1 h1,
      rmw_service_endpoint_info_fini (some info) (some allocator) h =
        some (RMW_RET_OK, some info1, h1) ∧
      info1 = rmw_get_zero_initialized_service_endpoint_info ∧
      info1.node_name = none ∧ info1.node_namespace = none ∧ info1.service_type = none ∧
      info1.endpoint_gids = none ∧ info1.qos_profiles = none ∧
      info1.endpoint_type = RMW_ENDPOINT_INVALID ∧ info1.endpoint_count = 0 ∧
      info1.service_type_hash = rosidl_get_zero_initialized_type_hash := by
  have hown := populate_keeps_owns t calls _ info h0 h hp (owns_zero h0)
  obtain ⟨h1, hr⟩ := release_all_of_owned allocator (owned_pointers info) h hown.1 hown.2
  refine ⟨rmw_get_zero_initialized_service_endpoint_info, h1, ?_, rfl, rfl, rfl, rfl, rfl, rfl,
    rfl, rfl, rfl⟩
  rw [fini_eq_release, hr]
  rfl

/-- Witness of C8: the record of the test `fini`, with every member set. -/
theorem fini_of_populated_witness :
    populate sample_target sample_calls rmw_get_zero_initialized_service_endpoint_info
        empty_heap = some (sample_info, sample_heap) ∧
      ∃ info1 h1,
        rmw_service_endpoint_info_fini (some sample_info) (some serving_allocator) sample_heap =
          some (RMW_RET_OK, some info1, h1) ∧
        info1 = rmw_get_zero_initialized_service_endpoint_info ∧
        info1.node_name = none ∧ info1.node_namespace = none ∧ info1.service_type = none ∧
        info1.endpoint_gids = none ∧ info1.qos_profiles = none ∧
        info1.endpoint_type = RMW_ENDPOINT_INVALID ∧ info1.endpoint_count = 0 ∧
        info1.service_type_hash = rosidl_get_zero_initialized_type_hash :=
  ⟨by decide,
    fini_of_populated sample_target sample_calls empty_heap sample_heap sample_info
      serving_allocator (by decide)⟩

/-- C9. `rmw_service_endpoint_info_fini` returns `RMW_RET_INVALID_ARGUMENT` when the record or
the allocator is `NULL`; with a `NULL` allocator the record keeps every member and the heap
is what it was, so that nothing is released. -/
theorem fini_null_argument (service_endpoint_info : Option rmw_service_endpoint_info_t)
    (allocator : Option rcutils_allocator_t) (h : Heap)
    (hnull : service_endpoint_info = none ∨ allocator = none) :
    rmw_service_endpoint_info_fini service_endpoint_info allocator h =
      some (RMW_RET_INVALID_ARGUMENT, service_endpoint_info, h) := by
  cases service_endpoint_info with
  | none => rfl
  | some info =>
    cases allocator with
    | none => rfl
    | some a => simp at hnull

/-- Witness of C9: the populated record of the test `fini` and a `NULL` allocator. -/
theorem fini_null_argument_witness :
    rmw_service_endpoint_info_fini (some sample_info) none sample_heap =
      some (RMW_RET_INVALID_ARGUMENT, some sample_info, sample_heap) :=
  fini_null_argument (some sample_info) none sample_heap (Or.inr rfl)

/-- C10. Finalizing the zero record returns `RMW_RET_OK` and leaves the zero record and the
heap as they were. Finalization is idempotent: when a finalization of any record returns
`RMW_RET_OK`, the record it leaves is the zero record, and finalizing it again with any
allocator returns `RMW_RET_OK` and leaves the same record and the same heap, so that no
allocation is released. -/
theorem fini_idempotent :
    (∀ (allocator : rcutils_allocator_t) (h : Heap),
      rmw_service_endpoint_info_fini (some rmw_get_zero_initialized_service_endpoint_info)
          (some allocator) h =
        some (RMW_RET_OK, some rmw_get_zero_initialized_service_endpoint_info, h)) ∧
      (∀ (info : rmw_service_endpoint_info_t) (allocator allocator1 : rcutils_allocator_t)
          (h h1 : Heap) (r : Option rmw_service_endpoint_info_t),
        rmw_service_endpoint_info_fini (some info) (some allocator) h =
          some (RMW_RET_OK, r, h1) →
        r = some rmw_get_zero_initialized_service_endpoint_info ∧
          rmw_service_endpoint_info_fini r (some allocator1) h1 = some (RMW_RET_OK, r, h1)) := by
  have hzero : ∀ (allocator : rcutils_allocator_t) (h : Heap),
      rmw_service_endpoint_info_fini (some rmw_get_zero_initialized_service_endpoint_info)
          (some allocator) h =
        some (RMW_RET_OK, some rmw_get_zero_initialized_service_endpoint_info, h) := by
    intro allocator h
    rfl
  refine ⟨hzero, ?_⟩
  intro info allocator allocator1 h h1 r hf
  rw [fini_eq_release] at hf
  cases hr : release_all allocator (owned_pointers info) h with
  | none => rw [hr] at hf; simp at hf
  | some g =>
    rw [hr] at hf
    simp only [Option.map_some', Option.some.injEq, Prod.mk.injEq, true_and] at hf
    obtain ⟨h2, h3⟩ := hf
    subst h2 h3
    exact ⟨rfl, hzero allocator1 g⟩

/-- Witness of C10: finalizing the populated record of the test `fini` twice. -/
theorem fini_idempotent_witness :
    rmw_service_endpoint_info_fini (some rmw_get_zero_initialized_service_endpoint_info)
        (some serving_allocator) { cells := [], freed := [1, 2, 5, 3, 4] } =
      some (RMW_RET_OK, some rmw_get_zero_initialized_service_endpoint_info,
        { cells := [], freed := [1, 2, 5, 3, 4] }) :=
  (fini_idempotent.2 sample_info serving_allocator serving_allocator sample_heap
    { cells := [], freed := [1, 2, 5, 3, 4] }
    (some rmw_get_zero_initialized_service_endpoint_info) (by decide)).2

/-! ## Theorems: the content of the heap -/

theorem content_eq_none_of_not_live (h : Heap) (p : Nat) (hl : h.is_live p = false) :
    h.content p = none := by
  unfold Heap.content
  unfold Heap.is_live at hl
  rw [List.any_eq_false] at hl
  have : h.cells.find? (fun c => decide (c.addr = p)) = none := by
    rw [List.find?_eq_none]
    exact hl
  rw [this]
  rfl

theorem content_store (h : Heap) (p : Nat) (b : Block) (q : Nat) :
    (h.store p b).content q =
      if q = p then (h.content q).map (fun _ => b) else h.content q := by
  unfold Heap.store Heap.content
  simp only
  induction h.cells with
  | nil => simp
  | cons c rest ih =>
    simp only [List.map_cons, List.find?_cons]
    by_cases hcp : c.addr = p
    · by_cases hcq : c.addr = q
      · have hqp : q = p := by omega
        simp [hcp, hcq, hqp]
      · simp only [hcp, if_true, hcq, decide_False]
        have : ¬ p = q := by omega
        simp only [this, decide_False]
        exact ih
    · by_cases hcq : c.addr = q
      · have hqp : ¬ q = p := by omega
        simp [hcp, hcq, hqp]
      · simp only [hcp, if_false, hcq, decide_False]
        exact ih

theorem content_allocate (a : rcutils_allocator_t) (n : Nat) (h h1 : Heap) (p : Nat)
    (hal : allocate a n h = (some p, h1)) :
    h1.content p = some Block.raw ∧ (∀ q, q ≠ p → h1.content q = h.content q) ∧
      h1.freed = h.freed := by
  unfold allocate at hal
  split at hal
  · simp only [Prod.mk.injEq, Option.some.injEq] at hal
    obtain ⟨hp, hh⟩ := hal
    subst hp hh
    have hnone : h.cells.find? (fun c => decide (c.addr = h.fresh)) = none := by
      have := fresh_not_live h
      unfold Heap.is_live at this
      rw [List.any_eq_false] at this
      rw [List.find?_eq_none]
      exact this
    refine ⟨?_, ?_, rfl⟩
    · simp [Heap.content, List.find?_append, hnone]
    · intro q hq
      simp only [Heap.content, List.find?_append]
      cases hf : h.cells.find? (fun c => decide (c.addr = q)) with
      | some c => simp
      | none =>
        have : ¬ h.fresh = q := fun hh => hq hh.symm
        simp [List.find?_cons, this]
  · simp at hal

theorem content_deallocate (a : rcutils_allocator_t) (h h2 : Heap) (q p : Nat)
    (hd : deallocate a (some q) h = some h2) (hpq : p ≠ q) : h2.content p = h.content p := by
  unfold deallocate at hd
  simp only at hd
  split at hd
  · simp only [Option.some.injEq] at hd
    subst hd
    simp only [Heap.content]
    congr 1
    induction h.cells with
    | nil => rfl
    | cons c rest ih =>
      by_cases hcq : c.addr = q
      · have hcp : ¬ c.addr = p := by omega
        rw [List.filter_cons_of_neg (by simp [hcq]), List.find?_cons_of_neg _ (by simp [hcp])]
        exact ih
      · rw [List.filter_cons_of_pos (by simp [hcq])]
        by_cases hcp : c.addr = p
        · rw [List.find?_cons_of_pos _ (by simp [hcp]), List.find?_cons_of_pos _ (by simp [hcp])]
        · rw [List.find?_cons_of_neg _ (by simp [hcp]), List.find?_cons_of_neg _ (by simp [hcp])]
          exact ih
  · simp at hd

theorem independent_copy_of_allocate (a : rcutils_allocator_t) (n : Nat) (h g : Heap) (p : Nat)
    (content : Block) (hal : allocate a n h = (some p, g)) :
    independent_copy h (g.store p content) p content := by
  obtain ⟨h1, -, -⟩ := allocate_some a n h g p hal
  obtain ⟨h2, -, -⟩ := content_allocate a n h g p hal
  have hc : (g.store p content).content p = some content := by
    rw [content_store, h2]
    simp
  refine ⟨h1, hc, ?_, ?_⟩
  · intro q b hq
    rw [content_store]
    simp only [Ne.symm hq, if_false]
    exact hc
  · intro a1 q h3 hq hd
    rw [content_deallocate a1 _ h3 q p hd (Ne.symm hq)]
    exact hc

theorem allocate_of_grants (a : rcutils_allocator_t) (n : Nat) (h : Heap)
    (hg : a.grants n = true) :
    allocate a n h = (some h.fresh,
      { h with cells := h.cells ++ [{ addr := h.fresh, size := n, content := Block.raw }] }) := by
  simp [allocate, hg]

/-! ## Theorems: what finalization releases -/

theorem store_after_allocate (a : rcutils_allocator_t) (n : Nat) (h g : Heap) (p : Nat)
    (b : Block) (hal : allocate a n h = (some p, g)) :
    p = h.fresh ∧
      (g.store p b).cells = h.cells ++ [{ addr := p, size := n, content := b }] ∧
      (g.store p b).freed = h.freed := by
  unfold allocate at hal
  split at hal
  · simp only [Prod.mk.injEq, Option.some.injEq] at hal
    obtain ⟨hp, hh⟩ := hal
    subst hp hh
    refine ⟨rfl, ?_, rfl⟩
    simp only [Heap.store, List.map_append, List.map_cons, List.map_nil, if_true]
    congr 1
    conv_rhs => rw [← List.map_id h.cells]
    apply List.map_congr_left
    intro c hc
    have := lt_fresh h c hc
    have hne : ¬ c.addr = h.fresh := by omega
    simp [hne]
  · simp at hal

theorem copy_str_step (ptr : Option Nat) (str : Option String)
    (allocator : Option rcutils_allocator_t) (h h1 : Heap) (p : Option Nat)
    (hc : _rmw_service_endpoint_info_copy_str ptr str allocator h = (RMW_RET_OK, p, h1)) :
    ∃ cell, p = some h.fresh ∧ cell.addr = h.fresh ∧ h1.cells = h.cells ++ [cell] ∧
      h1.freed = h.freed := by
  unfold _rmw_service_endpoint_info_copy_str at hc
  cases str with
  | none => simp at hc
  | some s =>
    cases allocator with
    | none => simp at hc
    | some a =>
      simp only [rcutils_strdup] at hc
      rcases hal : allocate a (s.length + 1) h with ⟨r, g⟩
      rw [hal] at hc
      cases r with
      | none => simp at hc
      | some q =>
        simp only [Prod.mk.injEq, true_and] at hc
        obtain ⟨hp, hh⟩ := hc
        obtain ⟨h2, h3, h4⟩ := store_after_allocate a _ h g q (Block.string s) hal
        subst h2
        rw [← hh]
        exact ⟨_, hp.symm, rfl, h3, h4⟩

theorem setter_step (t : Target) (c : Setter) (info info1 : rmw_service_endpoint_info_t)
    (h h1 : Heap) (hc : c.call t (some info) h = some (RMW_RET_OK, some info1, h1)) :
    (c.field = none ∧ owned_pointers info1 = owned_pointers info ∧ h1 = h) ∨
      ∃ i cell, c.field = some i ∧ i < 5 ∧
        owned_pointers info1 = (owned_pointers info).set i (some h.fresh) ∧
        cell.addr = h.fresh ∧ h1.cells = h.cells ++ [cell] ∧ h1.freed = h.freed := by
  cases c with
  | set_service_type service_type allocator =>
    right
    simp only [Setter.call, rmw_service_endpoint_info_set_service_type] at hc
    rcases hcs : _rmw_service_endpoint_info_copy_str info.service_type service_type allocator h
      with ⟨ret, p, g⟩
    rw [hcs] at hc
    simp only [Option.some.injEq, Prod.mk.injEq] at hc
    obtain ⟨hret, hinfo, hg⟩ := hc
    subst hret hg
    obtain ⟨cell, hp, h2, h3, h4⟩ := copy_str_step _ _ _ _ _ _ hcs
    subst hp
    exact ⟨2, cell, rfl, by omega, by rw [← hinfo]; rfl, h2, h3, h4⟩
  | set_service_type_hash type_hash =>
    left
    simp only [Setter.call, rmw_service_endpoint_info_set_service_type_hash] at hc
    cases type_hash with
    | none => simp at hc
    | some th =>
      simp only [Option.some.injEq, Prod.mk.injEq, true_and] at hc
      obtain ⟨hinfo, hg⟩ := hc
      exact ⟨rfl, by rw [← hinfo]; rfl, hg.symm⟩
  | set_node_name node_name allocator =>
    right
    simp only [Setter.call, rmw_service_endpoint_info_set_node_name] at hc
    rcases hcs : _rmw_service_endpoint_info_copy_str info.node_name node_name allocator h
      with ⟨ret, p, g⟩
    rw [hcs] at hc
    simp only [Option.some.injEq, Prod.mk.injEq] at hc
    obtain ⟨hret, hinfo, hg⟩ := hc
    subst hret hg
    obtain ⟨cell, hp, h2, h3, h4⟩ := copy_str_step _ _ _ _ _ _ hcs
    subst hp
    exact ⟨0, cell, rfl, by omega, by rw [← hinfo]; rfl, h2, h3, h4⟩
  | set_node_namespace node_namespace allocator =>
    right
    simp only [Setter.call, rmw_service_endpoint_info_set_node_namespace] at hc
    rcases hcs : _rmw_service_endpoint_info_copy_str info.node_namespace node_namespace
      allocator h with ⟨ret, p, g⟩
    rw [hcs] at hc
    simp only [Option.some.injEq, Prod.mk.injEq] at hc
    obtain ⟨hret, hinfo, hg⟩ := hc
    subst hret hg
    obtain ⟨cell, hp, h2, h3, h4⟩ := copy_str_step _ _ _ _ _ _ hcs
    subst hp
    exact ⟨1, cell, rfl, by omega, by rw [← hinfo]; rfl, h2, h3, h4⟩
  | set_endpoint_type type =>
    left
    simp only [Setter.call, rmw_service_endpoint_info_set_endpoint_type, Option.some.injEq,
      Prod.mk.injEq, true_and] at hc
    obtain ⟨hinfo, hg⟩ := hc
    exact ⟨rfl, by rw [← hinfo]; rfl, hg.symm⟩
  | set_endpoint_count endpoint_count =>
    left
    simp only [Setter.call, rmw_service_endpoint_info_set_endpoint_count] at hc
    split at hc
    · simp at hc
    · simp only [Option.some.injEq, Prod.mk.injEq, true_and] at hc
      obtain ⟨hinfo, hg⟩ := hc
      exact ⟨rfl, by rw [← hinfo]; rfl, hg.symm⟩
  | set_gids gids endpoint_count size allocator =>
    right
    simp only [Setter.call, rmw_service_endpoint_info_set_gids] at hc
    split at hc
    · simp at hc
    · split at hc
      · simp at hc
      · cases allocator with
        | none => simp at hc
        | some a =>
          simp only at hc
          rcases hal : allocate a (t.size_mul endpoint_count t.RMW_GID_STORAGE_SIZE) h
            with ⟨r, g⟩
          rw [hal] at hc
          cases r with
          | none => simp at hc
          | some q =>
            cases gids with
            | none => simp at hc
            | some src =>
              simp only at hc
              split at hc
              · simp at hc
              · rename_i b hb
                simp only [Option.some.injEq, Prod.mk.injEq, true_and] at hc
                obtain ⟨hinfo, hg⟩ := hc
                obtain ⟨h2, h3, h4⟩ := store_after_allocate a _ h g q (Block.bytes b) hal
                subst h2
                rw [← hg]
                exact ⟨3, _, rfl, by omega, by rw [← hinfo]; rfl, rfl, h3, h4⟩
  | set_qos_profiles qos_profiles endpoint_count allocator =>
    right
    simp only [Setter.call, rmw_service_endpoint_info_set_qos_profiles] at hc
    cases qos_profiles with
    | none => simp at hc
    | some src =>
      simp only at hc
      split at hc
      · simp at hc
      · cases allocator with
        | none => simp at hc
        | some a =>
          simp only at hc
          rcases hal : allocate a (t.size_mul endpoint_count t.sizeof_rmw_qos_profile_t) h
            with ⟨r, g⟩
          rw [hal] at hc
          cases r with
          | none => simp at hc
          | some q =>
            simp only at hc
            split at hc
            · simp at hc
            · rename_i b hb
              simp only [Option.some.injEq, Prod.mk.injEq, true_and] at hc
              obtain ⟨hinfo, hg⟩ := hc
              obtain ⟨h2, h3, h4⟩ := store_after_allocate a _ h g q (Block.profiles b) hal
              subst h2
              rw [← hg]
              exact ⟨4, _, rfl, by omega, by rw [← hinfo]; rfl, rfl, h3, h4⟩

theorem mem_set_of_get_none (l : List (Option Nat)) (i : Nat) (x : Nat) (y : Option Nat)
    (hx : some x ∈ l) (hi : l.get? i = some none) : some x ∈ l.set i y := by
  induction l generalizing i with
  | nil => simp at hx
  | cons a rest ih =>
    cases i with
    | zero =>
      simp only [List.get?_cons_zero, Option.some.injEq] at hi
      subst hi
      rcases List.mem_cons.mp hx with h1 | h1
      · simp at h1
      · simp only [List.set_cons_zero]
        exact List.mem_cons_of_mem _ h1
    | succ j =>
      simp only [List.get?_cons_succ] at hi
      simp only [List.set_cons_succ]
      rcases List.mem_cons.mp hx with h1 | h1
      · rw [h1]
        exact List.mem_cons_self _ _
      · exact List.mem_cons_of_mem _ (ih j h1 hi)

theorem is_live_of_mem (h : Heap) (c : Cell) (hc : c ∈ h.cells) : h.is_live c.addr = true := by
  unfold Heap.is_live
  rw [List.any_eq_true]
  exact ⟨c, hc, by simp⟩

theorem populate_tracked (t : Target) (h0 : Heap) (calls : List Setter)
    (info info1 : rmw_service_endpoint_info_t) (h h1 : Heap)
    (honce : (calls.filterMap Setter.field).Nodup)
    (hp : populate t calls info h = some (info1, h1))
    (hfree : ∀ c ∈ calls, ∀ i, c.field = some i → (owned_pointers info).get? i = some none)
    (hinv : tracked h0 info h) : tracked h0 info1 h1 := by
  induction calls generalizing info h with
  | nil =>
    simp only [populate, Option.some.injEq, Prod.mk.injEq] at hp
    obtain ⟨h2, h3⟩ := hp
    subst h2 h3
    exact hinv
  | cons c rest ih =>
    simp only [populate] at hp
    split at hp
    · rename_i info2 h2 hcall
      have hrest : ∀ c1 ∈ rest, ∀ i, c1.field = some i →
          (owned_pointers info).get? i = some none :=
        fun c1 hc1 => hfree c1 (List.mem_cons_of_mem _ hc1)
      rcases setter_step t c info info2 h h2 hcall with ⟨hf, hptr, hh⟩ | ⟨i, cell, hf, hi, hptr,
        hcell, hcells, hfreed⟩
      · subst hh
        have honce1 : (rest.filterMap Setter.field).Nodup := by
          simpa [List.filterMap_cons, hf] using honce
        apply ih info2 h2 honce1 hp
        · intro c1 hc1 j hj
          rw [hptr]
          exact hrest c1 hc1 j hj
        · unfold tracked at hinv ⊢
          rw [hptr]
          exact hinv
      · have honce1 : i ∉ rest.filterMap Setter.field ∧ (rest.filterMap Setter.field).Nodup := by
          simpa [List.filterMap_cons, hf] using honce
        have hnone : (owned_pointers info).get? i = some none :=
          hfree c (List.mem_cons_self _ _) i hf
        obtain ⟨hfr, ⟨extra, hex, hown⟩, hnew⟩ := hinv
        apply ih info2 h2 honce1.2 hp
        · intro c1 hc1 j hj
          have hji : i ≠ j := by
            intro hh
            apply honce1.1
            rw [hh]
            exact List.mem_filterMap.mpr ⟨c1, hc1, hj⟩
          rw [hptr, List.get?_eq_getElem?, List.getElem?_set_ne hji, ← List.get?_eq_getElem?]
          exact hrest c1 hc1 j hj
        · refine ⟨hfreed.trans hfr, ⟨extra ++ [cell], ?_, ?_⟩, ?_⟩
          · rw [hcells, hex, List.append_assoc]
          · intro c1 hc1
            rw [hptr]
            rcases List.mem_append.mp hc1 with h3 | h3
            · exact mem_set_of_get_none _ i _ _ (hown c1 h3) hnone
            · rw [List.mem_singleton] at h3
              subst h3
              rw [hcell]
              exact List.mem_set _ i (by simpa [owned_pointers] using hi) _
          · intro p hpm
            rw [hptr] at hpm
            rcases List.mem_or_eq_of_mem_set hpm with h3 | h3
            · exact hnew p h3
            · simp only [Option.some.injEq] at h3
              subst h3
              by_contra hlive
              simp only [Bool.not_eq_false] at hlive
              have hl : h.is_live h.fresh = true := by
                unfold Heap.is_live at hlive ⊢
                rw [List.any_eq_true] at hlive ⊢
                obtain ⟨c2, hc2, hc3⟩ := hlive
                exact ⟨c2, by rw [hex]; exact List.mem_append_left _ hc2, hc3⟩
              rw [fresh_not_live] at hl
              simp at hl
    · simp at hp

theorem release_all_eq (a : rcutils_allocator_t) (l : List (Option Nat)) (h : Heap)
    (hl : ∀ p, some p ∈ l → h.is_live p = true)
    (hp : l.Pairwise (fun x y => x = none ∨ x ≠ y)) :
    release_all a l h =
      some { cells := h.cells.filter (fun c => decide (some c.addr ∉ l)),
             freed := (l.filterMap id).reverse ++ h.freed } := by
  induction l generalizing h with
  | nil => simp [release_all]
  | cons x rest ih =>
    rw [List.pairwise_cons] at hp
    cases x with
    | none =>
      simp only [release_all, deallocate]
      rw [ih h (fun p hpm => hl p (List.mem_cons_of_mem _ hpm)) hp.2]
      simp
    | some p =>
      obtain ⟨h1, hd, hkeep⟩ := deallocate_live a h p (hl p (List.mem_cons_self _ _))
      have hform : h1 =
          Heap.mk (h.cells.filter (fun c => !decide (c.addr = p))) (p :: h.freed) := by
        simp only [deallocate, hl p (List.mem_cons_self _ _), if_true, Option.some.injEq] at hd
        exact hd.symm
      simp only [release_all, hd]
      rw [ih h1 ?_ hp.2]
      · subst hform
        simp only [List.filter_filter, List.filterMap_cons_some, id_eq, List.reverse_cons,
          List.append_assoc, List.singleton_append, Option.some.injEq, Heap.mk.injEq, and_true]
        apply List.filter_congr
        intro c _
        by_cases hcp : c.addr = p
        · simp [hcp]
        · simp [hcp]
      · intro q hq
        apply hkeep q
        · intro hqp
          subst hqp
          rcases hp.1 (some q) hq with h2 | h2
          · simp at h2
          · exact h2 rfl
        · exact hl q (List.mem_cons_of_mem _ hq)

theorem nodup_filterMap_of_pairwise (l : List (Option Nat))
    (hp : l.Pairwise (fun x y => x = none ∨ x ≠ y)) : (l.filterMap id).Nodup := by
  induction l with
  | nil => simp
  | cons x rest ih =>
    rw [List.pairwise_cons] at hp
    cases x with
    | none => simpa using ih hp.2
    | some p =>
      rw [List.filterMap_cons_some (by rfl : id (some p) = some p), List.nodup_cons]
      rw [List.mem_filterMap]
      refine ⟨?_, ih hp.2⟩
      rintro ⟨x, hmem, hx⟩
      simp only [id_eq] at hx
      subst hx
      rcases hp.1 (some p) hmem with h2 | h2
      · simp at h2
      · exact h2 rfl

/-! ## Claims about the setters of the record -/

/-- C13. Each of the three string setters returns `RMW_RET_INVALID_ARGUMENT` when the record,
the string or the allocator is `NULL`; the record is then what it was and so is the heap, so
that no allocation is attempted. -/
theorem string_setters_null_argument
    (service_endpoint_info : Option rmw_service_endpoint_info_t) (str : Option String)
    (allocator : Option rcutils_allocator_t) (h : Heap)
    (hnull : service_endpoint_info = none ∨ str = none ∨ allocator = none) :
    rmw_service_endpoint_info_set_node_name service_endpoint_info str allocator h =
        some (RMW_RET_INVALID_ARGUMENT, service_endpoint_info, h) ∧
      rmw_service_endpoint_info_set_node_namespace service_endpoint_info str allocator h =
        some (RMW_RET_INVALID_ARGUMENT, service_endpoint_info, h) ∧
      rmw_service_endpoint_info_set_service_type service_endpoint_info str allocator h =
        some (RMW_RET_INVALID_ARGUMENT, service_endpoint_info, h) := by
  cases service_endpoint_info with
  | none => exact ⟨rfl, rfl, rfl⟩
  | some info =>
    cases str with
    | none => exact ⟨rfl, rfl, rfl⟩
    | some s =>
      cases allocator with
      | none => exact ⟨rfl, rfl, rfl⟩
      | some a => simp at hnull

/-- Witness of C13: a `NULL` allocator on the populated record of the test `fini`. -/
theorem string_setters_null_argument_witness :
    rmw_service_endpoint_info_set_node_name (some sample_info) (some "other") none
        sample_heap = some (RMW_RET_INVALID_ARGUMENT, some sample_info, sample_heap) ∧
      rmw_service_endpoint_info_set_node_namespace (some sample_info) (some "other") none
        sample_heap = some (RMW_RET_INVALID_ARGUMENT, some sample_info, sample_heap) ∧
      rmw_service_endpoint_info_set_service_type (some sample_info) (some "other") none
        sample_heap = some (RMW_RET_INVALID_ARGUMENT, some sample_info, sample_heap) :=
  string_setters_null_argument (some sample_info) (some "other") none sample_heap
    (Or.inr (Or.inr rfl))

/-- C14. On a present record, `rmw_service_endpoint_info_set_endpoint_count` with a count of 1
or 2 returns `RMW_RET_OK` and stores the count, changing no other member; with any other
count it returns `RMW_RET_INVALID_ARGUMENT` and leaves the whole record as it was. -/
theorem set_endpoint_count_spec (info : rmw_service_endpoint_info_t) (n : Nat) (h : Heap) :
    rmw_service_endpoint_info_set_endpoint_count (some info) n h =
      if n = 1 ∨ n = 2 then
        some (RMW_RET_OK, some { info with endpoint_count := n }, h)
      else
        some (RMW_RET_INVALID_ARGUMENT, some info, h) := by
  unfold rmw_service_endpoint_info_set_endpoint_count
  by_cases h1 : n = 1
  · simp [h1]
  · by_cases h2 : n = 2
    · simp [h2]
    · simp [h1, h2]

/-- C15. `rmw_service_endpoint_info_set_gids` returns `RMW_RET_INVALID_ARGUMENT` when the count
is not 1 or 2 or the size exceeds `RMW_GID_STORAGE_SIZE`, and
`rmw_service_endpoint_info_set_qos_profiles` does when the count is not 1 or 2 or the profiles
are `NULL`; in each case the record and the heap are what they were, so that nothing is
allocated. -/
theorem array_setters_invalid_argument (t : Target)
    (service_endpoint_info : Option rmw_service_endpoint_info_t) (gids : Option (List Nat))
    (qos_profiles : Option (List rmw_qos_profile_t)) (endpoint_count size : Nat)
    (allocator : Option rcutils_allocator_t) (h : Heap) :
    ((¬ (endpoint_count = 1 ∨ endpoint_count = 2) ∨ size > t.RMW_GID_STORAGE_SIZE) →
        rmw_service_endpoint_info_set_gids t service_endpoint_info gids endpoint_count size
          allocator h = some (RMW_RET_INVALID_ARGUMENT, service_endpoint_info, h)) ∧
      ((¬ (endpoint_count = 1 ∨ endpoint_count = 2) ∨ qos_profiles = none) →
        rmw_service_endpoint_info_set_qos_profiles t service_endpoint_info qos_profiles
          endpoint_count allocator h = some (RMW_RET_INVALID_ARGUMENT, service_endpoint_info, h)) := by
  constructor
  · intro hbad
    cases service_endpoint_info with
    | none => rfl
    | some info =>
      unfold rmw_service_endpoint_info_set_gids
      by_cases hs : size > t.RMW_GID_STORAGE_SIZE
      · simp [hs]
      · have hc : ¬ (endpoint_count = 1 ∨ endpoint_count = 2) := by
          rcases hbad with h1 | h1
          · exact h1
          · exact absurd h1 hs
        simp only [not_or] at hc
        simp [hs, hc.1, hc.2]
  · intro hbad
    cases service_endpoint_info with
    | none => rfl
    | some info =>
      unfold rmw_service_endpoint_info_set_qos_profiles
      cases qos_profiles with
      | none => rfl
      | some src =>
        have hc : ¬ (endpoint_count = 1 ∨ endpoint_count = 2) := by
          rcases hbad with h1 | h1
          · exact h1
          · simp at h1
        simp only [not_or] at hc
        simp [hc.1, hc.2]

/-- Witness of C15: a count of 3 for the identifiers and for the profiles of the populated
record of the test `fini`. -/
theorem array_setters_invalid_argument_witness :
    rmw_service_endpoint_info_set_gids sample_target (some sample_info)
        (some (List.replicate 48 1)) 3 16 (some serving_allocator) sample_heap =
        some (RMW_RET_INVALID_ARGUMENT, some sample_info, sample_heap) ∧
      rmw_service_endpoint_info_set_qos_profiles sample_target (some sample_info)
        (some [sample_qos_profile]) 3 (some serving_allocator) sample_heap =
        some (RMW_RET_INVALID_ARGUMENT, some sample_info, sample_heap) :=
  ⟨(array_setters_invalid_argument sample_target (some sample_info)
      (some (List.replicate 48 1)) (some [sample_qos_profile]) 3 16 (some serving_allocator)
      sample_heap).1 (Or.inl (by decide)),
    (array_setters_invalid_argument sample_target (some sample_info)
      (some (List.replicate 48 1)) (some [sample_qos_profile]) 3 16 (some serving_allocator)
      sample_heap).2 (Or.inl (by decide))⟩

/-- C20. `rmw_service_endpoint_info_set_service_type_hash` on a present record with a present
hash returns `RMW_RET_OK` and stores the hash, version and value; it returns
`RMW_RET_INVALID_ARGUMENT` when the record or the hash is `NULL`.
`rmw_service_endpoint_info_set_endpoint_type` on a present record returns `RMW_RET_OK` and stores
the given kind, whichever it is; it returns `RMW_RET_INVALID_ARGUMENT` when the record is
`NULL`. No other member, and nothing in the heap, changes. -/
theorem value_setters_spec (info : rmw_service_endpoint_info_t) (type_hash : rosidl_type_hash_t)
    (any_hash : Option rosidl_type_hash_t) (type : rmw_endpoint_type_t) (h : Heap) :
    rmw_service_endpoint_info_set_service_type_hash (some info) (some type_hash) h =
        some (RMW_RET_OK, some { info with service_type_hash := type_hash }, h) ∧
      rmw_service_endpoint_info_set_service_type_hash (some info) none h =
        some (RMW_RET_INVALID_ARGUMENT, some info, h) ∧
      rmw_service_endpoint_info_set_service_type_hash none any_hash h =
        some (RMW_RET_INVALID_ARGUMENT, none, h) ∧
      rmw_service_endpoint_info_set_endpoint_type (some info) type h =
        some (RMW_RET_OK, some { info with endpoint_type := type }, h) ∧
      rmw_service_endpoint_info_set_endpoint_type none type h =
        some (RMW_RET_INVALID_ARGUMENT, none, h) :=
  ⟨rfl, rfl, rfl, rfl, rfl⟩

/-- C12. For each of the three string setters, on a present record, with a string and an
allocator that serves the request: the call returns `RMW_RET_OK`, no other member changes, and
the member is the address of a new allocation that holds a string equal to the input and is an
independent copy: it is not an allocation that existed before, and a later write to or release
of any other allocation, such as the buffer of the caller, does not change it. -/
theorem string_setters_copy (info : rmw_service_endpoint_info_t) (s : String)
    (allocator : rcutils_allocator_t) (h : Heap)
    (hg : allocator.grants (s.length + 1) = true) :
    ∃ p h1,
      rmw_service_endpoint_info_set_node_name (some info) (some s) (some allocator) h =
        some (RMW_RET_OK, some { info with node_name := some p }, h1) ∧
      rmw_service_endpoint_info_set_node_namespace (some info) (some s) (some allocator) h =
        some (RMW_RET_OK, some { info with node_namespace := some p }, h1) ∧
      rmw_service_endpoint_info_set_service_type (some info) (some s) (some allocator) h =
        some (RMW_RET_OK, some { info with service_type := some p }, h1) ∧
      independent_copy h h1 p (Block.string s) := by
  have hal := allocate_of_grants allocator (s.length + 1) h hg
  refine ⟨h.fresh, _, ?_, ?_, ?_, independent_copy_of_allocate allocator _ h _ h.fresh
    (Block.string s) hal⟩
  · simp [rmw_service_endpoint_info_set_node_name, _rmw_service_endpoint_info_copy_str,
      rcutils_strdup, hal]
  · simp [rmw_service_endpoint_info_set_node_namespace, _rmw_service_endpoint_info_copy_str,
      rcutils_strdup, hal]
  · simp [rmw_service_endpoint_info_set_service_type, _rmw_service_endpoint_info_copy_str,
      rcutils_strdup, hal]

/-- Witness of C12: the name `test_node_name` of the test `set_node_name` on the zero record. -/
theorem string_setters_copy_witness :
    serving_allocator.grants ("test_node_name".length + 1) = true ∧
      ∃ p h1,
        rmw_service_endpoint_info_set_node_name
            (some rmw_get_zero_initialized_service_endpoint_info) (some "test_node_name")
            (some serving_allocator) empty_heap =
          some (RMW_RET_OK,
            some { rmw_get_zero_initialized_service_endpoint_info with node_name := some p },
            h1) ∧
        rmw_service_endpoint_info_set_node_namespace
            (some rmw_get_zero_initialized_service_endpoint_info) (some "test_node_name")
            (some serving_allocator) empty_heap =
          some (RMW_RET_OK,
            some { rmw_get_zero_initialized_service_endpoint_info with node_namespace := some p },
            h1) ∧
        rmw_service_endpoint_info_set_service_type
            (some rmw_get_zero_initialized_service_endpoint_info) (some "test_node_name")
            (some serving_allocator) empty_heap =
          some (RMW_RET_OK,
            some { rmw_get_zero_initialized_service_endpoint_info with service_type := some p },
            h1) ∧
        independent_copy empty_heap h1 p (Block.string "test_node_name") :=
  ⟨rfl, string_setters_copy rmw_get_zero_initialized_service_endpoint_info "test_node_name"
    serving_allocator empty_heap rfl⟩

theorem size_mul_small (t : Target) (count n : Nat) (hcount : count = 1 ∨ count = 2)
    (hfit : 2 * n < 2 ^ t.size_t_bits) :
    t.size_mul count n = count * n ∧ t.size_mul n count = count * n := by
  have hlt : count * n < 2 ^ t.size_t_bits := by
    rcases hcount with h1 | h1 <;> subst h1 <;> omega
  unfold Target.size_mul
  constructor
  · exact Nat.mod_eq_of_lt hlt
  · rw [Nat.mul_comm n count]
    exact Nat.mod_eq_of_lt hlt

/-- C16. For a count of 1 or 2, a size equal to `RMW_GID_STORAGE_SIZE`, a buffer of the caller
of count times `RMW_GID_STORAGE_SIZE` bytes and an allocator that serves the request, on a
target whose `size_t` holds twice `RMW_GID_STORAGE_SIZE`: `rmw_service_endpoint_info_set_gids`
returns `RMW_RET_OK`, changes no other member, and `endpoint_gids` is a new allocation whose
byte `k * RMW_GID_STORAGE_SIZE + i`, which is `endpoint_gids[k][i]`, is that byte of the buffer
of the caller, for every `k` below the count and `i` below `RMW_GID_STORAGE_SIZE`. -/
theorem set_gids_copies (t : Target) (info : rmw_service_endpoint_info_t) (src : List Nat)
    (endpoint_count : Nat) (allocator : rcutils_allocator_t) (h : Heap)
    (hcount : endpoint_count = 1 ∨ endpoint_count = 2)
    (hfit : 2 * t.RMW_GID_STORAGE_SIZE < 2 ^ t.size_t_bits)
    (hlen : src.length = endpoint_count * t.RMW_GID_STORAGE_SIZE)
    (hg : allocator.grants (endpoint_count * t.RMW_GID_STORAGE_SIZE) = true) :
    ∃ p h1 b,
      rmw_service_endpoint_info_set_gids t (some info) (some src) endpoint_count
          t.RMW_GID_STORAGE_SIZE (some allocator) h =
        some (RMW_RET_OK, some { info with endpoint_gids := some p }, h1) ∧
      independent_copy h h1 p (Block.bytes b) ∧
      b.length = endpoint_count * t.RMW_GID_STORAGE_SIZE ∧
      ∀ k i, k < endpoint_count → i < t.RMW_GID_STORAGE_SIZE →
        ∃ byte, src.get? (k * t.RMW_GID_STORAGE_SIZE + i) = some byte ∧
          b.get? (k * t.RMW_GID_STORAGE_SIZE + i) = some byte := by
  obtain ⟨hm1, hm2⟩ := size_mul_small t endpoint_count t.RMW_GID_STORAGE_SIZE hcount hfit
  have hal := allocate_of_grants allocator (endpoint_count * t.RMW_GID_STORAGE_SIZE) h hg
  have hcopy : memcpy (List.replicate (endpoint_count * t.RMW_GID_STORAGE_SIZE) 0) src
      (endpoint_count * t.RMW_GID_STORAGE_SIZE) = some src := by
    unfold memcpy
    rw [← hlen]
    simp
  have hc : (endpoint_count == 1 || endpoint_count == 2) = true := by
    rcases hcount with h1 | h1 <;> simp [h1]
  refine ⟨h.fresh, _, src, ?_, independent_copy_of_allocate allocator _ h _ h.fresh
    (Block.bytes src) hal, hlen, ?_⟩
  · simp only [rmw_service_endpoint_info_set_gids, gt_iff_lt, lt_irrefl, if_false, hc,
      Bool.not_true, Bool.false_eq_true, hm1, hm2, hal, hcopy]
  · intro k i hk hi
    have hidx : k * t.RMW_GID_STORAGE_SIZE + i < src.length := by
      rw [hlen]
      calc k * t.RMW_GID_STORAGE_SIZE + i
          < k * t.RMW_GID_STORAGE_SIZE + t.RMW_GID_STORAGE_SIZE := by omega
        _ = (k + 1) * t.RMW_GID_STORAGE_SIZE := by ring
        _ ≤ endpoint_count * t.RMW_GID_STORAGE_SIZE := Nat.mul_le_mul_right _ hk
    exact ⟨src.get ⟨_, hidx⟩, List.get?_eq_get hidx, List.get?_eq_get hidx⟩

/-- Witness of C16: the two identifiers of the test `set_gids`, reader first and writer
second, on a target with identifiers of 16 bytes. -/
theorem set_gids_copies_witness :
    ((List.range 16).map (fun i => i + 1) ++ (List.range 16).map (fun i => i + 2)).length =
        2 * sample_target.RMW_GID_STORAGE_SIZE ∧
      ∃ p h1 b,
        rmw_service_endpoint_info_set_gids sample_target
            (some rmw_get_zero_initialized_service_endpoint_info)
            (some ((List.range 16).map (fun i => i + 1) ++ (List.range 16).map (fun i => i + 2)))
            2 sample_target.RMW_GID_STORAGE_SIZE (some serving_allocator) empty_heap =
          some (RMW_RET_OK,
            some { rmw_get_zero_initialized_service_endpoint_info with endpoint_gids := some p },
            h1) ∧
        independent_copy empty_heap h1 p (Block.bytes b) ∧
        b.length = 2 * sample_target.RMW_GID_STORAGE_SIZE ∧
        ∀ k i, k < 2 → i < sample_target.RMW_GID_STORAGE_SIZE →
          ∃ byte,
            ((List.range 16).map (fun i => i + 1) ++ (List.range 16).map (fun i => i + 2)).get?
                (k * sample_target.RMW_GID_STORAGE_SIZE + i) = some byte ∧
              b.get? (k * sample_target.RMW_GID_STORAGE_SIZE + i) = some byte :=
  ⟨by decide,
    set_gids_copies sample_target rmw_get_zero_initialized_service_endpoint_info
      ((List.range 16).map (fun i => i + 1) ++ (List.range 16).map (fun i => i + 2)) 2
      serving_allocator empty_heap (Or.inr rfl) (by decide) (by decide) rfl⟩

/-- C19. For a count of 1 or 2, an array of the caller with at least that many profiles and an
allocator that serves the request: `rmw_service_endpoint_info_set_qos_profiles` returns
`RMW_RET_OK`, changes no other member, and `qos_profiles` is a new allocation, an independent
copy, of count profiles, the profile `k` of which is equal to the profile `k` of the caller
for every `k` below the count. -/
theorem set_qos_profiles_copies (t : Target) (info : rmw_service_endpoint_info_t)
    (src : List rmw_qos_profile_t) (endpoint_count : Nat) (allocator : rcutils_allocator_t)
    (h : Heap) (hcount : endpoint_count = 1 ∨ endpoint_count = 2)
    (hlen : endpoint_count ≤ src.length)
    (hg : allocator.grants (t.size_mul endpoint_count t.sizeof_rmw_qos_profile_t) = true) :
    ∃ p h1 q,
      rmw_service_endpoint_info_set_qos_profiles t (some info) (some src) endpoint_count
          (some allocator) h =
        some (RMW_RET_OK, some { info with qos_profiles := some p }, h1) ∧
      independent_copy h h1 p (Block.profiles q) ∧
      q.length = endpoint_count ∧
      ∀ k, k < endpoint_count →
        ∃ profile, src.get? k = some profile ∧ q.get? k = some profile := by
  have hal := allocate_of_grants allocator
    (t.size_mul endpoint_count t.sizeof_rmw_qos_profile_t) h hg
  have hcopy : memcpy [] src endpoint_count = some (src.take endpoint_count) := by
    unfold memcpy
    simp [Nat.not_lt.mpr hlen]
  have hc : (endpoint_count == 1 || endpoint_count == 2) = true := by
    rcases hcount with h1 | h1 <;> simp [h1]
  refine ⟨h.fresh, _, src.take endpoint_count, ?_,
    independent_copy_of_allocate allocator _ h _ h.fresh
      (Block.profiles (src.take endpoint_count)) hal, ?_, ?_⟩
  · simp only [rmw_service_endpoint_info_set_qos_profiles, hc, Bool.not_true,
      Bool.false_eq_true, if_false, hal, hcopy]
  · simp [List.length_take, hlen]
  · intro k hk
    have hidx : k < src.length := lt_of_lt_of_le hk hlen
    refine ⟨src.get ⟨k, hidx⟩, List.get?_eq_get hidx, ?_⟩
    rw [List.get?_eq_getElem?, List.getElem?_take_of_lt hk, ← List.get?_eq_getElem?]
    exact List.get?_eq_get hidx

/-- Witness of C19: the profile of the test `fini` on the zero record. -/
theorem set_qos_profiles_copies_witness :
    ∃ p h1 q,
      rmw_service_endpoint_info_set_qos_profiles sample_target
          (some rmw_get_zero_initialized_service_endpoint_info) (some [sample_qos_profile]) 1
          (some serving_allocator) empty_heap =
        some (RMW_RET_OK,
          some { rmw_get_zero_initialized_service_endpoint_info with qos_profiles := some p },
          h1) ∧
      independent_copy empty_heap h1 p (Block.profiles q) ∧
      q.length = 1 ∧
      ∀ k, k < 1 →
        ∃ profile, [sample_qos_profile].get? k = some profile ∧ q.get? k = some profile :=
  set_qos_profiles_copies sample_target rmw_get_zero_initialized_service_endpoint_info
    [sample_qos_profile] 1 serving_allocator empty_heap (Or.inl rfl) (by decide) rfl

/-- C11. Over the heap of the allocator: start from the zero record and make setter calls that
all return `RMW_RET_OK`, each allocating setter at most once. Then
`rmw_service_endpoint_info_fini` returns `RMW_RET_OK`, and it releases exactly the allocations
that the setters made, each of them once: the addresses released are those that are live
before the finalization and were not live before the first setter, none occurs twice, and the
live allocations afterwards are those of before the first setter. -/
theorem fini_releases_each_once (t : Target) (calls : List Setter) (h0 h : Heap)
    (info : rmw_service_endpoint_info_t) (allocator : rcutils_allocator_t)
    (honce : (calls.filterMap Setter.field).Nodup)
    (hp : populate t calls rmw_get_zero_initialized_service_endpoint_info h0 = some (info, h)) :
    ∃ h1 released,
      rmw_service_endpoint_info_fini (some info) (some allocator) h =
        some (RMW_RET_OK, some rmw_get_zero_initialized_service_endpoint_info, h1) ∧
      h1.freed = released ++ h0.freed ∧ released.Nodup ∧
      (∀ p, p ∈ released ↔ (h.is_live p = true ∧ h0.is_live p = false)) ∧
      h1.cells = h0.cells := by
  have hown := populate_keeps_owns t calls _ info h0 h hp (owns_zero h0)
  have hfree : ∀ c ∈ calls, ∀ i, c.field = some i →
      (owned_pointers rmw_get_zero_initialized_service_endpoint_info).get? i = some none := by
    intro c _ i hi
    cases c <;> simp only [Setter.field, Option.some.injEq, reduceCtorEq] at hi <;>
      subst hi <;> rfl
  have hzero : tracked h0 rmw_get_zero_initialized_service_endpoint_info h0 := by
    refine ⟨rfl, ⟨[], by simp, by simp⟩, ?_⟩
    intro p hpm
    simp [owned_pointers, rmw_get_zero_initialized_service_endpoint_info] at hpm
  obtain ⟨hfr, ⟨extra, hex, hextra⟩, hnew⟩ :=
    populate_tracked t h0 calls _ info h0 h honce hp hfree hzero
  refine ⟨Heap.mk (h.cells.filter (fun c => decide (some c.addr ∉ owned_pointers info)))
    (((owned_pointers info).filterMap id).reverse ++ h.freed),
    ((owned_pointers info).filterMap id).reverse, ?_, ?_, ?_, ?_, ?_⟩
  · rw [fini_eq_release, release_all_eq allocator _ h hown.1 hown.2]
    rfl
  · simp only
    rw [hfr]
  · exact List.nodup_reverse.mpr (nodup_filterMap_of_pairwise _ hown.2)
  · intro p
    rw [List.mem_reverse, List.mem_filterMap]
    constructor
    · rintro ⟨x, hx, hxp⟩
      simp only [id_eq] at hxp
      subst hxp
      exact ⟨hown.1 p hx, hnew p hx⟩
    · rintro ⟨hlive, hnot⟩
      unfold Heap.is_live at hlive
      rw [List.any_eq_true] at hlive
      obtain ⟨c, hc, hcp⟩ := hlive
      simp only [decide_eq_true_eq] at hcp
      rw [hex] at hc
      rcases List.mem_append.mp hc with h2 | h2
      · have := is_live_of_mem h0 c h2
        rw [hcp, hnot] at this
        simp at this
      · exact ⟨some p, hcp ▸ hextra c h2, rfl⟩
  · simp only
    rw [hex, List.filter_append]
    have h2 : h0.cells.filter (fun c => decide (some c.addr ∉ owned_pointers info)) =
        h0.cells := by
      rw [List.filter_eq_self]
      intro c hc
      simp only [decide_eq_true_eq]
      intro hmem
      have := is_live_of_mem h0 c hc
      rw [hnew c.addr hmem] at this
      simp at this
    have h3 : extra.filter (fun c => decide (some c.addr ∉ owned_pointers info)) = [] := by
      rw [List.filter_eq_nil_iff]
      intro c hc
      simp only [decide_eq_true_eq, not_not]
      exact hextra c hc
    rw [h2, h3, List.append_nil]

/-- Witness of C11: the setter calls of the test `fini`, each allocating setter once, on an
empty heap. -/
theorem fini_releases_each_once_witness :
    (sample_calls.filterMap Setter.field).Nodup ∧
      populate sample_target sample_calls rmw_get_zero_initialized_service_endpoint_info
        empty_heap = some (sample_info, sample_heap) ∧
      ∃ h1 released,
        rmw_service_endpoint_info_fini (some sample_info) (some serving_allocator) sample_heap =
          some (RMW_RET_OK, some rmw_get_zero_initialized_service_endpoint_info, h1) ∧
        h1.freed = released ++ empty_heap.freed ∧ released.Nodup ∧
        (∀ p, p ∈ released ↔ (sample_heap.is_live p = true ∧ empty_heap.is_live p = false)) ∧
        h1.cells = empty_heap.cells :=
  ⟨by decide, by decide,
    fini_releases_each_once sample_target sample_calls empty_heap sample_heap sample_info
      serving_allocator (by decide) (by decide)⟩

/-- C17, the code at a size below `RMW_GID_STORAGE_SIZE`: with identifiers of 16 bytes, a count
of 1 and a size of 1, all 16 bytes of the buffer of the caller are stored, so that the bytes
at the positions 1 to 15 of the identifier are those of the caller and not zero; and when the
buffer of the caller has the one byte that the size announces, the copy reads outside it. -/
theorem set_gids_ignores_size :
    rmw_service_endpoint_info_set_gids sample_target
        (some rmw_get_zero_initialized_service_endpoint_info) (some (List.replicate 16 7)) 1 1
        (some serving_allocator) empty_heap =
      some (RMW_RET_OK,
        some { rmw_get_zero_initialized_service_endpoint_info with endpoint_gids := some 1 },
        { cells := [{ addr := 1, size := 16, content := Block.bytes (List.replicate 16 7) }],
          freed := [] }) ∧
      rmw_service_endpoint_info_set_gids sample_target
        (some rmw_get_zero_initialized_service_endpoint_info) (some [7]) 1 1
        (some serving_allocator) empty_heap = none := by
  constructor <;> decide

/-- C18, the code at a `NULL` buffer: with a present record, a count of 1, a size of 16 and a
present allocator, the function does not return `RMW_RET_INVALID_ARGUMENT`. When the
allocation is served the copy reads from `NULL`, which is undefined behaviour; when it is
refused the function returns `RMW_RET_BAD_ALLOC` and has set `endpoint_gids` to `NULL`. -/
theorem set_gids_null_buffer :
    rmw_service_endpoint_info_set_gids sample_target (some sample_info) none 1 16
        (some serving_allocator) sample_heap = none ∧
      rmw_service_endpoint_info_set_gids sample_target (some sample_info) none 1 16
        (some refusing_allocator) sample_heap =
        some (RMW_RET_BAD_ALLOC, some { sample_info with endpoint_gids := none },
          sample_heap) := by
  constructor <;> decide

/-! ## Theorems: the endpoint info array -/

theorem init_loop_of_fits (t : Target) (bytes n i : Nat)
    (records : List rmw_service_endpoint_info_t)
    (hfit : (i + n) * t.sizeof_rmw_service_endpoint_info_t ≤ bytes) :
    init_loop t bytes n i records =
      some (records ++ List.replicate n rmw_get_zero_initialized_service_endpoint_info) := by
  induction n generalizing i records with
  | zero => simp [init_loop]
  | succ k ih =>
    have h1 : (i + 1) * t.sizeof_rmw_service_endpoint_info_t ≤ bytes :=
      le_trans (Nat.mul_le_mul_right _ (by omega)) hfit
    have h2 : (i + 1 + k) * t.sizeof_rmw_service_endpoint_info_t ≤ bytes := by
      have : i + 1 + k = i + (k + 1) := by omega
      rw [this]
      exact hfit
    simp only [init_loop, h1, if_true]
    rw [ih (i + 1) _ h2]
    simp [List.replicate_succ]

theorem init_with_size_of_fits (t : Target) (arr : rmw_service_endpoint_info_array_t)
    (n : Nat) (a : rcutils_allocator_t) (h : Heap)
    (hfit : n * t.sizeof_rmw_service_endpoint_info_t < 2 ^ t.size_t_bits)
    (hg : a.grants (n * t.sizeof_rmw_service_endpoint_info_t) = true) :
    rmw_service_endpoint_info_array_init_with_size t (some arr) n (some a) h =
      some (RMW_RET_OK, some { size := n, info_array := some h.fresh },
        Heap.mk (h.cells ++ [Cell.mk h.fresh (n * t.sizeof_rmw_service_endpoint_info_t)
          (Block.infos (List.replicate n rmw_get_zero_initialized_service_endpoint_info))])
          h.freed) := by
  have hm : t.size_mul t.sizeof_rmw_service_endpoint_info_t n =
      n * t.sizeof_rmw_service_endpoint_info_t := by
    unfold Target.size_mul
    rw [Nat.mul_comm]
    exact Nat.mod_eq_of_lt hfit
  have hal := allocate_of_grants a (n * t.sizeof_rmw_service_endpoint_info_t) h hg
  obtain ⟨-, h3, h4⟩ := store_after_allocate a _ h _ h.fresh
    (Block.infos (List.replicate n rmw_get_zero_initialized_service_endpoint_info)) hal
  have hloop := init_loop_of_fits t (n * t.sizeof_rmw_service_endpoint_info_t) n 0 []
    (by simp)
  simp only [rmw_service_endpoint_info_array_init_with_size, hm, hal, hloop, List.nil_append]
  congr 3
  cases hs : Heap.store _ h.fresh
    (Block.infos (List.replicate n rmw_get_zero_initialized_service_endpoint_info)) with
  | mk cells freed =>
    rw [hs] at h3 h4
    simp only at h3 h4
    rw [h3, h4]

theorem fini_zero_record (a : rcutils_allocator_t) (h : Heap) :
    rmw_service_endpoint_info_fini (some rmw_get_zero_initialized_service_endpoint_info)
        (some a) h =
      some (RMW_RET_OK, some rmw_get_zero_initialized_service_endpoint_info, h) := rfl

theorem is_live_of_content (h : Heap) (p : Nat) (b : Block) (hc : h.content p = some b) :
    h.is_live p = true := by
  by_contra hl
  simp only [Bool.not_eq_true] at hl
  rw [content_eq_none_of_not_live h p hl] at hc
  simp at hc

theorem array_fini_loop_zero_records (a : rcutils_allocator_t) (p n k i : Nat) (h : Heap)
    (hc : h.content p =
      some (Block.infos (List.replicate n rmw_get_zero_initialized_service_endpoint_info)))
    (hk : i + k ≤ n) :
    ∃ h1, array_fini_loop a (some p) k i h = some (RMW_RET_OK, h1) ∧
      h1.content p =
        some (Block.infos (List.replicate n rmw_get_zero_initialized_service_endpoint_info)) ∧
      h1.freed = h.freed := by
  induction k generalizing i h with
  | zero => exact ⟨h, rfl, hc, rfl⟩
  | succ j ih =>
    have hi : i < n := by omega
    have hget : (List.replicate n rmw_get_zero_initialized_service_endpoint_info).get? i =
        some rmw_get_zero_initialized_service_endpoint_info := by
      rw [List.get?_eq_getElem?, List.getElem?_replicate]
      simp [hi]
    have hset : (List.replicate n rmw_get_zero_initialized_service_endpoint_info).set i
        rmw_get_zero_initialized_service_endpoint_info =
        List.replicate n rmw_get_zero_initialized_service_endpoint_info := by
      apply List.ext_getElem
      · simp
      · intro m h1 h2
        simp [List.getElem_set]
    have hel : element h (some p) i =
        some (some rmw_get_zero_initialized_service_endpoint_info) := by
      simp only [element, hc, hget]
    have hput : put_element h (some p) i
        (some rmw_get_zero_initialized_service_endpoint_info) =
        some (h.store p (Block.infos
          (List.replicate n rmw_get_zero_initialized_service_endpoint_info))) := by
      simp only [put_element, hc, List.length_replicate, hi, if_true, hset]
    have hc1 : (h.store p (Block.infos
        (List.replicate n rmw_get_zero_initialized_service_endpoint_info))).content p =
        some (Block.infos
          (List.replicate n rmw_get_zero_initialized_service_endpoint_info)) := by
      rw [content_store, hc]
      simp
    obtain ⟨h1, hl, hcc, hf⟩ := ih (i + 1) _ hc1 (by omega)
    refine ⟨h1, ?_, hcc, hf⟩
    simp only [array_fini_loop, hel, fini_zero_record, hput, ne_eq, not_true_eq_false, if_false]
    exact hl

theorem array_fini_zero_records (a : rcutils_allocator_t) (p n : Nat) (h : Heap)
    (hc : h.content p =
      some (Block.infos (List.replicate n rmw_get_zero_initialized_service_endpoint_info))) :
    ∃ h1, rmw_service_endpoint_info_array_fini (some { size := n, info_array := some p })
        (some a) h =
      some (RMW_RET_OK, some rmw_get_zero_initialized_service_endpoint_info_array, h1) := by
  obtain ⟨h1, hl, hcc, -⟩ := array_fini_loop_zero_records a p n n 0 h hc (by omega)
  obtain ⟨h2, hd, -⟩ := deallocate_live a h1 p (is_live_of_content h1 p _ hcc)
  refine ⟨h2, ?_⟩
  simp only [rmw_service_endpoint_info_array_fini, hl, ne_eq, not_true_eq_false, if_false, hd]
  rfl

theorem init_then_fini_of_fits (t : Target) (n : Nat) (a a1 : rcutils_allocator_t) (h : Heap)
    (hfit : n * t.sizeof_rmw_service_endpoint_info_t < 2 ^ t.size_t_bits)
    (hg : a.grants (n * t.sizeof_rmw_service_endpoint_info_t) = true) :
    ∃ arr h1 h2,
      rmw_service_endpoint_info_array_init_with_size t
          (some rmw_get_zero_initialized_service_endpoint_info_array) n (some a) h =
        some (RMW_RET_OK, some arr, h1) ∧
      arr.size = n ∧
      rmw_service_endpoint_info_array_fini (some arr) (some a1) h1 =
        some (RMW_RET_OK, some rmw_get_zero_initialized_service_endpoint_info_array, h2) ∧
      rmw_service_endpoint_info_array_check_zero
          (some rmw_get_zero_initialized_service_endpoint_info_array) =
        (RMW_RET_OK, some rmw_get_zero_initialized_service_endpoint_info_array) := by
  have hinit := init_with_size_of_fits t rmw_get_zero_initialized_service_endpoint_info_array
    n a h hfit hg
  have hc : (Heap.mk (h.cells ++ [Cell.mk h.fresh (n * t.sizeof_rmw_service_endpoint_info_t)
      (Block.infos (List.replicate n rmw_get_zero_initialized_service_endpoint_info))])
      h.freed).content h.fresh =
      some (Block.infos (List.replicate n rmw_get_zero_initialized_service_endpoint_info)) := by
    have hnone : h.cells.find? (fun c => decide (c.addr = h.fresh)) = none := by
      have := fresh_not_live h
      unfold Heap.is_live at this
      rw [List.any_eq_false] at this
      rw [List.find?_eq_none]
      exact this
    simp [Heap.content, List.find?_append, hnone]
  obtain ⟨h2, hf⟩ := array_fini_zero_records a1 h.fresh n _ hc
  exact ⟨_, _, h2, hinit, rfl, hf, rfl⟩

/-! ## Claims about the endpoint info array -/

/-- C21. On a present array `rmw_service_endpoint_info_array_check_zero` returns `RMW_RET_OK`
when `size` is 0 and `info_array` is `NULL`, and `RMW_RET_ERROR` otherwise; that code differs
from the `RMW_RET_INVALID_ARGUMENT` returned for a `NULL` array; the array is never modified;
and the zero-initialized array passes the check. -/
theorem check_zero_spec (arr : rmw_service_endpoint_info_array_t) :
    rmw_service_endpoint_info_array_check_zero (some arr) =
        (if arr.size = 0 ∧ arr.info_array = none then RMW_RET_OK else RMW_RET_ERROR,
          some arr) ∧
      rmw_service_endpoint_info_array_check_zero none = (RMW_RET_INVALID_ARGUMENT, none) ∧
      RMW_RET_ERROR ≠ RMW_RET_INVALID_ARGUMENT ∧
      rmw_service_endpoint_info_array_check_zero
          (some rmw_get_zero_initialized_service_endpoint_info_array) =
        (RMW_RET_OK, some rmw_get_zero_initialized_service_endpoint_info_array) := by
  refine ⟨?_, rfl, by decide, rfl⟩
  unfold rmw_service_endpoint_info_array_check_zero
  by_cases hs : arr.size = 0
  · cases hp : arr.info_array with
    | none => simp [hs, hp]
    | some p => simp [hs, hp]
  · simp [hs]

/-- C22, the code at a size whose byte count wraps: with a `size_t` of 64 bits and records of
88 bytes, a size of `2 ^ 61 + 1` makes the product `sizeof(record) * size` equal to 88, the
allocator serves these 88 bytes, and the loop writes the second record outside the block,
which is undefined behaviour: the function neither returns `RMW_RET_OK` nor leaves
`2 ^ 61 + 1` zero records. -/
theorem init_with_size_wraps :
    sample_target.size_mul sample_target.sizeof_rmw_service_endpoint_info_t (2 ^ 61 + 1) = 88 ∧
      serving_allocator.grants 88 = true ∧
      rmw_service_endpoint_info_array_init_with_size sample_target
        (some rmw_get_zero_initialized_service_endpoint_info_array) (2 ^ 61 + 1)
        (some serving_allocator) empty_heap = none := by
  refine ⟨by decide, rfl, by decide⟩

/-- C23, the code at an allocation that fails on an array that is not zero: the function
returns `RMW_RET_BAD_ALLOC` and the array has changed, for `info_array` is now `NULL` while
`size` is still 3. -/
theorem init_with_size_bad_alloc_changes_array :
    rmw_service_endpoint_info_array_init_with_size sample_target (some sample_array) 5
        (some refusing_allocator) sample_array_heap =
      some (RMW_RET_BAD_ALLOC, some { size := 3, info_array := none }, sample_array_heap) := by
  decide

/-- C24, the code at a size whose byte count wraps: with a `size_t` of 64 bits and records of
88 bytes, initialization of the zero array with a size of `2 ^ 62 + 1` requests 88 bytes,
which the allocator serves, and then writes outside the block; there is no array left for
`rmw_service_endpoint_info_array_fini` to finalize, and neither call returns `RMW_RET_OK`. -/
theorem init_then_fini_wraps :
    sample_target.size_mul sample_target.sizeof_rmw_service_endpoint_info_t (2 ^ 62 + 1) = 88 ∧
      (rmw_service_endpoint_info_array_init_with_size sample_target
        (some rmw_get_zero_initialized_service_endpoint_info_array) (2 ^ 62 + 1)
        (some serving_allocator) empty_heap).bind
          (fun r => rmw_service_endpoint_info_array_fini r.2.1 (some serving_allocator) r.2.2) =
        none := by
  refine ⟨by decide, by decide⟩

/-- C25, the code at an array that is not zero initialized: on an array of size 3 whose
`info_array` is not `NULL` the function does not return `RMW_RET_INVALID_ARGUMENT`; it
allocates, returns `RMW_RET_OK` and overwrites both members. -/
theorem init_with_size_on_nonzero_array :
    rmw_service_endpoint_info_array_check_zero (some sample_array) =
        (RMW_RET_ERROR, some sample_array) ∧
      (rmw_service_endpoint_info_array_init_with_size sample_target (some sample_array) 2
        (some serving_allocator) sample_array_heap).map (fun r => (r.1, r.2.1)) =
        some (RMW_RET_OK, some { size := 2, info_array := some 2 }) := by
  refine ⟨by decide, by decide⟩

/-- C26. `rmw_service_endpoint_info_array_init_with_size` and
`rmw_service_endpoint_info_array_fini` return `RMW_RET_INVALID_ARGUMENT` when the array or the
allocator is `NULL`; the array and the heap, in which its records are, are then what they
were, so that nothing is allocated or released. -/
theorem array_null_argument (t : Target)
    (service_endpoint_info_array : Option rmw_service_endpoint_info_array_t) (size : Nat)
    (allocator : Option rcutils_allocator_t) (h : Heap)
    (hnull : service_endpoint_info_array = none ∨ allocator = none) :
    rmw_service_endpoint_info_array_init_with_size t service_endpoint_info_array size allocator
        h = some (RMW_RET_INVALID_ARGUMENT, service_endpoint_info_array, h) ∧
      rmw_service_endpoint_info_array_fini service_endpoint_info_array allocator h =
        some (RMW_RET_INVALID_ARGUMENT, service_endpoint_info_array, h) := by
  cases allocator with
  | none => exact ⟨rfl, rfl⟩
  | some a =>
    cases service_endpoint_info_array with
    | none => exact ⟨rfl, rfl⟩
    | some arr => simp at hnull

/-- Witness of C26: a `NULL` allocator on an array of three records. -/
theorem array_null_argument_witness :
    rmw_service_endpoint_info_array_init_with_size sample_target (some sample_array) 2 none
        sample_array_heap =
        some (RMW_RET_INVALID_ARGUMENT, some sample_array, sample_array_heap) ∧
      rmw_service_endpoint_info_array_fini (some sample_array) none sample_array_heap =
        some (RMW_RET_INVALID_ARGUMENT, some sample_array, sample_array_heap) :=
  array_null_argument sample_target (some sample_array) 2 none sample_array_heap (Or.inr rfl)

/-- C27 as stated fails: initialization of the zero array with a size of 0 by an allocator that
serves a request of 0 bytes returns `RMW_RET_OK` and leaves `size` equal to 0 with an
`info_array` that is not `NULL`. -/
theorem size_zero_with_buffer_reached :
    ∃ arr h, Reached sample_target any_call arr h ∧
      ¬ (arr.size = 0 ↔ arr.info_array = none) := by
  refine ⟨{ size := 0, info_array := some 1 },
    { cells := [{ addr := 1, size := 0, content := Block.infos [] }], freed := [] }, ?_, ?_⟩
  · exact Reached.step (.init_with_size 0 (some serving_allocator))
      rmw_get_zero_initialized_service_endpoint_info_array _ empty_heap _ RMW_RET_OK
      (Reached.zero empty_heap) (by decide) trivial
  · simp

/-- C27, amended. Every array state reached from the zero array by calls of
`rmw_service_endpoint_info_array_init_with_size` and `rmw_service_endpoint_info_array_fini`,
whatever they return, among which no initialization with a size of 0 returns `RMW_RET_OK` and
an initialization returns `RMW_RET_BAD_ALLOC` on a zero array only, has `size` equal to 0 if
and only if `info_array` is `NULL`. -/
theorem size_zero_iff_null (t : Target) (arr : rmw_service_endpoint_info_array_t) (h : Heap)
    (hr : Reached t sized_call arr h) : arr.size = 0 ↔ arr.info_array = none := by
  induction hr with
  | zero h => simp [rmw_get_zero_initialized_service_endpoint_info_array]
  | step c arr arr1 h h1 ret _ hcall hadm ih =>
    cases c with
    | init_with_size size allocator =>
      simp only [ArrayCall.call, rmw_service_endpoint_info_array_init_with_size] at hcall
      cases allocator with
      | none =>
        simp only [Option.some.injEq, Prod.mk.injEq] at hcall
        rw [← hcall.2.1]
        exact ih
      | some a =>
        simp only at hcall
        rcases hal : allocate a (t.size_mul t.sizeof_rmw_service_endpoint_info_t size) h
          with ⟨r, g⟩
        rw [hal] at hcall
        cases r with
        | none =>
          simp only [Option.some.injEq, Prod.mk.injEq] at hcall
          obtain ⟨hret, harr, -⟩ := hcall
          have hz := hadm.2 hret.symm
          rw [← harr, hz]
          simp [rmw_get_zero_initialized_service_endpoint_info_array]
        | some p =>
          simp only at hcall
          split at hcall
          · simp at hcall
          · simp only [Option.some.injEq, Prod.mk.injEq] at hcall
            obtain ⟨hret, harr, -⟩ := hcall
            have hs := hadm.1 hret.symm
            rw [← harr]
            simp only [reduceCtorEq, iff_false]
            omega
    | fini allocator =>
      simp only [ArrayCall.call, rmw_service_endpoint_info_array_fini] at hcall
      cases allocator with
      | none =>
        simp only [Option.some.injEq, Prod.mk.injEq] at hcall
        rw [← hcall.2.1]
        exact ih
      | some a =>
        simp only at hcall
        cases hl : array_fini_loop a arr.info_array arr.size 0 h with
        | none => rw [hl] at hcall; simp at hcall
        | some r =>
          obtain ⟨ret1, g⟩ := r
          rw [hl] at hcall
          simp only at hcall
          split at hcall
          · simp only [Option.some.injEq, Prod.mk.injEq] at hcall
            rw [← hcall.2.1]
            exact ih
          · cases hd : deallocate a arr.info_array g with
            | none => rw [hd] at hcall; simp at hcall
            | some g1 =>
              rw [hd] at hcall
              simp only [Option.some.injEq, Prod.mk.injEq] at hcall
              rw [← hcall.2.1]
              simp

/-- Witness of C27, amended: the array of three records that initialization makes of the zero
array. -/
theorem size_zero_iff_null_witness :
    Reached sample_target sized_call sample_array sample_array_heap ∧
      (sample_array.size = 0 ↔ sample_array.info_array = none) :=
  have hr : Reached sample_target sized_call sample_array sample_array_heap :=
    Reached.step (.init_with_size 3 (some serving_allocator))
      rmw_get_zero_initialized_service_endpoint_info_array sample_array empty_heap
      sample_array_heap RMW_RET_OK (Reached.zero empty_heap) (by decide)
      ⟨fun _ => by decide, fun hh => by simp at hh⟩
  ⟨hr, size_zero_iff_null sample_target sample_array sample_array_heap hr⟩

/-- C28, the code at an allocator that is not `NULL` and is invalid for
`rcutils_allocator_is_valid`: both finalization functions go on, release the memory, leave the
zero structure and return `RMW_RET_OK`; neither returns `RMW_RET_INVALID_ARGUMENT`. -/
theorem fini_with_invalid_allocator :
    rcutils_allocator_is_valid (some invalid_allocator) = false ∧
      rmw_service_endpoint_info_fini (some sample_info) (some invalid_allocator) sample_heap =
        some (RMW_RET_OK, some rmw_get_zero_initialized_service_endpoint_info,
          { cells := [], freed := [1, 2, 5, 3, 4] }) ∧
      rmw_service_endpoint_info_array_fini (some sample_array) (some invalid_allocator)
          sample_array_heap =
        some (RMW_RET_OK, some rmw_get_zero_initialized_service_endpoint_info_array,
          { cells := [], freed := [1] }) := by
  refine ⟨rfl, by decide, by decide⟩

/-- C29. `rmw_enclave_options_copy` returns `RMW_RET_INVALID_ARGUMENT` when `src` is `NULL`,
`dst` is `NULL` or the allocator is `NULL` or invalid; with these present and valid it returns
`RMW_RET_BAD_ALLOC` when the allocator refuses the copy, and otherwise `RMW_RET_OK` with `*dst`
the address of a new allocation that holds a string equal to `src`. On a return other than
`RMW_RET_OK`, `*dst` and the heap are what they were. -/
theorem enclave_options_copy_spec (src : Option String)
    (allocator : Option rcutils_allocator_t) (dst : Option (Option Nat)) (s : String)
    (a : rcutils_allocator_t) (d : Option Nat) (h : Heap) :
    ((src = none ∨ dst = none ∨ rcutils_allocator_is_valid allocator = false) →
        rmw_enclave_options_copy src allocator dst h = (RMW_RET_INVALID_ARGUMENT, dst, h)) ∧
      (rcutils_allocator_is_valid (some a) = true → a.grants (s.length + 1) = false →
        rmw_enclave_options_copy (some s) (some a) (some d) h =
          (RMW_RET_BAD_ALLOC, some d, h)) ∧
      (rcutils_allocator_is_valid (some a) = true → a.grants (s.length + 1) = true →
        ∃ p h1, rmw_enclave_options_copy (some s) (some a) (some d) h =
            (RMW_RET_OK, some (some p), h1) ∧
          independent_copy h h1 p (Block.string s)) := by
  refine ⟨?_, ?_, ?_⟩
  · intro hbad
    cases src with
    | none => rfl
    | some s1 =>
      cases dst with
      | none => rfl
      | some d1 =>
        have hv : rcutils_allocator_is_valid allocator = false := by
          rcases hbad with h1 | h1 | h1
          · simp at h1
          · simp at h1
          · exact h1
        simp [rmw_enclave_options_copy, hv]
  · intro hv hg
    simp [rmw_enclave_options_copy, hv, rcutils_strdup, allocate, hg]
  · intro hv hg
    have hal := allocate_of_grants a (s.length + 1) h hg
    refine ⟨h.fresh, _, ?_, independent_copy_of_allocate a _ h _ h.fresh (Block.string s) hal⟩
    simp [rmw_enclave_options_copy, hv, rcutils_strdup, hal]

/-- Witness of C29: the copy of `src` of the test `options_copy`. -/
theorem enclave_options_copy_spec_witness :
    rcutils_allocator_is_valid (some serving_allocator) = true ∧
      ∃ p h1, rmw_enclave_options_copy (some "src") (some serving_allocator) (some none)
          empty_heap = (RMW_RET_OK, some (some p), h1) ∧
        independent_copy empty_heap h1 p (Block.string "src") :=
  ⟨rfl, (enclave_options_copy_spec (some "src") (some serving_allocator) (some none) "src"
    serving_allocator none empty_heap).2.2 rfl rfl⟩

/-- C30, the code at a `NULL` allocator: with a present record, present profiles and a count
of 1, `rmw_service_endpoint_info_set_qos_profiles` calls `allocator->allocate` through the
`NULL` pointer, which is undefined behaviour, where the four other allocating setters return
`RMW_RET_INVALID_ARGUMENT` and leave the record as it was. -/
theorem set_qos_profiles_null_allocator :
    rmw_service_endpoint_info_set_qos_profiles sample_target (some sample_info)
        (some [sample_qos_profile]) 1 none sample_heap = none ∧
      rmw_service_endpoint_info_set_gids sample_target (some sample_info)
        (some (List.replicate 16 0)) 1 16 none sample_heap =
        some (RMW_RET_INVALID_ARGUMENT, some sample_info, sample_heap) ∧
      rmw_service_endpoint_info_set_node_name (some sample_info) (some "name") none
        sample_heap = some (RMW_RET_INVALID_ARGUMENT, some sample_info, sample_heap) ∧
      rmw_service_endpoint_info_set_node_namespace (some sample_info) (some "name") none
        sample_heap = some (RMW_RET_INVALID_ARGUMENT, some sample_info, sample_heap) ∧
      rmw_service_endpoint_info_set_service_type (some sample_info) (some "name") none
        sample_heap = some (RMW_RET_INVALID_ARGUMENT, some sample_info, sample_heap) := by
  refine ⟨by decide, by decide, by decide, by decide, by decide⟩

/-! ## Theorems: rejected tokens and failed insertions -/

theorem build_keys_c_str (fs : Filesystem) (io : IterationOrder) (s : Bool)
    (p root : String) (rs : List (String × String))
    (hb : build_result_std fs io s p root = some rs) (e : String × String) (he : e ∈ rs) :
    c_str e.1 = e.1 := by
  obtain ⟨-, hperm, -, -⟩ := build_result_std_some fs io s p root rs hb
  apply c_str_key
  have h1 : e.1 ∈ keys rs := List.mem_map_of_mem _ he
  have h2 := hperm.mem_iff.mp h1
  by_cases hc : fs.is_regular_file (fs.append root "crl.pem") = true
  · simpa [hc] using h2
  · simp only [hc, Bool.false_eq_true, if_false, List.append_nil] at h2
    exact List.mem_append_left _ h2

theorem candidates_rejected (fs : Filesystem) (s : Bool) (p root n1 n2 r : String)
    (h : (process_pkcs_uri_security_file fs s p (fs.append root n1) r).1 = false) :
    candidates_loop fs s p root
        [(n1, process_pkcs_uri_security_file), (n2, process_file_uri_security_file)] r =
      if fs.is_regular_file (fs.append root n2) = true then
        (true, p ++ fs.generic_string (fs.append root n2))
      else
        (false, (process_pkcs_uri_security_file fs s p (fs.append root n1) r).2) := by
  obtain ⟨v, hv⟩ := process_pkcs_fst_false fs s p _ r h
  cases hreg : fs.is_regular_file (fs.append root n2) <;>
    simp [candidates_loop, hv, process_file_uri_security_file, hreg]

theorem token_entry (e e1 : String × String) (he : e ∈ token_file_names)
    (he1 : e1 ∈ plain_file_names) (hattr : e.1 = e1.1) :
    (e.1, [(e.2, process_pkcs_uri_security_file), (e1.2, process_file_uri_security_file)]) ∈
      required_files := by
  simp only [token_file_names, plain_file_names, List.mem_cons, List.mem_singleton,
    List.not_mem_nil, or_false] at he he1
  rcases he with rfl | rfl | rfl | rfl <;> rcases he1 with rfl | rfl | rfl | rfl | rfl | rfl <;>
    first
    | (exfalso; revert hattr; decide)
    | simp [required_files]

theorem set_loop_prefix (o : StringMapOracle) (l : List (String × String)) (i : Nat)
    (map : rcutils_string_map_t) :
    ∃ j, j ≤ l.length ∧
      (set_loop o l i map).2 =
        (l.take j).foldl (fun m e => assign m (c_str e.1) (c_str e.2)) map ∧
      ((set_loop o l i map).1 = RMW_RET_ERROR → j < l.length ∧ o.set_ok (i + j) = false) := by
  induction l generalizing i map with
  | nil => exact ⟨0, by simp [set_loop]⟩
  | cons e rest ih =>
    obtain ⟨k, v⟩ := e
    simp only [set_loop]
    cases hs : o.set_ok i
    · exact ⟨0, by simp [hs]⟩
    · obtain ⟨j, hj, hm, he⟩ := ih (i + 1) (assign map (c_str k) (c_str v))
      refine ⟨j + 1, by simpa using hj, by simpa using hm, ?_⟩
      intro herr
      obtain ⟨h1, h2⟩ := he (by simpa using herr)
      refine ⟨by simpa using h1, ?_⟩
      rw [← h2]
      congr 1
      omega

theorem set_loop_lookup (o : StringMapOracle) (l : List (String × String)) (i : Nat)
    (map : rcutils_string_map_t) (k : String) :
    lookup (set_loop o l i map).2 k = lookup map k ∨
      ∃ e ∈ l, c_str e.1 = k ∧ lookup (set_loop o l i map).2 k = some (c_str e.2) := by
  induction l generalizing i map with
  | nil => simp [set_loop]
  | cons e rest ih =>
    obtain ⟨k0, v0⟩ := e
    simp only [set_loop]
    cases hs : o.set_ok i
    · simp
    · simp only [if_true]
      rcases ih (i + 1) (assign map (c_str k0) (c_str v0)) with h | ⟨e, he, hk, h⟩
      · rw [lookup_assign] at h
        by_cases hk : c_str k0 = k
        · right
          exact ⟨(k0, v0), by simp, hk, by simpa [hk] using h⟩
        · left
          simpa [hk] using h
      · right
        exact ⟨e, List.mem_cons_of_mem _ he, hk, h⟩

/-! ## Claims about the resolver: tokens, fallbacks and failed insertions -/

/-- C31, as stated, fails: the `key.p11` of `sec_fs_spaced` holds the single line
`pkcs11:token=my token;object=key`, and the value resolved for `PRIVATE_KEY` is
`pkcs11:token=my`, the text up to the first space, not the whole line. -/
theorem whole_line_not_resolved :
    sec_fs_spaced.ifstream "/sec/key.p11" = some "pkcs11:token=my token;object=key\n" ∧
      process_pkcs_uri_security_file sec_fs_spaced true "file://" "/sec/key.p11" "" =
        (true, "pkcs11:token=my") ∧
      (get_security_files_support_pkcs sec_fs_spaced insertion_order all_succeed true
          (some "file://") (some "/sec") (some [])).2.bind (fun m => lookup m "PRIVATE_KEY") =
        some "pkcs11:token=my" := by
  refine ⟨by decide, by decide, by decide⟩

/-- C31, amended. For a PKCS#11 candidate whose reference file begins with a text `tok` that
starts with `pkcs11:` and holds no whitespace, followed by nothing or by a whitespace character,
the resolved value is `tok`: the line up to its first space or tab, and so the whole line
exactly when the line holds none. -/
theorem token_is_line_up_to_whitespace (fs : Filesystem) (p path r tok rest : String)
    (hopen : fs.ifstream path = some (tok ++ rest))
    (hp : starts_with_pkcs11 tok)
    (hns : ∀ c ∈ tok.toList, isspace c = false)
    (hrest : ∀ c, rest.toList.head? = some c → isspace c = true) :
    process_pkcs_uri_security_file fs true p path r = (true, tok) := by
  rw [process_pkcs_true_iff]
  refine ⟨rfl, tok ++ rest, hopen, ⟨?_, hns, [], rest.toList, by simp, by simp, hrest⟩, hp⟩
  obtain ⟨x, hx⟩ := hp
  rw [hx]
  simp

/-- Witness of C31, amended: the line `pkcs11:token=my token;object=key` resolves to
`pkcs11:token=my`. -/
theorem token_is_line_up_to_whitespace_witness :
    process_pkcs_uri_security_file sec_fs_spaced true "file://" "/sec/key.p11" "" =
      (true, "pkcs11:token=my") :=
  token_is_line_up_to_whitespace sec_fs_spaced "file://" "/sec/key.p11" "" "pkcs11:token=my"
    " token;object=key\n" (by decide) ⟨"token=my", by decide⟩ (by decide) (by decide)

/-- C38. For an attribute with a `.p11` candidate `e.2` and the `.pem` candidate `e1.2`, when
the PKCS#11 processor rejects the `.p11` file: if the `.pem` file is a regular file the
candidates resolve to the prefix followed by the generic string of the path of the `.pem`
file; a call that returns `RMW_RET_OK` stores exactly that value, which the map receives as
a C string (`c_str` of it, the value itself when it holds no NUL character); and after any call,
whatever it returns, the attribute in the output map is either as it was before the call or
that value, so nothing read from the rejected file is stored. -/
theorem rejected_token_falls_back (fs : Filesystem) (s : Bool) (p root : String)
    (e e1 : String × String) (he : e ∈ token_file_names) (he1 : e1 ∈ plain_file_names)
    (hattr : e.1 = e1.1)
    (hrej : (process_pkcs_uri_security_file fs s p (fs.append root e.2) "").1 = false) :
    (fs.is_regular_file (fs.append root e1.2) = true →
      ∃ el ∈ required_files, el.1 = e.1 ∧ candidates_loop fs s p root el.2 "" =
        (true, p ++ fs.generic_string (fs.append root e1.2))) ∧
    (∀ io o map m1,
      get_security_files_support_pkcs fs io o s (some p) (some root) (some map) =
        (RMW_RET_OK, some m1) →
      fs.is_regular_file (fs.append root e1.2) = true ∧
        lookup m1 e.1 = some (c_str (p ++ fs.generic_string (fs.append root e1.2))) ∧
        (nul_free (p ++ fs.generic_string (fs.append root e1.2)) →
          lookup m1 e.1 = some (p ++ fs.generic_string (fs.append root e1.2)))) ∧
    (∀ io o map ret m1,
      get_security_files_support_pkcs fs io o s (some p) (some root) (some map) =
        (ret, some m1) →
      (lookup m1 e.1 = lookup map e.1 ∨
        lookup m1 e.1 = some (c_str (p ++ fs.generic_string (fs.append root e1.2)))) ∧
      (nul_free (p ++ fs.generic_string (fs.append root e1.2)) →
        lookup m1 e.1 = lookup map e.1 ∨
          lookup m1 e.1 = some (p ++ fs.generic_string (fs.append root e1.2)))) := by
  have hel := token_entry e e1 he he1 hattr
  have hc := candidates_rejected fs s p root e.2 e1.2 "" hrej
  have hbuild : ∀ io rs, build_result_std fs io s p root = some rs →
      fs.is_regular_file (fs.append root e1.2) = true ∧
        lookup rs e.1 = some (p ++ fs.generic_string (fs.append root e1.2)) := by
    intro io rs hb
    obtain ⟨-, -, hv, -⟩ := build_result_std_some fs io s p root rs hb
    have hres : (candidates_loop fs s p root
        [(e.2, process_pkcs_uri_security_file), (e1.2, process_file_uri_security_file)]
        "").1 = true := by
      by_contra hcon
      have hnone := (build_result_std_eq_none_iff fs io s p root).mpr
        ⟨_, hel, by simpa using hcon⟩
      rw [hb] at hnone
      simp at hnone
    cases hreg : fs.is_regular_file (fs.append root e1.2)
    · rw [hc, hreg] at hres
      simp at hres
    · have := hv _ hel
      rw [hc, hreg] at this
      exact ⟨rfl, by simpa using this⟩
  have hany : ∀ io o map ret m1,
      get_security_files_support_pkcs fs io o s (some p) (some root) (some map) =
        (ret, some m1) →
      lookup m1 e.1 = lookup map e.1 ∨
        lookup m1 e.1 = some (c_str (p ++ fs.generic_string (fs.append root e1.2))) := by
    intro io o map ret m1 hcall
    simp only [get_security_files_support_pkcs] at hcall
    cases hb : build_result_std fs io s p root with
    | none =>
      rw [hb] at hcall
      simp only [Prod.mk.injEq, Option.some.injEq] at hcall
      left
      rw [hcall.2]
    | some rs =>
      rw [hb] at hcall
      simp only at hcall
      cases hr : o.reserve_ok
      · simp only [hr, Bool.not_false, if_true, Prod.mk.injEq, Option.some.injEq] at hcall
        left
        rw [hcall.2]
      · simp only [hr, Bool.not_true, Bool.false_eq_true, if_false, Prod.mk.injEq,
          Option.some.injEq] at hcall
        obtain ⟨hnd, -, -, -⟩ := build_result_std_some fs io s p root rs hb
        rw [← hcall.2]
        rcases set_loop_lookup o (io.result rs) 0 map e.1 with h | ⟨x, hx, hkx, h⟩
        · exact Or.inl h
        · right
          have hmem : x ∈ rs := (io.result_perm rs).mem_iff.mp hx
          have hkey : x.1 = e.1 := by
            rw [← hkx, build_keys_c_str fs io s p root rs hb x hmem]
          have hl := lookup_of_mem rs x.1 x.2 hnd hmem
          rw [hkey, (hbuild io rs hb).2] at hl
          simp only [Option.some.injEq] at hl
          rw [h, ← hl]
  refine ⟨?_, ?_, ?_⟩
  · intro hreg
    exact ⟨_, hel, rfl, by rw [hc, hreg]; simp⟩
  · intro io o map m1 hok
    obtain ⟨rs, m2, hb, hm, hl, -, -⟩ := resolver_ok fs io o s p root map (some m1) hok
    simp only [Option.some.injEq] at hm
    subst hm
    obtain ⟨hreg, hv⟩ := hbuild io rs hb
    have hval := hl _ _ hv
    exact ⟨hreg, hval, fun hn => by rw [hval, c_str_of_nul_free _ hn]⟩
  · intro io o map ret m1 hcall
    have h1 := hany io o map ret m1 hcall
    refine ⟨h1, fun hn => ?_⟩
    rw [c_str_of_nul_free _ hn] at h1
    exact h1

/-- Witness of C38: the `key.p11` of `sec_fs_rejected` holds `BEGIN-PRIVATE-TEXT`; the value
resolved for `PRIVATE_KEY` is the URI of `key.pem`. -/
theorem rejected_token_falls_back_witness :
    sec_fs_rejected.ifstream "/sec/key.p11" = some "BEGIN-PRIVATE-TEXT\n" ∧
      ∃ el ∈ required_files, el.1 = "PRIVATE_KEY" ∧
        candidates_loop sec_fs_rejected true "file://" "/sec" el.2 "" =
          (true, "file:///sec/key.pem") :=
  ⟨by decide,
    (rejected_token_falls_back sec_fs_rejected true "file://" "/sec" ("PRIVATE_KEY", "key.p11")
      ("PRIVATE_KEY", "key.pem") (by simp [token_file_names]) (by simp [plain_file_names]) rfl
      (by decide)).1 (by decide)⟩

/-- C40, as stated, fails: on the directory `sec_fs`, where every mandatory attribute
resolves, with a string map whose second insertion fails, the call returns `RMW_RET_ERROR`
and the output map, empty before the call, holds the entry of the first insertion. -/
theorem failed_insertion_leaves_entries :
    get_security_files_support_pkcs sec_fs insertion_order second_set_fails true
        (some "file://") (some "/sec") (some []) =
      (RMW_RET_ERROR, some [("IDENTITY_CA", "file:///sec/identity_ca.cert.pem")]) ∧
    lookup [] "IDENTITY_CA" = none := by
  refine ⟨by decide, by decide⟩

/-- C40, amended. When the call returns an error because a mandatory attribute did not resolve
or the string map reserve failed, the output map is as it was before the call; when it returns
an error after both succeeded, an insertion `j` failed and the output map is the map of before
the call with the `j` entries inserted before it, each key and value as the C string that
`rcutils_string_map_set` receives. -/
theorem error_keeps_inserted_entries (fs : Filesystem) (io : IterationOrder)
    (o : StringMapOracle) (s : Bool) (p root : String) (map m1 : rcutils_string_map_t)
    (ret : rmw_ret_t)
    (h : get_security_files_support_pkcs fs io o s (some p) (some root) (some map) =
      (ret, some m1))
    (hne : ret ≠ RMW_RET_OK) :
    ret = RMW_RET_ERROR ∧
    (build_result_std fs io s p root = none ∨ o.reserve_ok = false → m1 = map) ∧
    (∀ rs, build_result_std fs io s p root = some rs → o.reserve_ok = true →
      ∃ j, j < (io.result rs).length ∧ o.set_ok j = false ∧
        m1 = ((io.result rs).take j).foldl
          (fun m e => assign m (c_str e.1) (c_str e.2)) map) := by
  simp only [get_security_files_support_pkcs] at h
  cases hb : build_result_std fs io s p root with
  | none =>
    rw [hb] at h
    simp only [Prod.mk.injEq, Option.some.injEq] at h
    exact ⟨h.1.symm, fun _ => h.2.symm, fun rs hrs => by simp at hrs⟩
  | some rs =>
    rw [hb] at h
    simp only at h
    cases hr : o.reserve_ok
    · simp only [hr, Bool.not_false, if_true, Prod.mk.injEq, Option.some.injEq] at h
      exact ⟨h.1.symm, fun _ => h.2.symm, fun _ _ hh => by simp at hh⟩
    · simp only [hr, Bool.not_true, Bool.false_eq_true, if_false, Prod.mk.injEq,
        Option.some.injEq] at h
      obtain ⟨j, -, hm, he⟩ := set_loop_prefix o (io.result rs) 0 map
      have herr : (set_loop o (io.result rs) 0 map).1 = RMW_RET_ERROR := by
        rcases set_loop_status o (io.result rs) 0 map with h1 | h1
        · rw [h.1] at h1
          exact absurd h1 hne
        · exact h1
      refine ⟨by rw [← h.1, herr], fun hh => by simp at hh, ?_⟩
      intro rs1 hrs1 _
      simp only [Option.some.injEq] at hrs1
      subst hrs1
      obtain ⟨h1, h2⟩ := he herr
      exact ⟨j, h1, by simpa using h2, by rw [← h.2, hm]⟩

/-- Witness of C40, amended: the second insertion fails, and the output map is the empty map
with the first entry inserted. -/
theorem error_keeps_inserted_entries_witness :
    RMW_RET_ERROR = RMW_RET_ERROR ∧
    (build_result_std sec_fs insertion_order true "file://" "/sec" = none ∨
        second_set_fails.reserve_ok = false →
      [("IDENTITY_CA", "file:///sec/identity_ca.cert.pem")] = []) ∧
    (∀ rs, build_result_std sec_fs insertion_order true "file://" "/sec" = some rs →
      second_set_fails.reserve_ok = true →
      ∃ j, j < (insertion_order.result rs).length ∧ second_set_fails.set_ok j = false ∧
        [("IDENTITY_CA", "file:///sec/identity_ca.cert.pem")] =
          ((insertion_order.result rs).take j).foldl
            (fun m e => assign m (c_str e.1) (c_str e.2)) []) :=
  error_keeps_inserted_entries sec_fs insertion_order second_set_fails true "file://" "/sec"
    [] [("IDENTITY_CA", "file:///sec/identity_ca.cert.pem")] RMW_RET_ERROR (by decide)
    (by decide)

/-! ## Claims about the endpoint info array: the requested byte count -/

/-- C39, the code at a size whose byte count wraps: with a `size_t` of 64 bits and records of
88 bytes, a size of `2 ^ 63 + 1` needs `(2 ^ 63 + 1) * 88` bytes, which an allocator that
serves at most 1024 bytes would refuse; the function requests 88 bytes, the allocation
succeeds, and the block has room for one record, so that the loop writes outside it. -/
theorem requested_bytes_wrap :
    sample_target.size_mul sample_target.sizeof_rmw_service_endpoint_info_t (2 ^ 63 + 1) = 88 ∧
      (2 ^ 63 + 1) * sample_target.sizeof_rmw_service_endpoint_info_t ≠ 88 ∧
      small_allocator.grants
        ((2 ^ 63 + 1) * sample_target.sizeof_rmw_service_endpoint_info_t) = false ∧
      (allocate small_allocator
        (sample_target.size_mul sample_target.sizeof_rmw_service_endpoint_info_t (2 ^ 63 + 1))
        empty_heap).1 = some 1 ∧
      init_loop sample_target 88 (2 ^ 63 + 1) 0 [] = none ∧
      rmw_service_endpoint_info_array_init_with_size sample_target
        (some rmw_get_zero_initialized_service_endpoint_info_array) (2 ^ 63 + 1)
        (some small_allocator) empty_heap = none := by
  refine ⟨by decide, by decide, by decide, by decide, by decide, by decide⟩

/-! ## Theorems: calls of the setters that return `RMW_RET_OK` -/

theorem copy_str_ok_iff (ptr : Option Nat) (str : Option String)
    (allocator : Option rcutils_allocator_t) (h h1 : Heap) (p : Option Nat) :
    _rmw_service_endpoint_info_copy_str ptr str allocator h = (RMW_RET_OK, p, h1) ↔
      ∃ s a, str = some s ∧ allocator = some a ∧ a.grants (s.length + 1) = true ∧
        p = some h.fresh ∧
        h1 = Heap.mk (h.cells ++ [Cell.mk h.fresh (s.length + 1) (Block.string s)]) h.freed := by
  cases str with
  | none => simp [_rmw_service_endpoint_info_copy_str]
  | some s =>
    cases allocator with
    | none => simp [_rmw_service_endpoint_info_copy_str]
    | some a =>
      cases hg : a.grants (s.length + 1)
      · simp [_rmw_service_endpoint_info_copy_str, rcutils_strdup, allocate, hg]
      · have hal := allocate_of_grants a (s.length + 1) h hg
        have hst := store_after_allocate a (s.length + 1) h _ h.fresh (Block.string s) hal
        simp only [_rmw_service_endpoint_info_copy_str, rcutils_strdup, hal, Prod.mk.injEq,
          true_and, Option.some.injEq, exists_and_left, exists_eq_left', hg]
        constructor
        · rintro ⟨rfl, rfl⟩
          refine ⟨rfl, ?_⟩
          rcases hh : Heap.store _ h.fresh (Block.string s) with ⟨cs, fr⟩
          rw [hh] at hst
          simp only at hst
          rw [hst.2.1, hst.2.2]
        · rintro ⟨rfl, rfl⟩
          refine ⟨rfl, ?_⟩
          rcases hh : Heap.store _ h.fresh (Block.string s) with ⟨cs, fr⟩
          rw [hh] at hst
          simp only at hst
          rw [hst.2.1, hst.2.2]

theorem string_setter_ok_iff (ptr : Option Nat) (str : Option String)
    (allocator : Option rcutils_allocator_t) (h h1 : Heap)
    (info1 : rmw_service_endpoint_info_t) (upd : Option Nat → rmw_service_endpoint_info_t) :
    (match _rmw_service_endpoint_info_copy_str ptr str allocator h with
      | (ret, p, g) => some (ret, some (upd p), g)) = some (RMW_RET_OK, some info1, h1) ↔
      ∃ s a, str = some s ∧ allocator = some a ∧ a.grants (s.length + 1) = true ∧
        info1 = upd (some h.fresh) ∧
        h1 = Heap.mk (h.cells ++ [Cell.mk h.fresh (s.length + 1) (Block.string s)]) h.freed := by
  rcases hcs : _rmw_service_endpoint_info_copy_str ptr str allocator h with ⟨ret, p, g⟩
  simp only [Option.some.injEq, Prod.mk.injEq]
  constructor
  · rintro ⟨rfl, rfl, rfl⟩
    obtain ⟨s, a, hs, ha, hg, hp, hh⟩ := (copy_str_ok_iff ptr str allocator h g p).mp hcs
    exact ⟨s, a, hs, ha, hg, by rw [hp], hh⟩
  · rintro ⟨s, a, hs, ha, hg, hi, hh⟩
    have := (copy_str_ok_iff ptr str allocator h h1 (some h.fresh)).mpr
      ⟨s, a, hs, ha, hg, rfl, hh⟩
    rw [hcs] at this
    simp only [Prod.mk.injEq] at this
    obtain ⟨rfl, rfl, rfl⟩ := this
    exact ⟨rfl, hi.symm, rfl⟩

theorem store_fresh (h : Heap) (n : Nat) (b : Block) :
    Heap.store { h with cells := h.cells ++ [{ addr := h.fresh, size := n, content := Block.raw }] }
        h.fresh b =
      Heap.mk (h.cells ++ [Cell.mk h.fresh n b]) h.freed := by
  simp only [Heap.store, List.map_append, List.map_cons, List.map_nil, if_true]
  congr 1
  congr 1
  rw [List.map_congr_left, List.map_id]
  intro c hc
  have := lt_fresh h c hc
  have hne : c.addr ≠ h.fresh := by omega
  simp [hne]

theorem call_ok_iff (t : Target) (c : Setter) (info info1 : rmw_service_endpoint_info_t)
    (h h1 : Heap) :
    c.call t (some info) h = some (RMW_RET_OK, some info1, h1) ↔
      c.accepted t ∧ info1 = c.write h.fresh info ∧ h1 = c.extend t h := by
  cases c with
  | set_service_type str allocator =>
    simp only [Setter.call, rmw_service_endpoint_info_set_service_type]
    rw [string_setter_ok_iff info.service_type str allocator h h1 info1
      (fun p => { info with service_type := p })]
    constructor
    · rintro ⟨s, a, rfl, rfl, hg, hi, hh⟩
      exact ⟨hg, hi, hh⟩
    · cases str <;> cases allocator <;> simp [Setter.accepted, Setter.write, Setter.extend,
        Setter.payload]
  | set_node_name str allocator =>
    simp only [Setter.call, rmw_service_endpoint_info_set_node_name]
    rw [string_setter_ok_iff info.node_name str allocator h h1 info1
      (fun p => { info with node_name := p })]
    constructor
    · rintro ⟨s, a, rfl, rfl, hg, hi, hh⟩
      exact ⟨hg, hi, hh⟩
    · cases str <;> cases allocator <;> simp [Setter.accepted, Setter.write, Setter.extend,
        Setter.payload]
  | set_node_namespace str allocator =>
    simp only [Setter.call, rmw_service_endpoint_info_set_node_namespace]
    rw [string_setter_ok_iff info.node_namespace str allocator h h1 info1
      (fun p => { info with node_namespace := p })]
    constructor
    · rintro ⟨s, a, rfl, rfl, hg, hi, hh⟩
      exact ⟨hg, hi, hh⟩
    · cases str <;> cases allocator <;> simp [Setter.accepted, Setter.write, Setter.extend,
        Setter.payload]
  | set_service_type_hash th =>
    cases th <;> simp [Setter.call, rmw_service_endpoint_info_set_service_type_hash,
      Setter.accepted, Setter.write, Setter.extend, Setter.payload, eq_comm]
  | set_endpoint_type ty =>
    simp [Setter.call, rmw_service_endpoint_info_set_endpoint_type,
      Setter.accepted, Setter.write, Setter.extend, Setter.payload, eq_comm]
  | set_endpoint_count n =>
    by_cases hn : n = 1 ∨ n = 2
    · rcases hn with rfl | rfl <;>
        simp [Setter.call, rmw_service_endpoint_info_set_endpoint_count,
          Setter.accepted, Setter.write, Setter.extend, Setter.payload, eq_comm]
    · have h1n : n ≠ 1 := fun hh => hn (Or.inl hh)
      have h2n : n ≠ 2 := fun hh => hn (Or.inr hh)
      simp [Setter.call, rmw_service_endpoint_info_set_endpoint_count,
        Setter.accepted, h1n, h2n]
  | set_gids gids n size allocator =>
    simp only [Setter.call, rmw_service_endpoint_info_set_gids]
    by_cases hsz : size > t.RMW_GID_STORAGE_SIZE
    · have hle : ¬ size ≤ t.RMW_GID_STORAGE_SIZE := by omega
      cases gids <;> cases allocator <;> simp [hsz, Setter.accepted, hle]
    · by_cases hn : n = 1 ∨ n = 2
      swap
      · have h1n : n ≠ 1 := fun hh => hn (Or.inl hh)
        have h2n : n ≠ 2 := fun hh => hn (Or.inr hh)
        cases gids <;> cases allocator <;> simp [hsz, h1n, h2n, Setter.accepted]
      · have hcond : (!(n == 1 || n == 2)) = false := by
          rcases hn with rfl | rfl <;> rfl
        simp only [hsz, if_false, hcond, Bool.false_eq_true]
        cases allocator with
        | none => cases gids <;> simp [Setter.accepted]
        | some a =>
          cases hg : a.grants (t.size_mul n t.RMW_GID_STORAGE_SIZE)
          · cases gids <;> simp [allocate, hg, Setter.accepted]
          · simp only [allocate_of_grants a _ h hg]
            cases gids with
            | none => simp [Setter.accepted]
            | some src =>
              by_cases hlen : src.length < t.size_mul t.RMW_GID_STORAGE_SIZE n
              · have hle : ¬ t.size_mul t.RMW_GID_STORAGE_SIZE n ≤ src.length := by omega
                simp [memcpy, hlen, Setter.accepted, hle]
              · have hle : t.size_mul t.RMW_GID_STORAGE_SIZE n ≤ src.length := by omega
                have hsz1 : size ≤ t.RMW_GID_STORAGE_SIZE := by omega
                simp only [memcpy, hlen, if_false, Option.some.injEq, Prod.mk.injEq, true_and,
                  Setter.accepted, hsz1, hn, hle, hg, and_self, Setter.write, Setter.extend,
                  Setter.payload, store_fresh, List.drop_replicate, Nat.sub_self,
                  List.replicate_zero, List.append_nil]
                constructor
                · rintro ⟨rfl, rfl⟩
                  exact ⟨rfl, rfl⟩
                · rintro ⟨rfl, rfl⟩
                  exact ⟨rfl, rfl⟩
  | set_qos_profiles qos n allocator =>
    simp only [Setter.call, rmw_service_endpoint_info_set_qos_profiles]
    cases qos with
    | none => simp [Setter.accepted]
    | some src =>
      by_cases hn : n = 1 ∨ n = 2
      swap
      · have h1n : n ≠ 1 := fun hh => hn (Or.inl hh)
        have h2n : n ≠ 2 := fun hh => hn (Or.inr hh)
        cases allocator <;> simp [h1n, h2n, Setter.accepted]
      · have hcond : (!(n == 1 || n == 2)) = false := by
          rcases hn with rfl | rfl <;> rfl
        simp only [hcond, Bool.false_eq_true, if_false]
        cases allocator with
        | none => simp [Setter.accepted]
        | some a =>
          cases hg : a.grants (t.size_mul n t.sizeof_rmw_qos_profile_t)
          · simp [allocate, hg, Setter.accepted]
          · simp only [allocate_of_grants a _ h hg]
            by_cases hlen : src.length < n
            · have hle : ¬ n ≤ src.length := by omega
              simp [memcpy, hlen, Setter.accepted, hle]
            · have hle : n ≤ src.length := by omega
              simp only [memcpy, hlen, if_false, Option.some.injEq, Prod.mk.injEq, true_and,
                Setter.accepted, hn, hle, hg, and_self, Setter.write, Setter.extend,
                Setter.payload, store_fresh, List.drop_nil, List.append_nil]
              constructor
              · rintro ⟨rfl, rfl⟩
                exact ⟨rfl, rfl⟩
              · rintro ⟨rfl, rfl⟩
                exact ⟨rfl, rfl⟩

theorem content_extend (h : Heap) (n : Nat) (b : Block) (q : Nat) :
    (Heap.mk (h.cells ++ [Cell.mk h.fresh n b]) h.freed).content q =
      if q = h.fresh then some b else h.content q := by
  have hal := allocate_of_grants ⟨fun _ => true, true, true⟩ n h rfl
  obtain ⟨h1, h2, -⟩ := content_allocate _ n h _ h.fresh hal
  rw [← store_fresh, content_store]
  by_cases hq : q = h.fresh
  · subst hq
    simp [h1]
  · simp [hq, h2 q hq]

theorem is_live_extend (h : Heap) (n : Nat) (b : Block) (q : Nat) :
    (Heap.mk (h.cells ++ [Cell.mk h.fresh n b]) h.freed).is_live q =
      (h.is_live q || decide (q = h.fresh)) := by
  simp [Heap.is_live, List.any_append, eq_comm]

theorem fresh_extend (h : Heap) (n : Nat) (b : Block) :
    (Heap.mk (h.cells ++ [Cell.mk h.fresh n b]) h.freed).fresh = h.fresh + 1 := by
  have key : ∀ (l : List Nat) (x : Nat), (∀ y ∈ l, y ≤ x) →
      (l ++ [x]).foldr max 0 = x := by
    intro l x
    induction l with
    | nil => intro _; simp
    | cons a rest ih =>
      intro hle
      simp only [List.cons_append, List.foldr_cons]
      rw [ih (fun y hy => hle y (List.mem_cons_of_mem _ hy))]
      exact Nat.max_eq_right (hle a (List.mem_cons_self _ _))
  simp only [Heap.fresh, List.map_append, List.map_cons, List.map_nil]
  rw [key]
  intro y hy
  rw [List.mem_map] at hy
  obtain ⟨c, hc, rfl⟩ := hy
  have := lt_fresh h c hc
  unfold Heap.fresh at this
  omega

theorem owned_write (c : Setter) (p : Nat) (info : rmw_service_endpoint_info_t) :
    owned_pointers (c.write p info) =
      match c.field with
      | none => owned_pointers info
      | some i => (owned_pointers info).set i (some p) := by
  cases c <;> rfl

theorem mask_write (c : Setter) (p : Nat) (info : rmw_service_endpoint_info_t) :
    c.mask (c.write p info) = c.mask info := by
  cases c <;> rfl

theorem values_write (c : Setter) (p : Nat) (info : rmw_service_endpoint_info_t)
    (hf : c.member < 5) : values (c.write p info) = values info := by
  cases c <;> first | rfl | (simp [Setter.member] at hf)

theorem payload_of_accepted (t : Target) (c : Setter) (hacc : c.accepted t) :
    (c.field = none ∧ c.payload t = none) ∨
      ∃ i n b, c.field = some i ∧ i < 5 ∧ c.member = i ∧ c.payload t = some (n, b) := by
  cases c with
  | set_service_type str allocator =>
    cases str <;> cases allocator <;> simp [Setter.accepted] at hacc
    right
    exact ⟨2, _, _, rfl, by omega, rfl, rfl⟩
  | set_node_name str allocator =>
    cases str <;> cases allocator <;> simp [Setter.accepted] at hacc
    right
    exact ⟨0, _, _, rfl, by omega, rfl, rfl⟩
  | set_node_namespace str allocator =>
    cases str <;> cases allocator <;> simp [Setter.accepted] at hacc
    right
    exact ⟨1, _, _, rfl, by omega, rfl, rfl⟩
  | set_service_type_hash th => exact Or.inl ⟨rfl, by cases th <;> rfl⟩
  | set_endpoint_type ty => exact Or.inl ⟨rfl, rfl⟩
  | set_endpoint_count n => exact Or.inl ⟨rfl, rfl⟩
  | set_gids gids n size allocator =>
    cases gids <;> cases allocator <;> simp [Setter.accepted] at hacc
    right
    exact ⟨3, _, _, rfl, by omega, rfl, rfl⟩
  | set_qos_profiles qos n allocator =>
    cases qos <;> cases allocator <;> simp [Setter.accepted] at hacc
    right
    exact ⟨4, _, _, rfl, by omega, rfl, rfl⟩

theorem not_mem_set_of_pairwise (l : List (Option Nat)) (i q p : Nat)
    (hp : l.Pairwise (fun x y => x = none ∨ x ≠ y)) (hi : l.get? i = some (some q))
    (hpq : p ≠ q) : some q ∉ l.set i (some p) := by
  induction l generalizing i with
  | nil => simp
  | cons a rest ih =>
    rw [List.pairwise_cons] at hp
    cases i with
    | zero =>
      simp only [List.get?_cons_zero, Option.some.injEq] at hi
      subst hi
      simp only [List.set_cons_zero, List.mem_cons, Option.some.injEq, not_or]
      refine ⟨fun hh => hpq hh.symm, ?_⟩
      intro hmem
      rcases hp.1 _ hmem with h1 | h1
      · simp at h1
      · exact h1 rfl
    | succ j =>
      simp only [List.get?_cons_succ] at hi
      simp only [List.set_cons_succ, List.mem_cons, not_or]
      refine ⟨?_, ih j hp.2 hi⟩
      intro hh
      have hmem : some q ∈ rest := by
        rw [List.get?_eq_some] at hi
        obtain ⟨hlt, hget⟩ := hi
        rw [← hget]
        exact List.get_mem _ _ _
      rcases hp.1 _ hmem with h1 | h1
      · rw [← hh] at h1
        simp at h1
      · exact h1 hh.symm

theorem owns_sample : owns sample_info sample_heap := by
  constructor
  · intro p hp
    simp only [owned_pointers, sample_info, List.mem_cons, Option.some.injEq,
      List.mem_singleton, List.not_mem_nil, or_false] at hp
    rcases hp with rfl | rfl | rfl | rfl | rfl <;> decide
  · decide

theorem content_of_live (h : Heap) (p : Nat) (hl : h.is_live p = true) :
    ∃ b, h.content p = some b := by
  cases hc : h.content p with
  | some b => exact ⟨b, rfl⟩
  | none =>
    unfold Heap.content at hc
    unfold Heap.is_live at hl
    rw [Option.map_eq_none', List.find?_eq_none] at hc
    rw [List.any_eq_true] at hl
    obtain ⟨c, hmem, hcp⟩ := hl
    exact absurd hcp (hc c hmem)

theorem pointed_step (t : Target) (c : Setter) (info : rmw_service_endpoint_info_t) (h : Heap)
    (hacc : c.accepted t) (hown : owns info h) :
    pointed (c.write h.fresh info) (c.extend t h) =
      match c.field, c.payload t with
      | some i, some (_, b) => (pointed info h).set i (some b)
      | _, _ => pointed info h := by
  rcases payload_of_accepted t c hacc with ⟨hf, hpay⟩ | ⟨j, n, b, hf, -, -, hpay⟩
  · simp only [hf, hpay, pointed, owned_write, Setter.extend]
  · have hext : c.extend t h = Heap.mk (h.cells ++ [Cell.mk h.fresh n b]) h.freed := by
      simp [Setter.extend, hpay]
    simp only [hf, hpay, pointed, owned_write, hext, List.map_set]
    congr 1
    · apply List.map_congr_left
      intro x hx
      cases x with
      | none => rfl
      | some q =>
        have hq := hown.1 q hx
        have hne : q ≠ h.fresh := by
          intro hh
          have := fresh_not_live h
          rw [← hh, hq] at this
          simp at this
        show (Heap.mk (h.cells ++ [Cell.mk h.fresh n b]) h.freed).content q = h.content q
        rw [content_extend, if_neg hne]
    · show (Heap.mk (h.cells ++ [Cell.mk h.fresh n b]) h.freed).content h.fresh = some b
      rw [content_extend, if_pos rfl]

theorem is_some_pointed (info : rmw_service_endpoint_info_t) (h : Heap) (hown : owns info h) :
    (pointed info h).map Option.isSome = (owned_pointers info).map Option.isSome := by
  simp only [pointed, List.map_map]
  apply List.map_congr_left
  intro x hx
  cases x with
  | none => rfl
  | some q =>
    obtain ⟨b, hb⟩ := content_of_live h q (hown.1 q hx)
    simp [hb]

theorem values_write_comm (c1 c2 : Setter) (p1 p2 q1 q2 : Nat)
    (info : rmw_service_endpoint_info_t) (hne : c1.member ≠ c2.member) :
    values (c1.write p1 (c2.write p2 info)) = values (c2.write q2 (c1.write q1 info)) := by
  cases c1 <;> cases c2 <;> first | rfl | exact absurd rfl hne

/-! ## Claims about the setters: a second call, the other members, the order of calls -/

/-- C32. An allocating setter (a string member, the gids or the QoS profiles) called with
accepted arguments on a record that owns its memory and whose member `i` already points to an
allocation `q`: the call returns `RMW_RET_OK`; the member points to a new allocation `p`,
which holds the copy; nothing is released, so that `q` is still allocated with its content;
and no pointer member of the record is `q` any more. -/
theorem second_call_leaks (t : Target) (c : Setter) (info : rmw_service_endpoint_info_t)
    (h : Heap) (i q : Nat) (hacc : c.accepted t) (hfield : c.field = some i)
    (hset : (owned_pointers info).get? i = some (some q)) (hown : owns info h) :
    ∃ info1 h1 p n b,
      c.call t (some info) h = some (RMW_RET_OK, some info1, h1) ∧
      (owned_pointers info1).get? i = some (some p) ∧ p ≠ q ∧ h.is_live p = false ∧
      c.payload t = some (n, b) ∧ h1.content p = some b ∧
      h1.freed = h.freed ∧ h1.is_live q = true ∧ h1.content q = h.content q ∧
      some q ∉ owned_pointers info1 := by
  have hcall := (call_ok_iff t c info _ h _).mpr ⟨hacc, rfl, rfl⟩
  have hqmem : some q ∈ owned_pointers info := by
    rw [List.get?_eq_some] at hset
    obtain ⟨hlt, hget⟩ := hset
    rw [← hget]
    exact List.get_mem _ _ _
  have hqlive := hown.1 q hqmem
  have hne : h.fresh ≠ q := by
    intro hh
    have := fresh_not_live h
    rw [hh, hqlive] at this
    simp at this
  rcases payload_of_accepted t c hacc with ⟨hf, -⟩ | ⟨j, n, b, hf, hj, -, hpay⟩
  · rw [hf] at hfield
    simp at hfield
  · rw [hf] at hfield
    simp only [Option.some.injEq] at hfield
    subst hfield
    have hext : c.extend t h = Heap.mk (h.cells ++ [Cell.mk h.fresh n b]) h.freed := by
      simp [Setter.extend, hpay]
    have hptr : owned_pointers (c.write h.fresh info) =
        (owned_pointers info).set j (some h.fresh) := by
      rw [owned_write, hf]
    refine ⟨_, _, h.fresh, n, b, hcall, ?_, hne, fresh_not_live h, hpay, ?_, ?_, ?_, ?_, ?_⟩
    · rw [hptr, List.get?_eq_getElem?, List.getElem?_set_self]
      simp [owned_pointers, hj]
    · rw [hext, content_extend]
      simp
    · rw [hext]
    · rw [hext, is_live_extend, hqlive]
      rfl
    · rw [hext, content_extend, if_neg (fun hh : q = h.fresh => hne hh.symm)]
    · rw [hptr]
      exact not_mem_set_of_pairwise _ j q h.fresh hown.2 hset hne

/-- Witness of C32: a second call of `rmw_service_endpoint_info_set_node_name` on the populated
record `sample_info`, whose name is the allocation 4. -/
theorem second_call_leaks_witness :
    ∃ info1 h1 p n b,
      (Setter.set_node_name (some "other") (some serving_allocator)).call sample_target
        (some sample_info) sample_heap = some (RMW_RET_OK, some info1, h1) ∧
      (owned_pointers info1).get? 0 = some (some p) ∧ p ≠ 4 ∧ sample_heap.is_live p = false ∧
      (Setter.set_node_name (some "other") (some serving_allocator)).payload sample_target =
        some (n, b) ∧ h1.content p = some b ∧
      h1.freed = sample_heap.freed ∧ h1.is_live 4 = true ∧
      h1.content 4 = sample_heap.content 4 ∧ some 4 ∉ owned_pointers info1 :=
  second_call_leaks sample_target (.set_node_name (some "other") (some serving_allocator))
    sample_info sample_heap 0 4 (by simp [Setter.accepted, serving_allocator]) rfl rfl
    owns_sample

/-- C33. A setter call that returns `RMW_RET_OK` changes only the member it writes: the record
after the call agrees with the record before it on every other member. Consequently, on a
record that owns its memory, when a call of a setter of another member also returns
`RMW_RET_OK` after it, the two calls return `RMW_RET_OK` in the other order too, and the two
orders leave the same record up to the addresses of the copies: the same type hash, endpoint
type and endpoint count, pointer members that point to the same content, and the same pointer
members `NULL`. -/
theorem setter_changes_own_member (t : Target) (c1 : Setter)
    (info i1 : rmw_service_endpoint_info_t) (h h1 : Heap)
    (hc1 : c1.call t (some info) h = some (RMW_RET_OK, some i1, h1)) :
    c1.mask i1 = c1.mask info ∧
    ∀ (c2 : Setter) (i12 : rmw_service_endpoint_info_t) (h12 : Heap),
      c1.member ≠ c2.member → owns info h →
      c2.call t (some i1) h1 = some (RMW_RET_OK, some i12, h12) →
      ∃ i2 h2 i21 h21,
        c2.call t (some info) h = some (RMW_RET_OK, some i2, h2) ∧
        c1.call t (some i2) h2 = some (RMW_RET_OK, some i21, h21) ∧
        values i21 = values i12 ∧ pointed i21 h21 = pointed i12 h12 ∧
        (owned_pointers i21).map Option.isSome = (owned_pointers i12).map Option.isSome := by
  have hc1a := hc1
  obtain ⟨acc1, rfl, rfl⟩ := (call_ok_iff t c1 info i1 h h1).mp hc1
  refine ⟨mask_write c1 _ info, ?_⟩
  intro c2 i12 h12 hne hown hc2
  have hc2a := hc2
  obtain ⟨acc2, rfl, rfl⟩ := (call_ok_iff t c2 _ i12 _ h12).mp hc2
  have hcA := (call_ok_iff t c2 info _ h _).mpr ⟨acc2, rfl, rfl⟩
  have hcB := (call_ok_iff t c1 (c2.write h.fresh info) _ (c2.extend t h) _).mpr
    ⟨acc1, rfl, rfl⟩
  have hown1 := setter_keeps_owns t c1 info _ h _ hc1a hown
  have hown12 := setter_keeps_owns t c2 _ _ _ _ hc2a hown1
  have hown2 := setter_keeps_owns t c2 info _ h _ hcA hown
  have hown21 := setter_keeps_owns t c1 _ _ _ _ hcB hown2
  have hpointed : pointed (c1.write (c2.extend t h).fresh (c2.write h.fresh info))
        (c1.extend t (c2.extend t h)) =
      pointed (c2.write (c1.extend t h).fresh (c1.write h.fresh info))
        (c2.extend t (c1.extend t h)) := by
    rw [pointed_step t c1 _ _ acc1 hown2, pointed_step t c2 info h acc2 hown,
      pointed_step t c2 _ _ acc2 hown1, pointed_step t c1 info h acc1 hown]
    rcases payload_of_accepted t c1 acc1 with ⟨hf1, hp1⟩ | ⟨j1, n1, b1, hf1, -, hm1, hp1⟩ <;>
      rcases payload_of_accepted t c2 acc2 with ⟨hf2, hp2⟩ | ⟨j2, n2, b2, hf2, -, hm2, hp2⟩ <;>
      simp only [hf1, hp1, hf2, hp2]
    rw [List.set_comm]
    intro hh
    exact hne (by rw [hm1, hm2, hh])
  refine ⟨_, _, _, _, hcA, hcB, values_write_comm c1 c2 _ _ _ _ info hne, hpointed, ?_⟩
  rw [← is_some_pointed _ _ hown21, ← is_some_pointed _ _ hown12, hpointed]

/-- Witness of C33: on the zero record, `rmw_service_endpoint_info_set_node_name` and then
`rmw_service_endpoint_info_set_gids`, and the two calls in the other order. -/
theorem setter_changes_own_member_witness :
    (Setter.set_node_name (some "name") (some serving_allocator)).mask
        { rmw_get_zero_initialized_service_endpoint_info with node_name := some 1 } =
      (Setter.set_node_name (some "name") (some serving_allocator)).mask
        rmw_get_zero_initialized_service_endpoint_info ∧
    ∀ (c2 : Setter) (i12 : rmw_service_endpoint_info_t) (h12 : Heap),
      (Setter.set_node_name (some "name") (some serving_allocator)).member ≠ c2.member →
      owns rmw_get_zero_initialized_service_endpoint_info empty_heap →
      c2.call sample_target
        (some { rmw_get_zero_initialized_service_endpoint_info with node_name := some 1 })
        (Heap.mk [Cell.mk 1 5 (Block.string "name")] []) =
          some (RMW_RET_OK, some i12, h12) →
      ∃ i2 h2 i21 h21,
        c2.call sample_target (some rmw_get_zero_initialized_service_endpoint_info)
          empty_heap = some (RMW_RET_OK, some i2, h2) ∧
        (Setter.set_node_name (some "name") (some serving_allocator)).call sample_target
          (some i2) h2 = some (RMW_RET_OK, some i21, h21) ∧
        values i21 = values i12 ∧ pointed i21 h21 = pointed i12 h12 ∧
        (owned_pointers i21).map Option.isSome = (owned_pointers i12).map Option.isSome :=
  setter_changes_own_member sample_target
    (.set_node_name (some "name") (some serving_allocator))
    rmw_get_zero_initialized_service_endpoint_info _ empty_heap
    (Heap.mk [Cell.mk 1 5 (Block.string "name")] []) (by decide)

/-! ## Theorems: the endpoint count of a reached record -/

theorem mask_after_call (t : Target) (c : Setter) (info info1 : rmw_service_endpoint_info_t)
    (h h1 : Heap) (ret : rmw_ret_t)
    (hc : c.call t (some info) h = some (ret, some info1, h1)) :
    c.mask info1 = c.mask info := by
  cases c
  all_goals simp only [Setter.call, rmw_service_endpoint_info_set_service_type,
    rmw_service_endpoint_info_set_service_type_hash, rmw_service_endpoint_info_set_node_name,
    rmw_service_endpoint_info_set_node_namespace, rmw_service_endpoint_info_set_endpoint_type,
    rmw_service_endpoint_info_set_endpoint_count, rmw_service_endpoint_info_set_gids,
    rmw_service_endpoint_info_set_qos_profiles] at hc
  all_goals (repeat' split at hc)
  all_goals (try simp only [Option.some.injEq, Prod.mk.injEq, reduceCtorEq, false_and] at hc)
  all_goals (obtain ⟨-, rfl, -⟩ := hc)
  all_goals rfl

theorem setter_count (t : Target) (c : Setter) (info info1 : rmw_service_endpoint_info_t)
    (h h1 : Heap) (ret : rmw_ret_t)
    (hc : c.call t (some info) h = some (ret, some info1, h1)) :
    (∀ n, c = Setter.set_endpoint_count n → ret = RMW_RET_OK →
        (n = 1 ∨ n = 2) ∧ info1.endpoint_count = n) ∧
      ((∀ n, c = Setter.set_endpoint_count n → ret ≠ RMW_RET_OK) →
        info1.endpoint_count = info.endpoint_count) := by
  constructor
  · rintro n rfl rfl
    obtain ⟨hacc, rfl, -⟩ := (call_ok_iff t _ info info1 h h1).mp hc
    exact ⟨hacc, rfl⟩
  · intro hne
    have hm := congrArg rmw_service_endpoint_info_t.endpoint_count
      (mask_after_call t c info info1 h h1 ret hc)
    cases c with
    | set_endpoint_count n =>
      have hr := hne n rfl
      simp only [Setter.call, rmw_service_endpoint_info_set_endpoint_count] at hc
      split at hc
      · simp only [Option.some.injEq, Prod.mk.injEq] at hc
        obtain ⟨-, rfl, -⟩ := hc
        rfl
      · simp only [Option.some.injEq, Prod.mk.injEq] at hc
        exact absurd hc.1.symm hr
    | _ => exact hm

theorem fini_count (info info1 : rmw_service_endpoint_info_t)
    (allocator : Option rcutils_allocator_t) (h h1 : Heap) (ret : rmw_ret_t)
    (hc : rmw_service_endpoint_info_fini (some info) allocator h = some (ret, some info1, h1)) :
    (ret = RMW_RET_OK ∧ info1 = rmw_get_zero_initialized_service_endpoint_info) ∨
      (ret ≠ RMW_RET_OK ∧ info1 = info) := by
  cases allocator with
  | none =>
    simp only [rmw_service_endpoint_info_fini, Option.some.injEq, Prod.mk.injEq] at hc
    obtain ⟨rfl, rfl, -⟩ := hc
    exact Or.inr ⟨by decide, rfl⟩
  | some a =>
    rw [fini_eq_release] at hc
    cases hr : release_all a (owned_pointers info) h with
    | none => rw [hr] at hc; simp at hc
    | some g =>
      rw [hr] at hc
      simp only [Option.map_some', Option.some.injEq, Prod.mk.injEq] at hc
      obtain ⟨rfl, rfl, -⟩ := hc
      exact Or.inl ⟨rfl, rfl⟩

theorem reached_count (t : Target) (b : Bool) (info : rmw_service_endpoint_info_t) (h : Heap)
    (hr : ReachedRecord t b info h) :
    (b = false → info.endpoint_count = 0) ∧
      (b = true → info.endpoint_count = 1 ∨ info.endpoint_count = 2) := by
  induction hr with
  | zero h => exact ⟨fun _ => rfl, fun hh => by simp at hh⟩
  | step c counted info info1 h h1 ret _ hc ih =>
    cases c with
    | fini a =>
      rcases fini_count info info1 a h h1 ret hc with ⟨rfl, rfl⟩ | ⟨hne, rfl⟩
      · exact ⟨fun _ => rfl, fun hh => by simp [RecordCall.counted] at hh⟩
      · simpa [RecordCall.counted, hne] using ih
    | setter s =>
      obtain ⟨h1s, h2s⟩ := setter_count t s info info1 h h1 ret hc
      by_cases hs : ∃ n, s = Setter.set_endpoint_count n ∧ ret = RMW_RET_OK
      · obtain ⟨n, rfl, rfl⟩ := hs
        obtain ⟨hn, hcount⟩ := h1s n rfl rfl
        rw [hcount]
        refine ⟨fun hh => by simp [RecordCall.counted] at hh, fun _ => hn⟩
      · have hsame := h2s (fun n hn hret => hs ⟨n, hn, hret⟩)
        rw [hsame]
        have hflag : (RecordCall.setter s).counted ret counted = counted := by
          cases s with
          | set_endpoint_count n =>
            have : ret ≠ RMW_RET_OK := fun hret => hs ⟨n, rfl, hret⟩
            simp [RecordCall.counted, this]
          | _ => rfl
        rw [hflag]
        exact ih

/-! ## Claims about the endpoint count of a reached record -/

/-- C34. For every record reached from the zero record by calls of the setters and of
`rmw_service_endpoint_info_fini`, whatever they return, `endpoint_count` is 0, 1 or 2. -/
theorem reached_count_in_range (t : Target) (b : Bool) (info : rmw_service_endpoint_info_t)
    (h : Heap) (hr : ReachedRecord t b info h) :
    info.endpoint_count = 0 ∨ info.endpoint_count = 1 ∨ info.endpoint_count = 2 := by
  obtain ⟨h0, h1⟩ := reached_count t b info h hr
  cases b
  · exact Or.inl (h0 rfl)
  · exact Or.inr (h1 rfl)

/-- Witness of C34: the zero record after `rmw_service_endpoint_info_set_endpoint_count` with
a count of 3, which is refused, and then with a count of 2. -/
theorem reached_count_in_range_witness :
    ({ rmw_get_zero_initialized_service_endpoint_info with endpoint_count := 2 } :
        rmw_service_endpoint_info_t).endpoint_count = 0 ∨
      ({ rmw_get_zero_initialized_service_endpoint_info with endpoint_count := 2 } :
        rmw_service_endpoint_info_t).endpoint_count = 1 ∨
      ({ rmw_get_zero_initialized_service_endpoint_info with endpoint_count := 2 } :
        rmw_service_endpoint_info_t).endpoint_count = 2 :=
  reached_count_in_range sample_target true _ empty_heap
    (ReachedRecord.step (.setter (.set_endpoint_count 2)) false _ _ _ _ RMW_RET_OK
      (ReachedRecord.step (.setter (.set_endpoint_count 3)) false _ _ _ _
        RMW_RET_INVALID_ARGUMENT (ReachedRecord.zero empty_heap) (by rfl))
      (by rfl))

/-- C35, as stated, fails: the zero record after `rmw_service_endpoint_info_set_node_name`
and `rmw_service_endpoint_info_set_endpoint_type`, both of which return `RMW_RET_OK`, has an
`endpoint_count` of 0, a `node_name` that is not `NULL` and an `endpoint_type` that is not
`RMW_ENDPOINT_INVALID`. -/
theorem count_zero_with_members_set :
    ∃ info h, ReachedRecord sample_target false info h ∧ info.endpoint_count = 0 ∧
      info.node_name = some 1 ∧ info.endpoint_type = RMW_ENDPOINT_CLIENT :=
  ⟨_, _,
    ReachedRecord.step (.setter (.set_endpoint_type RMW_ENDPOINT_CLIENT)) false _ _ _ _
      RMW_RET_OK
      (ReachedRecord.step (.setter (.set_node_name (some "name") (some serving_allocator)))
        false _ { rmw_get_zero_initialized_service_endpoint_info with node_name := some 1 }
        _ (Heap.mk [Cell.mk 1 5 (Block.string "name")] []) RMW_RET_OK
        (ReachedRecord.zero empty_heap) (by decide))
      (by rfl),
    rfl, rfl, rfl⟩

/-- C35, amended. For every record reached from the zero record by calls of the setters and
of `rmw_service_endpoint_info_fini`, `endpoint_count` is 0 exactly when
`rmw_service_endpoint_info_set_endpoint_count` has not returned `RMW_RET_OK` since the record
was last the zero record, at the start or after a finalization that returned `RMW_RET_OK`;
the mark `b` of `ReachedRecord` records this. -/
theorem count_zero_iff_not_counted (t : Target) (b : Bool)
    (info : rmw_service_endpoint_info_t) (h : Heap) (hr : ReachedRecord t b info h) :
    info.endpoint_count = 0 ↔ b = false := by
  obtain ⟨h0, h1⟩ := reached_count t b info h hr
  cases b
  · simp [h0 rfl]
  · rcases h1 rfl with hh | hh <;> simp [hh]

/-- Witness of C35, amended: the zero record after
`rmw_service_endpoint_info_set_node_name`, with the mark not set and a count of 0. -/
theorem count_zero_iff_not_counted_witness :
    ({ rmw_get_zero_initialized_service_endpoint_info with node_name := some 1 } :
      rmw_service_endpoint_info_t).endpoint_count = 0 ↔ false = false :=
  count_zero_iff_not_counted sample_target false _
    (Heap.mk [Cell.mk 1 5 (Block.string "name")] [])
    (ReachedRecord.step (.setter (.set_node_name (some "name") (some serving_allocator)))
      false _ _ _ _ RMW_RET_OK (ReachedRecord.zero empty_heap) (by decide))

/-! ## Theorems: the loop of the finalization of an array -/

theorem array_fini_loop_append (a : rcutils_allocator_t) (info_array : Option Nat)
    (k r i : Nat) (h g : Heap)
    (hk : array_fini_loop a info_array k i h = some (RMW_RET_OK, g)) :
    array_fini_loop a info_array (k + r) i h = array_fini_loop a info_array r (i + k) g := by
  induction k generalizing i h with
  | zero =>
    simp only [array_fini_loop, Option.some.injEq, Prod.mk.injEq, true_and] at hk
    subst hk
    simp
  | succ k ih =>
    rw [Nat.succ_add]
    simp only [array_fini_loop] at hk ⊢
    cases he : element h info_array i with
    | none => rw [he] at hk; simp at hk
    | some e =>
      rw [he] at hk
      simp only at hk ⊢
      cases hf : rmw_service_endpoint_info_fini e (some a) h with
      | none => rw [hf] at hk; simp at hk
      | some res =>
        obtain ⟨ret, e1, h1⟩ := res
        rw [hf] at hk
        simp only at hk ⊢
        cases hp : put_element h1 info_array i e1 with
        | none => rw [hp] at hk; simp at hk
        | some h2 =>
          rw [hp] at hk
          simp only at hk ⊢
          by_cases hret : ret = RMW_RET_OK
          · subst hret
            simp only [ne_eq, not_true_eq_false, if_false] at hk ⊢
            rw [ih (i + 1) h2 hk]
            congr 1
            omega
          · simp only [ne_eq, hret, not_false_eq_true, if_true, Option.some.injEq,
              Prod.mk.injEq] at hk
            exact hk.1.elim

theorem array_fini_loop_fails (a : rcutils_allocator_t) (info_array : Option Nat)
    (r i : Nat) (g g1 g2 : Heap) (e e1 : Option rmw_service_endpoint_info_t) (ret : rmw_ret_t)
    (helem : element g info_array i = some e)
    (hfini : rmw_service_endpoint_info_fini e (some a) g = some (ret, e1, g1))
    (hret : ret ≠ RMW_RET_OK)
    (hput : put_element g1 info_array i e1 = some g2) :
    array_fini_loop a info_array (r + 1) i g = some (ret, g2) := by
  simp [array_fini_loop, helem, hfini, hput, hret]

/-! ## Claims about the finalization of an array -/

/-- C36. When the records before index `i` of an array are finalized, which leaves the heap
`g`, and the finalization of the record at index `i < size` returns a code `ret` other than
`RMW_RET_OK`, which leaves the heap `g2`: `rmw_service_endpoint_info_array_fini` returns
`ret`, the array keeps its `size` and its `info_array`, and the heap is `g2`, the heap as the
finalization of record `i` left it: no record after `i` is finalized and the block of the
records is not released. -/
theorem array_fini_stops_at_failure (arr : rmw_service_endpoint_info_array_t)
    (a : rcutils_allocator_t) (h g g1 g2 : Heap) (i : Nat)
    (e e1 : Option rmw_service_endpoint_info_t) (ret : rmw_ret_t) (hi : i < arr.size)
    (hbefore : array_fini_loop a arr.info_array i 0 h = some (RMW_RET_OK, g))
    (helem : element g arr.info_array i = some e)
    (hfini : rmw_service_endpoint_info_fini e (some a) g = some (ret, e1, g1))
    (hret : ret ≠ RMW_RET_OK)
    (hput : put_element g1 arr.info_array i e1 = some g2) :
    rmw_service_endpoint_info_array_fini (some arr) (some a) h = some (ret, some arr, g2) ∧
      array_fini_loop a arr.info_array arr.size 0 h =
        array_fini_loop a arr.info_array (i + 1) 0 h := by
  have hsplit : arr.size = i + ((arr.size - i - 1) + 1) := by omega
  have hloop : array_fini_loop a arr.info_array arr.size 0 h = some (ret, g2) := by
    rw [hsplit, array_fini_loop_append a arr.info_array i _ 0 h g hbefore, Nat.zero_add]
    exact array_fini_loop_fails a arr.info_array _ i g g1 g2 e e1 ret helem hfini hret hput
  have hloop1 : array_fini_loop a arr.info_array (i + 1) 0 h = some (ret, g2) := by
    rw [array_fini_loop_append a arr.info_array i 1 0 h g hbefore, Nat.zero_add]
    exact array_fini_loop_fails a arr.info_array 0 i g g1 g2 e e1 ret helem hfini hret hput
  refine ⟨?_, by rw [hloop, hloop1]⟩
  simp [rmw_service_endpoint_info_array_fini, hloop, hret]

/-- Witness of C36: an array of size 3 whose `info_array` is `NULL`; the finalization of the
record at index 0 returns `RMW_RET_INVALID_ARGUMENT`. -/
theorem array_fini_stops_at_failure_witness :
    rmw_service_endpoint_info_array_fini (some { size := 3, info_array := none })
        (some serving_allocator) sample_heap =
      some (RMW_RET_INVALID_ARGUMENT, some { size := 3, info_array := none }, sample_heap) ∧
    array_fini_loop serving_allocator none 3 0 sample_heap =
      array_fini_loop serving_allocator none (0 + 1) 0 sample_heap :=
  array_fini_stops_at_failure { size := 3, info_array := none } serving_allocator sample_heap
    sample_heap sample_heap sample_heap 0 none none RMW_RET_INVALID_ARGUMENT (by decide)
    (by rfl) (by rfl) (by rfl) (by decide) (by rfl)

/-! ## Theorems: arrays whose records own their memory -/

theorem call_some (t : Target) (c : Setter) (info : rmw_service_endpoint_info_t)
    (o : Option rmw_service_endpoint_info_t) (h h1 : Heap) (ret : rmw_ret_t)
    (hc : c.call t (some info) h = some (ret, o, h1)) : ∃ info1, o = some info1 := by
  cases c
  all_goals simp only [Setter.call, rmw_service_endpoint_info_set_service_type,
    rmw_service_endpoint_info_set_service_type_hash, rmw_service_endpoint_info_set_node_name,
    rmw_service_endpoint_info_set_node_namespace, rmw_service_endpoint_info_set_endpoint_type,
    rmw_service_endpoint_info_set_endpoint_count, rmw_service_endpoint_info_set_gids,
    rmw_service_endpoint_info_set_qos_profiles] at hc
  all_goals (repeat' split at hc)
  all_goals (try simp only [Option.some.injEq, Prod.mk.injEq, reduceCtorEq, false_and] at hc)
  all_goals (obtain ⟨-, rfl, -⟩ := hc)
  all_goals exact ⟨_, rfl⟩

theorem get_set_cases {α : Type} (l : List α) (i k : Nat) (a x : α)
    (h : (l.set i a).get? k = some x) :
    (k = i ∧ x = a ∧ i < l.length) ∨ (k ≠ i ∧ l.get? k = some x) := by
  by_cases hk : k = i
  · subst hk
    left
    rw [List.get?_eq_getElem?, List.getElem?_set] at h
    simp only [if_true] at h
    split at h
    · simp only [Option.some.injEq] at h
      exact ⟨rfl, h.symm, by assumption⟩
    · simp at h
  · right
    refine ⟨hk, ?_⟩
    rw [List.get?_eq_getElem?, List.getElem?_set_ne (fun hh => hk hh.symm)] at h
    rw [List.get?_eq_getElem?]
    exact h

theorem owns_of_live (r : rmw_service_endpoint_info_t) (h h1 : Heap)
    (hl : ∀ q, some q ∈ owned_pointers r → h.is_live q = true → h1.is_live q = true)
    (hown : owns r h) : owns r h1 :=
  ⟨fun q hq => hl q hq (hown.1 q hq), hown.2⟩

theorem is_live_filter (h : Heap) (l : List (Option Nat)) (fr : List Nat) (q : Nat) :
    (Heap.mk (h.cells.filter (fun c => decide (some c.addr ∉ l))) fr).is_live q =
      (h.is_live q && decide (some q ∉ l)) := by
  simp only [Heap.is_live]
  induction h.cells with
  | nil => simp
  | cons c rest ih =>
    by_cases hc : some c.addr ∉ l
    · rw [List.filter_cons_of_pos (by simpa using hc)]
      simp only [List.any_cons, ih]
      by_cases hq : c.addr = q
      · subst hq
        simp [hc]
      · simp [hq]
    · rw [List.filter_cons_of_neg (by simpa using hc)]
      simp only [List.any_cons, ih]
      by_cases hq : c.addr = q
      · subst hq
        simp only [not_not] at hc
        simp [hc]
      · simp [hq]

theorem content_filter (h : Heap) (l : List (Option Nat)) (fr : List Nat) (p : Nat)
    (hp : some p ∉ l) :
    (Heap.mk (h.cells.filter (fun c => decide (some c.addr ∉ l))) fr).content p =
      h.content p := by
  simp only [Heap.content]
  congr 1
  induction h.cells with
  | nil => rfl
  | cons c rest ih =>
    by_cases hq : c.addr = p
    · have hc : some c.addr ∉ l := by rw [hq]; exact hp
      rw [List.filter_cons_of_pos (by simpa using hc)]
      rw [List.find?_cons_of_pos _ (by simpa using hq),
        List.find?_cons_of_pos _ (by simpa using hq)]
    · by_cases hc : some c.addr ∉ l
      · rw [List.filter_cons_of_pos (by simpa using hc)]
        rw [List.find?_cons_of_neg _ (by simpa using hq),
          List.find?_cons_of_neg _ (by simpa using hq)]
        exact ih
      · rw [List.filter_cons_of_neg (by simpa using hc)]
        rw [List.find?_cons_of_neg _ (by simpa using hq)]
        exact ih

theorem init_loop_records (t : Target) (bytes k i : Nat)
    (acc records : List rmw_service_endpoint_info_t)
    (h : init_loop t bytes k i acc = some records) :
    records = acc ++ List.replicate k rmw_get_zero_initialized_service_endpoint_info := by
  induction k generalizing i acc with
  | zero =>
    simp only [init_loop, Option.some.injEq] at h
    simp [h]
  | succ k ih =>
    simp only [init_loop] at h
    split at h
    · rw [ih (i + 1) _ h]
      simp [List.replicate_succ]
    · simp at h

theorem array_owns_zero_records (p n : Nat) (h : Heap)
    (hc : h.content p =
      some (Block.infos (List.replicate n rmw_get_zero_initialized_service_endpoint_info))) :
    array_owns p (List.replicate n rmw_get_zero_initialized_service_endpoint_info) h := by
  have hz : ∀ i r,
      (List.replicate n rmw_get_zero_initialized_service_endpoint_info).get? i = some r →
      r = rmw_get_zero_initialized_service_endpoint_info := by
    intro i r hr
    rw [List.get?_eq_some] at hr
    obtain ⟨hlt, hget⟩ := hr
    rw [← hget]
    exact List.eq_of_mem_replicate (List.get_mem _ _ _)
  refine ⟨hc, ?_, ?_⟩
  · intro i r hr
    rw [hz i r hr]
    exact ⟨owns_zero h, by
      simp [owned_pointers, rmw_get_zero_initialized_service_endpoint_info]⟩
  · intro i j ri rj q _ hri _ hq
    rw [hz i ri hri] at hq
    simp [owned_pointers, rmw_get_zero_initialized_service_endpoint_info] at hq

theorem init_ok_owns (t : Target) (arr0 arr : rmw_service_endpoint_info_array_t) (n : Nat)
    (a : rcutils_allocator_t) (h h1 : Heap)
    (hinit : rmw_service_endpoint_info_array_init_with_size t (some arr0) n (some a) h =
      some (RMW_RET_OK, some arr, h1)) :
    arr = { size := n, info_array := some h.fresh } ∧
      array_owns h.fresh
        (List.replicate n rmw_get_zero_initialized_service_endpoint_info) h1 := by
  simp only [rmw_service_endpoint_info_array_init_with_size] at hinit
  cases hg : a.grants (t.size_mul t.sizeof_rmw_service_endpoint_info_t n)
  · simp [allocate, hg] at hinit
  · simp only [allocate_of_grants a _ h hg] at hinit
    cases hl : init_loop t (t.size_mul t.sizeof_rmw_service_endpoint_info_t n) n 0 [] with
    | none => rw [hl] at hinit; simp at hinit
    | some records =>
      rw [hl] at hinit
      simp only [Option.some.injEq, Prod.mk.injEq, true_and, store_fresh] at hinit
      obtain ⟨rfl, rfl⟩ := hinit
      have hrec := init_loop_records t _ n 0 [] records hl
      simp only [List.nil_append] at hrec
      subst hrec
      refine ⟨rfl, array_owns_zero_records _ n _ ?_⟩
      rw [content_extend, if_pos rfl]

theorem setter_effect (t : Target) (c : Setter) (r r1 : rmw_service_endpoint_info_t)
    (h h1 : Heap) (hc : c.call t (some r) h = some (RMW_RET_OK, some r1, h1)) :
    (∀ q, h.is_live q = true → h1.is_live q = true) ∧
      (∀ q, q ≠ h.fresh → h1.content q = h.content q) ∧
      (∀ q, some q ∈ owned_pointers r1 → some q ∈ owned_pointers r ∨ q = h.fresh) := by
  obtain ⟨hacc, rfl, rfl⟩ := (call_ok_iff t c r r1 h h1).mp hc
  rcases payload_of_accepted t c hacc with ⟨hf, hpay⟩ | ⟨j, n, b, hf, -, -, hpay⟩
  · have hext : c.extend t h = h := by simp [Setter.extend, hpay]
    rw [hext, owned_write, hf]
    exact ⟨fun _ hq => hq, fun _ _ => rfl, fun _ hq => Or.inl hq⟩
  · have hext : c.extend t h = Heap.mk (h.cells ++ [Cell.mk h.fresh n b]) h.freed := by
      simp [Setter.extend, hpay]
    rw [hext, owned_write, hf]
    refine ⟨?_, ?_, ?_⟩
    · intro q hq
      rw [is_live_extend, hq]
      rfl
    · intro q hq
      rw [content_extend, if_neg hq]
    · intro q hq
      rcases List.mem_or_eq_of_mem_set hq with hm | he
      · exact Or.inl hm
      · simp only [Option.some.injEq] at he
        exact Or.inr he

theorem array_owns_setter (t : Target) (c : Setter) (p : Nat)
    (records : List rmw_service_endpoint_info_t) (h h1 : Heap) (i : Nat)
    (r r1 : rmw_service_endpoint_info_t) (hown : array_owns p records h)
    (hr : records.get? i = some r)
    (hc : c.call t (some r) h = some (RMW_RET_OK, some r1, h1)) :
    ∃ h2, put_element h1 (some p) i (some r1) = some h2 ∧
      array_owns p (records.set i r1) h2 := by
  obtain ⟨hcont, hrec, hcross⟩ := hown
  have hplive := is_live_of_content h p _ hcont
  have hfresh := fresh_not_live h
  have hpne : p ≠ h.fresh := by
    intro hh
    rw [← hh, hplive] at hfresh
    simp at hfresh
  have hilt : i < records.length := by
    rw [List.get?_eq_some] at hr
    exact hr.1
  have hownr1 := setter_keeps_owns t c r r1 h h1 hc (hrec i r hr).1
  obtain ⟨hlive, hcont1, hmem⟩ := setter_effect t c r r1 h h1 hc
  have hnotfresh : ∀ k x, records.get? k = some x → some h.fresh ∉ owned_pointers x := by
    intro k x hx hq
    have := (hrec k x hx).1.1 _ hq
    rw [hfresh] at this
    simp at this
  refine ⟨h1.store p (Block.infos (records.set i r1)), ?_, ?_, ?_, ?_⟩
  · simp [put_element, hcont1 p hpne, hcont, hilt]
  · rw [content_store, if_pos rfl, hcont1 p hpne, hcont]
    rfl
  · intro k x hx
    rcases get_set_cases records i k r1 x hx with ⟨-, hx2, -⟩ | ⟨-, hx1⟩
    · rw [hx2]
      refine ⟨owns_of_live _ h1 _ (fun q _ hq => by rw [store_is_live]; exact hq) hownr1, ?_⟩
      intro hp
      rcases hmem p hp with hm | he
      · exact (hrec i r hr).2 hm
      · exact hpne he
    · obtain ⟨ho, hp⟩ := hrec k x hx1
      exact ⟨owns_of_live _ h _
        (fun q _ hq => by rw [store_is_live]; exact hlive q hq) ho, hp⟩
  · intro a b ra rb q hab hra hrb hq hq1
    rcases get_set_cases records i a r1 ra hra with ⟨ha, hra2, -⟩ | ⟨ha, hra1⟩ <;>
      rcases get_set_cases records i b r1 rb hrb with ⟨hb, hrb2, -⟩ | ⟨hb, hrb1⟩
    · exact hab (by rw [ha, hb])
    · rw [hra2] at hq
      rcases hmem q hq with hm | he
      · subst ha
        exact hcross a b r rb q hab hr hrb1 hm hq1
      · rw [he] at hq1
        exact hnotfresh b rb hrb1 hq1
    · rw [hrb2] at hq1
      rcases hmem q hq1 with hm | he
      · subst hb
        exact hcross a b ra r q hab hra1 hr hq hm
      · rw [he] at hq
        exact hnotfresh a ra hra1 hq
    · exact hcross a b ra rb q hab hra1 hrb1 hq hq1

theorem array_owns_fini (a : rcutils_allocator_t) (p : Nat)
    (records : List rmw_service_endpoint_info_t) (h : Heap) (i : Nat)
    (r : rmw_service_endpoint_info_t) (hown : array_owns p records h)
    (hr : records.get? i = some r) :
    ∃ g h2,
      rmw_service_endpoint_info_fini (some r) (some a) h =
        some (RMW_RET_OK, some rmw_get_zero_initialized_service_endpoint_info, g) ∧
      put_element g (some p) i (some rmw_get_zero_initialized_service_endpoint_info) =
        some h2 ∧
      array_owns p (records.set i rmw_get_zero_initialized_service_endpoint_info) h2 ∧
      (∀ q, some q ∈ owned_pointers r → h2.is_live q = false) ∧
      (∀ q, h2.is_live q = true → h.is_live q = true) := by
  obtain ⟨hcont, hrec, hcross⟩ := hown
  obtain ⟨⟨hl, hpw⟩, hpr⟩ := hrec i r hr
  have hrel := release_all_eq a (owned_pointers r) h hl hpw
  have hilt : i < records.length := by
    rw [List.get?_eq_some] at hr
    exact hr.1
  have hz : ∀ q, some q ∉ owned_pointers rmw_get_zero_initialized_service_endpoint_info := by
    intro q
    simp [owned_pointers, rmw_get_zero_initialized_service_endpoint_info]
  have hcg := content_filter h (owned_pointers r)
    (((owned_pointers r).filterMap id).reverse ++ h.freed) p hpr
  have hlg := is_live_filter h (owned_pointers r)
    (((owned_pointers r).filterMap id).reverse ++ h.freed)
  generalize Heap.mk (h.cells.filter (fun c => decide (some c.addr ∉ owned_pointers r)))
    (((owned_pointers r).filterMap id).reverse ++ h.freed) = g at hrel hcg hlg
  refine ⟨g, g.store p (Block.infos
    (records.set i rmw_get_zero_initialized_service_endpoint_info)), ?_, ?_, ⟨?_, ?_, ?_⟩,
    ?_, ?_⟩
  · rw [fini_eq_release, hrel]
    rfl
  · simp only [put_element, hcg, hcont, hilt, if_true]
  · rw [content_store, if_pos rfl, hcg, hcont]
    rfl
  · intro k x hx
    rcases get_set_cases records i k _ x hx with ⟨-, hx2, -⟩ | ⟨hk, hx1⟩
    · rw [hx2]
      exact ⟨owns_zero _, hz p⟩
    · obtain ⟨ho, hp⟩ := hrec k x hx1
      refine ⟨owns_of_live _ h _ ?_ ho, hp⟩
      intro q hq hlq
      rw [store_is_live, hlg, hlq]
      have := hcross k i x r q hk hx1 hr hq
      simp [this]
  · intro a1 b ra rb q hab hra hrb hq hq1
    rcases get_set_cases records i a1 _ ra hra with ⟨ha, hra2, -⟩ | ⟨ha, hra1⟩
    · rw [hra2] at hq
      exact hz q hq
    · rcases get_set_cases records i b _ rb hrb with ⟨hb, hrb2, -⟩ | ⟨hb, hrb1⟩
      · rw [hrb2] at hq1
        exact hz q hq1
      · exact hcross a1 b ra rb q hab hra1 hrb1 hq hq1
  · intro q hq
    rw [store_is_live, hlg]
    simp [hq]
  · intro q hq
    rw [store_is_live, hlg] at hq
    simp only [Bool.and_eq_true] at hq
    exact hq.1

theorem element_of_owns (p : Nat) (records : List rmw_service_endpoint_info_t) (h : Heap)
    (i : Nat) (hown : array_owns p records h) :
    element h (some p) i = (records.get? i).map some := by
  simp only [element, hown.1]
  cases records.get? i <;> rfl

theorem array_fini_loop_owned (a : rcutils_allocator_t) (p k : Nat) :
    ∀ (i : Nat) (records : List rmw_service_endpoint_info_t) (h : Heap),
      array_owns p records h → i + k = records.length →
      ∃ g records1, array_fini_loop a (some p) k i h = some (RMW_RET_OK, g) ∧
        array_owns p records1 g ∧
        (∀ j r q, i ≤ j → records.get? j = some r → some q ∈ owned_pointers r →
          g.is_live q = false) ∧
        (∀ q, g.is_live q = true → h.is_live q = true) := by
  induction k with
  | zero =>
    intro i records h hown hlen
    refine ⟨h, records, rfl, hown, ?_, fun _ hq => hq⟩
    intro j r q hij hr _
    rw [List.get?_eq_some] at hr
    obtain ⟨hlt, -⟩ := hr
    omega
  | succ k ih =>
    intro i records h hown hlen
    have hilt : i < records.length := by omega
    obtain ⟨r, hr⟩ : ∃ r, records.get? i = some r :=
      ⟨records.get ⟨i, hilt⟩, List.get?_eq_get hilt⟩
    obtain ⟨g0, h2, hfini, hput, hown2, hdead, hmono⟩ :=
      array_owns_fini a p records h i r hown hr
    have helem := element_of_owns p records h i hown
    rw [hr] at helem
    obtain ⟨g, records1, hloop, hown1, hdead1, hmono1⟩ :=
      ih (i + 1) _ h2 hown2 (by rw [List.length_set]; omega)
    refine ⟨g, records1, ?_, hown1, ?_, fun q hq => hmono q (hmono1 q hq)⟩
    · simp only [array_fini_loop, helem, Option.map_some', hfini, hput, ne_eq,
        not_true_eq_false, if_false]
      exact hloop
    · intro j x q hij hx hq
      by_cases hji : j = i
      · subst hji
        rw [hr] at hx
        simp only [Option.some.injEq] at hx
        subst hx
        cases hg : g.is_live q with
        | false => rfl
        | true =>
          have := hmono1 q hg
          rw [hdead q hq] at this
          simp at this
      · apply hdead1 j x q (by omega) _ hq
        rw [List.get?_eq_getElem?, List.getElem?_set_ne (fun hh => hji hh.symm),
          ← List.get?_eq_getElem?]
        exact hx

theorem populate_array_owns (t : Target) (p : Nat) (calls : List (Nat × Setter)) :
    ∀ (records : List rmw_service_endpoint_info_t) (h h1 : Heap),
      array_owns p records h → populate_array t (some p) calls h = some h1 →
      ∃ records1, array_owns p records1 h1 ∧ records1.length = records.length := by
  induction calls with
  | nil =>
    intro records h h1 hown hpop
    simp only [populate_array, Option.some.injEq] at hpop
    subst hpop
    exact ⟨records, hown, rfl⟩
  | cons ic rest ih =>
    intro records h h1 hown hpop
    obtain ⟨i, c⟩ := ic
    simp only [populate_array, element_of_owns p records h i hown] at hpop
    cases hr : records.get? i with
    | none => rw [hr] at hpop; simp at hpop
    | some r =>
      rw [hr] at hpop
      simp only [Option.map_some'] at hpop
      cases hcall : c.call t (some r) h with
      | none => rw [hcall] at hpop; simp at hpop
      | some res =>
        obtain ⟨ret, o, g⟩ := res
        obtain ⟨r1, rfl⟩ := call_some t c r o h g ret hcall
        rw [hcall] at hpop
        cases ret
        case RMW_RET_OK =>
          obtain ⟨h2, hput, hown2⟩ := array_owns_setter t c p records h g i r r1 hown hr hcall
          simp only [hput] at hpop
          obtain ⟨records1, hown1, hlen⟩ := ih _ h2 h1 hown2 hpop
          exact ⟨records1, hown1, by rw [hlen, List.length_set]⟩
        all_goals simp at hpop

theorem is_live_deallocate (a : rcutils_allocator_t) (g h2 : Heap) (p q : Nat)
    (hd : deallocate a (some p) g = some h2) :
    h2.is_live q = (g.is_live q && !decide (q = p)) := by
  simp only [deallocate] at hd
  split at hd
  · simp only [Option.some.injEq] at hd
    subst hd
    simp only [Heap.is_live]
    induction g.cells with
    | nil => simp
    | cons c rest ih =>
      by_cases hc : c.addr = p
      · rw [List.filter_cons_of_neg (by simpa using hc)]
        simp only [List.any_cons, ih]
        by_cases hq : c.addr = q
        · have : q = p := by rw [← hq, hc]
          simp [this]
        · simp [hq]
      · rw [List.filter_cons_of_pos (by simpa using hc)]
        simp only [List.any_cons, ih]
        by_cases hq : c.addr = q
        · have : q ≠ p := by rw [← hq]; exact hc
          simp [hq, this]
        · simp [hq]
  · simp at hd

/-! ## Claims about the finalization of a populated array -/

/-- C37. For an array that `rmw_service_endpoint_info_array_init_with_size` initialized with
`RMW_RET_OK` and whose records were then populated by any sequence of setter calls that
returned `RMW_RET_OK`, each made on a record of the array, and for every present allocator:
the block `info_array` holds `size` records, the finalization of every record returns
`RMW_RET_OK`, so that the loop runs to its end, `rmw_service_endpoint_info_array_fini` returns
`RMW_RET_OK` and leaves `size` 0 and `info_array` `NULL`, and afterwards neither a pointer
member of a record nor the block of the records is allocated. -/
theorem array_fini_of_populated (t : Target) (arr0 arr : rmw_service_endpoint_info_array_t)
    (n : Nat) (a0 a : rcutils_allocator_t) (calls : List (Nat × Setter)) (h0 h1 h : Heap)
    (hinit : rmw_service_endpoint_info_array_init_with_size t (some arr0) n (some a0) h0 =
      some (RMW_RET_OK, some arr, h1))
    (hpop : populate_array t arr.info_array calls h1 = some h) :
    ∃ p records g h2,
      arr.info_array = some p ∧ h.content p = some (Block.infos records) ∧
      records.length = arr.size ∧
      array_fini_loop a arr.info_array arr.size 0 h = some (RMW_RET_OK, g) ∧
      rmw_service_endpoint_info_array_fini (some arr) (some a) h =
        some (RMW_RET_OK, some { size := 0, info_array := none }, h2) ∧
      (∀ r ∈ records, ∀ q, some q ∈ owned_pointers r → h2.is_live q = false) ∧
      h2.is_live p = false := by
  obtain ⟨rfl, hown1⟩ := init_ok_owns t arr0 arr n a0 h0 h1 hinit
  obtain ⟨records, hown, hlen⟩ := populate_array_owns t h0.fresh calls _ h1 h hown1 hpop
  rw [List.length_replicate] at hlen
  obtain ⟨g, records1, hloop, hown2, hdead, -⟩ :=
    array_fini_loop_owned a h0.fresh n 0 records h hown (by rw [hlen]; omega)
  have hplive := is_live_of_content g h0.fresh _ hown2.1
  obtain ⟨h2, hd, -⟩ := deallocate_live a g h0.fresh hplive
  refine ⟨h0.fresh, records, g, h2, rfl, hown.1, hlen, hloop, ?_, ?_, ?_⟩
  · simp [rmw_service_endpoint_info_array_fini, hloop, hd]
  · intro r hr q hq
    obtain ⟨j, hj⟩ := List.get?_of_mem hr
    rw [is_live_deallocate a g h2 h0.fresh q hd, hdead j r q (Nat.zero_le _) hj hq]
    rfl
  · rw [is_live_deallocate a g h2 h0.fresh h0.fresh hd]
    simp

/-- Witness of C37: an array of two records, initialized in the empty heap, populated by
`sample_array_calls` and finalized. -/
theorem array_fini_of_populated_witness :
    ∃ p records g h2,
      (rmw_service_endpoint_info_array_t.mk 2 (some 1)).info_array = some p ∧
      sample_populated_heap.content p = some (Block.infos records) ∧
      records.length = (rmw_service_endpoint_info_array_t.mk 2 (some 1)).size ∧
      array_fini_loop serving_allocator (rmw_service_endpoint_info_array_t.mk 2 (some 1)).info_array
        (rmw_service_endpoint_info_array_t.mk 2 (some 1)).size 0 sample_populated_heap =
          some (RMW_RET_OK, g) ∧
      rmw_service_endpoint_info_array_fini (some (rmw_service_endpoint_info_array_t.mk 2 (some 1)))
        (some serving_allocator) sample_populated_heap =
          some (RMW_RET_OK, some { size := 0, info_array := none }, h2) ∧
      (∀ r ∈ records, ∀ q, some q ∈ owned_pointers r → h2.is_live q = false) ∧
      h2.is_live p = false :=
  array_fini_of_populated sample_target rmw_get_zero_initialized_service_endpoint_info_array
    (rmw_service_endpoint_info_array_t.mk 2 (some 1)) 2 serving_allocator serving_allocator
    sample_array_calls empty_heap
    (Heap.mk [Cell.mk 1 176 (Block.infos
      (List.replicate 2 rmw_get_zero_initialized_service_endpoint_info))] [])
    sample_populated_heap (by decide) (by decide)

end Rmw
